import Mathlib

/-!
# Verification of the OASIS route planner (`public/js/routePlannerUI.js`)

Shallow embedding of the `RoutePlanner` class (together with the name
resolution of `SceneManager.getSystem`) and proofs about its operations.

Modelling conventions:
* JavaScript numbers are idealised as real numbers (`ℝ`); `Math.sqrt` is
  `Real.sqrt`.  Coordinates may be absent (`Option Coords`), mirroring the
  `!system.coords` guards in the source.  `calculateDistance` reads
  `system.coords.x` without a guard, so in the source a system without
  coordinates makes it throw a `TypeError`.  The primary rendering of the
  search below is *total* (`calculateDistance` substitutes an origin
  default, `findSystemsInRange` skips a pair it cannot measure); the
  exception-aware rendering (`calculateDistanceE`, `findSystemsInRangeE`,
  `aStarLoopE`, `findRouteAuxE`, with `none` standing for a thrown
  exception) models the throw faithfully, and `findRouteAuxE_eq` proves
  the two renderings agree on every coordinate-complete catalog — so
  theorems stated over the total rendering describe exactly the source's
  non-throwing executions.
* JavaScript `Map`s keyed by strings are modelled either as association
  lists (`List (String × α)`, preserving insertion order, which matters
  wherever the source iterates over a map) or as functions
  `String → Option α` (where only `get`/`set` are used).
* JavaScript `Set`s are lists without duplicates; `add` appends (the source
  only adds absent elements, and `Set.add` keeps existing positions),
  `delete` is `List.erase`, iteration order is insertion order.
* `a || b` on numbers (`gScore.get(x) || 0`, `fScore.get(x) || Infinity`)
  is modelled by dedicated helpers — note that `0` is falsy in JavaScript,
  so `some 0 || Infinity` is `Infinity`.
* `Infinity` is modelled by `none` in an `Option ℝ` wherever the source
  stores or compares against it.
-/

namespace Oasis

/-- 3D coordinate record `{x, y, z}` in light-years. -/
structure Coords where
  x : ℝ
  y : ℝ
  z : ℝ

/-- A star system record: its `name` field and (possibly missing) `coords`. -/
structure StarSystem where
  name : String
  coords : Option Coords

/-- Euclidean distance between two coordinate records, as computed by
`calculateDistance`: `Math.sqrt(dx*dx + dy*dy + dz*dz)`. -/
noncomputable def calcDist (c1 c2 : Coords) : ℝ :=
  Real.sqrt ((c1.x - c2.x) * (c1.x - c2.x) + (c1.y - c2.y) * (c1.y - c2.y) +
    (c1.z - c2.z) * (c1.z - c2.z))

/-- `RoutePlanner.calculateDistance(system1, system2)`, total rendering:
a missing coordinate is substituted by the origin.  The source reads
`system.coords.x` without a guard, so on a system without coordinates it
actually throws a `TypeError`; the exception-aware rendering is
`calculateDistanceE`, and `findRouteAuxE_eq` proves the renderings of
`findRoute` agree whenever every catalog entry carries coordinates. -/
noncomputable def calculateDistance (s1 s2 : StarSystem) : ℝ :=
  calcDist (s1.coords.getD ⟨0, 0, 0⟩) (s2.coords.getD ⟨0, 0, 0⟩)

/-- Association-list lookup (JavaScript `Map.get`, `undefined ↦ none`). -/
def alookup {α : Type} : List (String × α) → String → Option α
  | [], _ => none
  | (k, v) :: rest, key => if k = key then some v else alookup rest key

/-- Association-list update (JavaScript `Map.set`): an existing key keeps
its position in iteration order, a fresh key is appended at the end. -/
def aset {α : Type} : List (String × α) → String → α → List (String × α)
  | [], key, v => [(key, v)]
  | (k, v0) :: rest, key, v =>
    if k = key then (k, v) :: rest else (k, v0) :: aset rest key v

/-- `SceneManager.normalizeSystemName`: `name.toLowerCase().trim()`.
Implemented structurally over the character list (lower-case every
character, then drop leading and trailing whitespace), which is the
semantics of the JavaScript expression. -/
def normalizeSystemName (name : String) : String :=
  ⟨(((name.data.map Char.toLower).dropWhile Char.isWhitespace).reverse.dropWhile
      Char.isWhitespace).reverse⟩

/-- The scene manager's system catalog: `allSystems` (name → system, in
insertion order) and `systemNameMap` (normalized name → original name). -/
structure Catalog where
  allSystems : List (String × StarSystem)
  systemNameMap : List (String × String)

/-- `SceneManager.getSystem`: case-insensitive lookup through
`systemNameMap`, then the original-name lookup in `allSystems`. -/
def Catalog.getSystem (c : Catalog) (systemName : String) : Option StarSystem :=
  match alookup c.systemNameMap (normalizeSystemName systemName) with
  | some originalName => alookup c.allSystems originalName
  | none => none

/-- An anchor record as served by `/api/anchor-systems`. -/
structure AnchorInput where
  name : String
  radius_ly : ℝ
  description : String

/-- An entry of the planner's `anchors` map:
`{...system, radius: anchor.radius_ly, description: anchor.description}`. -/
structure AnchorEntry where
  name : String
  coords : Option Coords
  radius : ℝ
  description : String

/-- A computed route object.  `pathNames` is present only on routes built
by `reconstructPath`; `waypoint` only on anchor-relayed routes. -/
structure RouteData where
  route : List StarSystem
  totalDistance : ℝ
  jumps : ℤ
  fuelRequired : ℤ
  pathNames : Option (List String)
  waypoint : Option String

/-- `this.fuelPerJump` (tons per jump). -/
def fuelPerJump : ℤ := 2

/-- The `maxIterations` cap of the A* loop. -/
def maxIterations : ℕ := 1000

/-- The mutable state of a `RoutePlanner` instance (the fields the route
engine reads or writes; rendering-only fields are out of scope).
`scene` is the `sceneManager` collaborator's catalog, `allSystems` the
planner's own copy made by `loadSystemData`. -/
structure RoutePlanner where
  scene : Catalog
  allSystems : List (String × StarSystem)
  anchors : List (String × AnchorEntry)
  currentRoute : Option RouteData
  maxJumpRange : ℝ

/-- `RoutePlanner.findSystemsInRange(centerSystem, range)`, total
rendering: every catalog entry other than the one keyed by
`centerSystem.name` whose distance from the center is `≤ range`, sorted
ascending by distance (JavaScript's sort with comparator
`a.distance - b.distance` is stable).  A pair involving a missing
coordinate is skipped here; the source instead lets `calculateDistance`
throw a `TypeError` out of the scan — the exception-aware rendering is
`findSystemsInRangeE`, which agrees with this one on coordinate-complete
catalogs (`findSystemsInRangeE_eq`). -/
noncomputable def findSystemsInRange (allSystems : List (String × StarSystem))
    (centerSystem : StarSystem) (range : ℝ) : List (StarSystem × ℝ) :=
  let systemsInRange := allSystems.filterMap (fun e =>
    if e.1 = centerSystem.name then none
    else
      match centerSystem.coords, e.2.coords with
      | some cc, some sc =>
        let distance := calcDist cc sc
        if distance ≤ range then some (e.2, distance) else none
      | _, _ => none)
  systemsInRange.mergeSort (fun a b => a.2 ≤ b.2)

/-- State of the A* loop in `findRoute`. -/
structure AStarState where
  openSet : List String
  closedSet : List String
  gScore : String → Option ℝ
  fScore : String → Option ℝ
  cameFrom : String → Option String

/-- `Map.set` for the function-modelled maps. -/
def mapSet {α : Type} (m : String → Option α) (key : String) (v : α) :
    String → Option α :=
  fun x => if x = key then some v else m x

/-- `Set.add` (idempotent; a fresh element is appended). -/
def jsSetAdd (l : List String) (x : String) : List String :=
  if l.contains x then l else l ++ [x]

/-- `fScore.get(name) || Infinity`: a missing entry — or a stored `0`,
which is falsy — counts as `Infinity` (modelled as `none`). -/
noncomputable def jsOrInf (v : Option ℝ) : Option ℝ :=
  match v with
  | some r => if r = 0 then none else some r
  | none => none

/-- `score < lowestFScore` where either side may be `Infinity` (`none`). -/
def scoreLt (score lowest : Option ℝ) : Prop :=
  match score, lowest with
  | none, _ => False
  | some _, none => True
  | some s, some l => s < l

noncomputable instance (score lowest : Option ℝ) : Decidable (scoreLt score lowest) := by
  unfold scoreLt
  rcases score with - | s <;> rcases lowest with - | l
  · exact isFalse id
  · exact isFalse id
  · exact isTrue trivial
  · exact inferInstanceAs (Decidable (s < l))

/-- The `for (const systemName of openSet)` scan selecting the open node
with the lowest f-score (`current = null`, `lowestFScore = Infinity`,
update on strict `<`; ties keep the earlier node). -/
noncomputable def selGo (fScore : String → Option ℝ) :
    List String → Option String → Option ℝ → Option String
  | [], current, _ => current
  | systemName :: rest, current, lowestFScore =>
    let score := jsOrInf (fScore systemName)
    if scoreLt score lowestFScore then selGo fScore rest (some systemName) score
    else selGo fScore rest current lowestFScore

/-- Selection of the expansion node from the open set. -/
noncomputable def selectCurrent (openSet : List String)
    (fScore : String → Option ℝ) : Option String :=
  selGo fScore openSet none none

/-- `tentativeGScore >= (gScore.get(neighbor.name) || Infinity)`:
false when the entry is missing or `0` (both give `Infinity`). -/
def geJsOrInf (t : ℝ) (g : Option ℝ) : Prop :=
  match g with
  | none => False
  | some gv => ¬gv = 0 ∧ gv ≤ t

noncomputable instance (t : ℝ) (g : Option ℝ) : Decidable (geJsOrInf t g) := by
  unfold geJsOrInf
  rcases g with - | gv
  · exact isFalse id
  · exact inferInstanceAs (Decidable (¬gv = 0 ∧ gv ≤ t))

/-- One step of the neighbor-relaxation loop inside the A* iteration
(the `for (const { system: neighbor, distance } of neighbors)` body). -/
noncomputable def relaxNeighbor (endSystem : StarSystem) (current : String)
    (st : AStarState) (nd : StarSystem × ℝ) : AStarState :=
  let neighbor := nd.1
  let distance := nd.2
  if st.closedSet.contains neighbor.name then st
  else
    let tentativeGScore := (st.gScore current).getD 0 + distance
    let update : AStarState → AStarState := fun s =>
      { s with
        cameFrom := mapSet s.cameFrom neighbor.name current
        gScore := mapSet s.gScore neighbor.name tentativeGScore
        fScore := mapSet s.fScore neighbor.name
          (tentativeGScore + calculateDistance neighbor endSystem) }
    if st.openSet.contains neighbor.name then
      if geJsOrInf tentativeGScore (st.gScore neighbor.name) then st
      else update st
    else
      update { st with openSet := st.openSet ++ [neighbor.name] }

/-- The predecessor walk of `reconstructPath`
(`while (cameFrom.has(current)) { path.unshift(previous); ... }`).
The source loop carries no bound; in every state the search produces the
`cameFrom` chains are acyclic and shorter than `maxIterations`
(proved below), so the fuelled model returns exactly the source's path. -/
noncomputable def reconstructWalk (cameFrom : String → Option String) :
    ℕ → String → List String
  | 0, current => [current]
  | fuel + 1, current =>
    match cameFrom current with
    | none => [current]
    | some previous => reconstructWalk cameFrom fuel previous ++ [current]

/-- The `totalDistance` accumulation of `reconstructPath`, total
rendering: for each predecessor step, add the distance when both systems
resolve (`if (prevSystem && currSystem)`), with a resolved system's
missing coordinates substituted by the origin.  In the source a resolved
pair with missing coordinates instead throws out of `calculateDistance`;
the exception-aware rendering is `pathDistanceE`, which agrees with this
one on coordinate-complete catalogs (`pathDistanceE_eq`). -/
noncomputable def pathDistance (scene : Catalog) : List String → ℝ
  | a :: b :: rest =>
    (match scene.getSystem a, scene.getSystem b with
     | some prevSystem, some currSystem => calculateDistance prevSystem currSystem
     | _, _ => 0) + pathDistance scene (b :: rest)
  | _ => 0

/-- `RoutePlanner.reconstructPath(cameFrom, current, gScore)` (the
`gScore` parameter is unused in the source). -/
noncomputable def reconstructPath (scene : Catalog)
    (cameFrom : String → Option String) (current : String) : RouteData :=
  let path := reconstructWalk cameFrom (maxIterations + 1) current
  let totalDistance := pathDistance scene path
  let route := path.filterMap scene.getSystem
  let jumps : ℤ := (route.length : ℤ) - 1
  { route := route
    totalDistance := totalDistance
    jumps := jumps
    fuelRequired := jumps * fuelPerJump
    pathNames := some path
    waypoint := none }

/-- The `while (openSet.size > 0 && iterations < maxIterations)` loop of
`findRoute`.  `fuel` is `maxIterations - iterations`; the returned `ℕ`
counts the loop iterations actually executed. -/
noncomputable def aStarLoop (p : RoutePlanner) (endSystemName : String)
    (endSystem : StarSystem) (maxJumpRange : ℝ) :
    ℕ → AStarState → Option RouteData × ℕ
  | 0, _ => (none, 0)
  | fuel + 1, st =>
    if st.openSet.isEmpty then (none, 0)
    else
      match selectCurrent st.openSet st.fScore with
      | none => (none, 1)
      | some current =>
        if current = endSystemName then
          (some (reconstructPath p.scene st.cameFrom current), 1)
        else
          let st1 : AStarState :=
            { st with
              openSet := st.openSet.erase current
              closedSet := jsSetAdd st.closedSet current }
          match p.scene.getSystem current with
          | none =>
            let r := aStarLoop p endSystemName endSystem maxJumpRange fuel st1
            (r.1, r.2 + 1)
          | some currentSystem =>
            let neighbors := findSystemsInRange p.allSystems currentSystem maxJumpRange
            let st2 := neighbors.foldl (relaxNeighbor endSystem current) st1
            let r := aStarLoop p endSystemName endSystem maxJumpRange fuel st2
            (r.1, r.2 + 1)

/-- `RoutePlanner.findRoute(startSystemName, endSystemName, maxJumpRange)`
together with the number of A* iterations it performs. -/
noncomputable def findRouteAux (p : RoutePlanner)
    (startSystemName endSystemName : String) (maxJumpRange : ℝ) :
    Option RouteData × ℕ :=
  match p.scene.getSystem startSystemName, p.scene.getSystem endSystemName with
  | some startSystem, some endSystem =>
    match startSystem.coords, endSystem.coords with
    | some _, some _ =>
      let directDistance := calculateDistance startSystem endSystem
      if directDistance ≤ maxJumpRange then
        (some { route := [startSystem, endSystem]
                totalDistance := directDistance
                jumps := 1
                fuelRequired := fuelPerJump
                pathNames := none
                waypoint := none }, 0)
      else
        aStarLoop p endSystemName endSystem maxJumpRange maxIterations
          { openSet := [startSystemName]
            closedSet := []
            gScore := mapSet (fun _ => none) startSystemName 0
            fScore := mapSet (fun _ => none) startSystemName
              (calculateDistance startSystem endSystem)
            cameFrom := fun _ => none }
    | _, _ => (none, 0)
  | _, _ => (none, 0)

/-- `RoutePlanner.findRoute` proper (`null ↦ none`). -/
noncomputable def findRoute (p : RoutePlanner)
    (startSystemName endSystemName : String) (maxJumpRange : ℝ) :
    Option RouteData :=
  (findRouteAux p startSystemName endSystemName maxJumpRange).1

/-- `combinedDistance < bestDistance` where `bestDistance` may be
`Infinity` (`none`, when no direct route exists). -/
def ltInfO (c : ℝ) (best : Option ℝ) : Prop :=
  match best with
  | none => True
  | some b => c < b

noncomputable instance (c : ℝ) (best : Option ℝ) : Decidable (ltInfO c best) := by
  unfold ltInfO
  rcases best with - | b
  · exact isTrue trivial
  · exact inferInstanceAs (Decidable (c < b))

/-- The candidate route obtained by relaying through an anchor:
paths concatenated with the duplicated anchor vertex dropped once
(`routeFromAnchor.route.slice(1)`), distances and jumps summed, and the
`waypoint` field annotated with the anchor's name. -/
noncomputable def combineRoutes (routeToAnchor routeFromAnchor : RouteData)
    (anchorName : String) : RouteData :=
  { route := routeToAnchor.route ++ routeFromAnchor.route.tail
    totalDistance := routeToAnchor.totalDistance + routeFromAnchor.totalDistance
    jumps := routeToAnchor.jumps + routeFromAnchor.jumps
    fuelRequired := (routeToAnchor.jumps + routeFromAnchor.jumps) * fuelPerJump
    pathNames := none
    waypoint := some anchorName }

/-- One step of the anchor loop in `findOptimizedRoute`; the accumulator
is `(bestRoute, bestDistance)` with `bestDistance = none` for `Infinity`. -/
noncomputable def optStep (p : RoutePlanner)
    (startSystemName endSystemName : String) (maxJumpRange : ℝ)
    (best : Option RouteData × Option ℝ) (a : String × AnchorEntry) :
    Option RouteData × Option ℝ :=
  let anchorName := a.1
  if anchorName = startSystemName ∨ anchorName = endSystemName then best
  else
    match findRoute p startSystemName anchorName maxJumpRange,
        findRoute p anchorName endSystemName maxJumpRange with
    | some routeToAnchor, some routeFromAnchor =>
      if ltInfO (routeToAnchor.totalDistance + routeFromAnchor.totalDistance) best.2 then
        (some (combineRoutes routeToAnchor routeFromAnchor anchorName),
          some (routeToAnchor.totalDistance + routeFromAnchor.totalDistance))
      else best
    | _, _ => best

/-- `RoutePlanner.findOptimizedRoute(startSystemName, endSystemName,
maxJumpRange)`. -/
noncomputable def findOptimizedRoute (p : RoutePlanner)
    (startSystemName endSystemName : String) (maxJumpRange : ℝ) :
    Option RouteData :=
  let directRoute := findRoute p startSystemName endSystemName maxJumpRange
  if ∃ d, directRoute = some d ∧ d.jumps ≤ 10 then directRoute
  else
    match p.scene.getSystem startSystemName, p.scene.getSystem endSystemName with
    | some _, some _ =>
      (p.anchors.foldl (optStep p startSystemName endSystemName maxJumpRange)
        (directRoute, directRoute.map RouteData.totalDistance)).1
    | _, _ => directRoute

/-- `RoutePlanner.loadSystemData()`.  The planner's catalog is replaced by
a copy of the scene manager's; the anchor map is *extended* (it is never
cleared) with each served anchor whose name resolves to a system with
coordinates.  `anchorData = none` models a failed/not-ok fetch of
`/api/anchor-systems` (the `response.ok` guard); the returned `Bool` is
the source's return value. -/
def loadSystemData (p : RoutePlanner) (scene : Catalog)
    (anchorData : Option (List AnchorInput)) : RoutePlanner × Bool :=
  let p1 := { p with scene := scene, allSystems := scene.allSystems }
  match anchorData with
  | some l =>
    ({ p1 with
        anchors := l.foldl (fun anchors anchor =>
          match scene.getSystem anchor.name with
          | some system =>
            if system.coords.isSome then
              aset anchors anchor.name
                { name := system.name
                  coords := system.coords
                  radius := anchor.radius_ly
                  description := anchor.description }
            else anchors
          | none => anchors) p1.anchors }, true)
  | none => (p1, true)

/-- `RoutePlanner.visualizeRoute(routeData)`: clears the current route,
then holds `routeData` as current only when it has at least two systems
and at least two of them carry coordinates (the `points.length < 2`
early return). -/
def visualizeRoute (p : RoutePlanner) (routeData : Option RouteData) :
    RoutePlanner :=
  match routeData with
  | some rd =>
    if 2 ≤ rd.route.length ∧ 2 ≤ (rd.route.filter (fun s => s.coords.isSome)).length
    then { p with currentRoute := some rd }
    else { p with currentRoute := none }
  | none => { p with currentRoute := none }

/-- `RoutePlanner.updateJumpRange(newRange)`: sets the default range and,
when a route with at least two systems is held, recomputes it via
`findOptimizedRoute`; a successful recomputation is visualized (becoming
the held route), a `null` recomputation leaves the held route in place. -/
noncomputable def updateJumpRange (p : RoutePlanner) (newRange : ℝ) :
    RoutePlanner × Option RouteData :=
  let p1 := { p with maxJumpRange := newRange }
  match p1.currentRoute with
  | some currentRoute =>
    if 2 ≤ currentRoute.route.length then
      let startSystem := (currentRoute.route.head?.map StarSystem.name).getD ""
      let endSystem := (currentRoute.route.getLast?.map StarSystem.name).getD ""
      match findOptimizedRoute p1 startSystem endSystem newRange with
      | some newRoute => (visualizeRoute p1 (some newRoute), some newRoute)
      | none => (p1, none)
    else (p1, none)
  | none => (p1, none)

/-- A member of the `systems` array of the JSON export. -/
structure ExportSystem where
  name : String
  coordinates : Option Coords

/-- The object serialised by `exportRoute(route, 'json')`; parsing the
emitted JSON back yields exactly this plain record. -/
structure RouteExport where
  timestamp : String
  startSystem : Option String
  endSystem : Option String
  totalDistance : ℝ
  jumps : ℤ
  fuelRequired : ℤ
  maxJumpRange : ℝ
  waypoint : Option String
  systems : List ExportSystem

/-- The `routeExport` object built by `exportRoute` (the timestamp,
`new Date().toISOString()`, is passed in as a parameter). -/
def buildRouteExport (p : RoutePlanner) (routeData : RouteData)
    (timestamp : String) : RouteExport :=
  { timestamp := timestamp
    startSystem := routeData.route.head?.map StarSystem.name
    endSystem := routeData.route.getLast?.map StarSystem.name
    totalDistance := routeData.totalDistance
    jumps := routeData.jumps
    fuelRequired := routeData.fuelRequired
    maxJumpRange := p.maxJumpRange
    waypoint := routeData.waypoint
    systems := routeData.route.map (fun s => ⟨s.name, s.coords⟩) }

/-- The exact CSV header row emitted by `exportRoute(route, 'csv')`. -/
def csvHeader : String := "System Name,X,Y,Z,Distance from Previous"

/-- One data row of the CSV export (the source renders
`distanceFromPrevious` with `toFixed(2)`; the field here is the real
value being formatted). -/
structure CsvRow where
  name : String
  x : ℝ
  y : ℝ
  z : ℝ
  distanceFromPrevious : ℝ

/-- The data rows of the CSV export.  The source reads
`system.coordinates.x` unconditionally, so a system without coordinates
makes the export throw — modelled by `none`.  The first row's
distance-from-previous is `0` (`index > 0` guard). -/
noncomputable def csvRows : Option Coords → List ExportSystem → Option (List CsvRow)
  | _, [] => some []
  | prev, s :: rest =>
    match s.coordinates with
    | none => none
    | some c =>
      let distanceFromPrevious : ℝ :=
        match prev with
        | none => 0
        | some pc => calcDist pc c
      (csvRows (some c) rest).map
        (fun rows => ⟨s.name, c.x, c.y, c.z, distanceFromPrevious⟩ :: rows)

/-- `exportRoute(routeData, 'csv')`: the header line plus one row per
route system. -/
noncomputable def exportRouteCsv (p : RoutePlanner) (routeData : RouteData)
    (timestamp : String) : Option (String × List CsvRow) :=
  (csvRows none (buildRouteExport p routeData timestamp).systems).map
    (fun rows => (csvHeader, rows))

/-! ## Basic facts about the distance function -/

theorem calcDist_nonneg (c1 c2 : Coords) : 0 ≤ calcDist c1 c2 :=
  Real.sqrt_nonneg _

theorem calcDist_comm (c1 c2 : Coords) : calcDist c1 c2 = calcDist c2 c1 := by
  unfold calcDist
  ring_nf

theorem calcDist_self (c : Coords) : calcDist c c = 0 := by
  unfold calcDist
  simp

/-- `calcDist` agrees with the metric of `EuclideanSpace ℝ (Fin 3)`. -/
theorem calcDist_eq_dist (c1 c2 : Coords) :
    calcDist c1 c2 =
      dist (EuclideanSpace.equiv (Fin 3) ℝ |>.symm ![c1.x, c1.y, c1.z])
        (EuclideanSpace.equiv (Fin 3) ℝ |>.symm ![c2.x, c2.y, c2.z]) := by
  rw [EuclideanSpace.dist_eq]
  unfold calcDist
  congr 1
  rw [Fin.sum_univ_three]
  simp [EuclideanSpace.equiv, Real.dist_eq, sq_abs]
  ring

theorem calcDist_triangle (c1 c2 c3 : Coords) :
    calcDist c1 c3 ≤ calcDist c1 c2 + calcDist c2 c3 := by
  rw [calcDist_eq_dist c1 c3, calcDist_eq_dist c1 c2, calcDist_eq_dist c2 c3]
  exact dist_triangle _ _ _

theorem calcDist_eq_zero_iff (c1 c2 : Coords) :
    calcDist c1 c2 = 0 ↔ (c1.x = c2.x ∧ c1.y = c2.y ∧ c1.z = c2.z) := by
  have h1 : (0:ℝ) ≤ (c1.x - c2.x) * (c1.x - c2.x) := mul_self_nonneg _
  have h2 : (0:ℝ) ≤ (c1.y - c2.y) * (c1.y - c2.y) := mul_self_nonneg _
  have h3 : (0:ℝ) ≤ (c1.z - c2.z) * (c1.z - c2.z) := mul_self_nonneg _
  unfold calcDist
  rw [show (c1.x - c2.x) * (c1.x - c2.x) + (c1.y - c2.y) * (c1.y - c2.y) +
      (c1.z - c2.z) * (c1.z - c2.z) =
      (c1.x - c2.x) * (c1.x - c2.x) + ((c1.y - c2.y) * (c1.y - c2.y) +
      (c1.z - c2.z) * (c1.z - c2.z)) by ring]
  rw [Real.sqrt_eq_zero (by positivity)]
  constructor
  · intro h
    have hx : (c1.x - c2.x) * (c1.x - c2.x) = 0 := by nlinarith
    have hy : (c1.y - c2.y) * (c1.y - c2.y) = 0 := by nlinarith
    have hz : (c1.z - c2.z) * (c1.z - c2.z) = 0 := by nlinarith
    have hx2 := mul_self_eq_zero.mp hx
    have hy2 := mul_self_eq_zero.mp hy
    have hz2 := mul_self_eq_zero.mp hz
    exact ⟨by linarith, by linarith, by linarith⟩
  · rintro ⟨hx, hy, hz⟩
    rw [hx, hy, hz]
    ring

/-- Distance of two points on the x-axis (used by the concrete witnesses). -/
theorem calcDist_x_axis (a b : ℝ) :
    calcDist ⟨a, 0, 0⟩ ⟨b, 0, 0⟩ = |a - b| := by
  unfold calcDist
  rw [show (a - b) * (a - b) + ((0:ℝ) - 0) * (0 - 0) + ((0:ℝ) - 0) * (0 - 0) =
    (a - b) ^ 2 by ring]
  exact Real.sqrt_sq_eq_abs _

/-! ## The direct-jump fast path -/

/-- Shared computation lemma: when both names resolve to systems with
coordinates and the direct distance fits in the range, `findRoute` takes
the fast path, performing no search iterations. -/
theorem findRouteAux_direct (p : RoutePlanner) (startName endName : String)
    (range : ℝ) (s e : StarSystem) (cs ce : Coords)
    (hs : p.scene.getSystem startName = some s)
    (he : p.scene.getSystem endName = some e)
    (hsc : s.coords = some cs) (hec : e.coords = some ce)
    (hd : calculateDistance s e ≤ range) :
    findRouteAux p startName endName range =
      (some { route := [s, e]
              totalDistance := calculateDistance s e
              jumps := 1
              fuelRequired := fuelPerJump
              pathNames := none
              waypoint := none }, 0) := by
  unfold findRouteAux
  rw [hs, he]
  simp only [hsc, hec, hd, if_true]

/-! ## Concrete fixtures for witnesses (the catalog of spec §8, item 9) -/

noncomputable def sysS1 : StarSystem := ⟨"S1", some ⟨0, 0, 0⟩⟩

noncomputable def sysS2 : StarSystem := ⟨"S2", some ⟨10, 0, 0⟩⟩

noncomputable def sysS3 : StarSystem := ⟨"S3", some ⟨25, 0, 0⟩⟩

noncomputable def testCatalog : Catalog :=
  { allSystems := [("S1", sysS1), ("S2", sysS2), ("S3", sysS3)]
    systemNameMap := [("s1", "S1"), ("s2", "S2"), ("s3", "S3")] }

noncomputable def testPlanner : RoutePlanner :=
  { scene := testCatalog
    allSystems := testCatalog.allSystems
    anchors := []
    currentRoute := none
    maxJumpRange := 50 }

theorem testPlanner_get_S1 : testPlanner.scene.getSystem "S1" = some sysS1 := rfl

theorem testPlanner_get_S2 : testPlanner.scene.getSystem "S2" = some sysS2 := rfl

theorem testPlanner_get_S3 : testPlanner.scene.getSystem "S3" = some sysS3 := rfl

theorem dist_S1_S2 : calculateDistance sysS1 sysS2 = 10 := by
  show calcDist ⟨0, 0, 0⟩ ⟨10, 0, 0⟩ = 10
  rw [calcDist_x_axis]
  norm_num

theorem dist_S1_S3 : calculateDistance sysS1 sysS3 = 25 := by
  show calcDist ⟨0, 0, 0⟩ ⟨25, 0, 0⟩ = 25
  rw [calcDist_x_axis]
  norm_num

theorem dist_S2_S3 : calculateDistance sysS2 sysS3 = 15 := by
  show calcDist ⟨10, 0, 0⟩ ⟨25, 0, 0⟩ = 15
  rw [calcDist_x_axis]
  norm_num

/-! ## Claim C2 — fast path -/

/-- **C2.** For every start and end system in the catalog with coordinates
and every range, if the direct Euclidean distance between start and end is
`≤ range`, then `findRoute` returns immediately (the search loop runs zero
iterations) a route consisting exactly of `[start, end]` whose
`totalDistance` is that direct distance and whose `jumps` is `1`. -/
theorem findRoute_fast_path (p : RoutePlanner) (startName endName : String)
    (range : ℝ) (s e : StarSystem) (cs ce : Coords)
    (hs : p.scene.getSystem startName = some s)
    (he : p.scene.getSystem endName = some e)
    (hsc : s.coords = some cs) (hec : e.coords = some ce)
    (hd : calculateDistance s e ≤ range) :
    findRoute p startName endName range =
      some { route := [s, e]
             totalDistance := calculateDistance s e
             jumps := 1
             fuelRequired := fuelPerJump
             pathNames := none
             waypoint := none } ∧
    (findRouteAux p startName endName range).2 = 0 := by
  have h := findRouteAux_direct p startName endName range s e cs ce hs he hsc hec hd
  rw [findRoute, h]
  exact ⟨rfl, rfl⟩

/-- Witness for C2 at the concrete catalog: `S1` and `S2` lie 10 ly apart,
within range 50. -/
theorem findRoute_fast_path_witness :
    testPlanner.scene.getSystem "S1" = some sysS1 ∧
    testPlanner.scene.getSystem "S2" = some sysS2 ∧
    sysS1.coords = some ⟨0, 0, 0⟩ ∧ sysS2.coords = some ⟨10, 0, 0⟩ ∧
    calculateDistance sysS1 sysS2 ≤ 50 ∧
    (findRoute testPlanner "S1" "S2" 50 =
      some { route := [sysS1, sysS2]
             totalDistance := calculateDistance sysS1 sysS2
             jumps := 1
             fuelRequired := fuelPerJump
             pathNames := none
             waypoint := none } ∧
      (findRouteAux testPlanner "S1" "S2" 50).2 = 0) :=
  ⟨rfl, rfl, rfl, rfl, by rw [dist_S1_S2]; norm_num,
    findRoute_fast_path testPlanner "S1" "S2" 50 sysS1 sysS2 ⟨0, 0, 0⟩ ⟨10, 0, 0⟩
      rfl rfl rfl rfl (by rw [dist_S1_S2]; norm_num)⟩

/-! ## Claim C10 — self-route -/

/-- **C10.** For every catalog system `s` with coordinates and every range
`≥ 0`, calling `findRoute` with the same name for start and end does not
fail: the fast path fires on the zero direct distance and returns the
route `[s, s]` with `totalDistance = 0`, `jumps = 1` and `fuelRequired`
equal to one jump's fuel (2 tons). -/
theorem findRoute_self (p : RoutePlanner) (name : String) (range : ℝ)
    (s : StarSystem) (c : Coords)
    (hs : p.scene.getSystem name = some s) (hc : s.coords = some c)
    (hr : 0 ≤ range) :
    findRoute p name name range =
      some { route := [s, s]
             totalDistance := 0
             jumps := 1
             fuelRequired := 2
             pathNames := none
             waypoint := none } := by
  have hd : calculateDistance s s = 0 := by
    show calcDist _ _ = 0
    rw [hc]
    exact calcDist_self c
  have h := findRouteAux_direct p name name range s s c c hs hs hc hc
    (by rw [hd]; exact hr)
  rw [findRoute, h, hd]
  rfl

/-- Witness for C10: routing `S1 → S1` with range 50. -/
theorem findRoute_self_witness :
    testPlanner.scene.getSystem "S1" = some sysS1 ∧
    sysS1.coords = some ⟨0, 0, 0⟩ ∧ (0:ℝ) ≤ 50 ∧
    findRoute testPlanner "S1" "S1" 50 =
      some { route := [sysS1, sysS1]
             totalDistance := 0
             jumps := 1
             fuelRequired := 2
             pathNames := none
             waypoint := none } :=
  ⟨rfl, rfl, by norm_num,
    findRoute_self testPlanner "S1" 50 sysS1 ⟨0, 0, 0⟩ rfl rfl (by norm_num)⟩

/-! ## Claim C3 — bounded termination (the exception analysis, the
corrected claim theorem and its counterexample are developed at the end
of the file, after the exception-aware rendering of the search) -/

/-- The search loop executes at most `fuel` iterations. -/
theorem aStarLoop_count_le (p : RoutePlanner) (endSystemName : String)
    (endSystem : StarSystem) (range : ℝ) :
    ∀ fuel st, (aStarLoop p endSystemName endSystem range fuel st).2 ≤ fuel := by
  intro fuel
  induction fuel with
  | zero => intro st; simp [aStarLoop]
  | succ n ih =>
    intro st
    rw [aStarLoop]
    split
    · simp
    · split
      · simp
      · split
        · simp
        · split
          · exact Nat.succ_le_succ (ih _)
          · exact Nat.succ_le_succ (ih _)

/-- In the total rendering, the search loop executes at most
`maxIterations = 1000` expansions and the result is an ordinary optional
value.  (This does *not* by itself settle the claim's "never throws":
the exception analysis appears at the end of the file.) -/
theorem findRoute_bounded (p : RoutePlanner) (startName endName : String)
    (range : ℝ) :
    (findRouteAux p startName endName range).2 ≤ maxIterations ∧
    (findRoute p startName endName range = none ∨
      ∃ rd, findRoute p startName endName range = some rd) := by
  constructor
  · unfold findRouteAux
    split
    · split
      · dsimp only
        split
        · simp
        · exact aStarLoop_count_le _ _ _ _ _ _
      · simp
    · simp
  · cases h : findRoute p startName endName range with
    | none => exact Or.inl rfl
    | some rd => exact Or.inr ⟨rd, rfl⟩

/-! ## Claim C9 — the search does not mutate the engine state -/

/-- Stateful rendering of `findRoute`: the method body contains no
assignment to `this`, so the planner state passes through unchanged. -/
noncomputable def findRouteS (p : RoutePlanner) (startName endName : String)
    (range : ℝ) : RoutePlanner × Option RouteData :=
  (p, findRoute p startName endName range)

/-- Stateful rendering of `findOptimizedRoute` (again assignment-free). -/
noncomputable def findOptimizedRouteS (p : RoutePlanner)
    (startName endName : String) (range : ℝ) :
    RoutePlanner × Option RouteData :=
  (p, findOptimizedRoute p startName endName range)

/-- The A* loop reads only the catalog fields of the planner. -/
theorem aStarLoop_congr (p q : RoutePlanner) (endSystemName : String)
    (range : ℝ) (h1 : p.scene = q.scene) (h2 : p.allSystems = q.allSystems) :
    ∀ endSystem fuel st, aStarLoop p endSystemName endSystem range fuel st =
      aStarLoop q endSystemName endSystem range fuel st := by
  intro endSystem fuel
  induction fuel with
  | zero => intro st; rfl
  | succ n ih =>
    intro st
    rw [aStarLoop, aStarLoop, h1, h2]
    simp only [ih]

/-- `findRoute` reads only the catalog fields of the planner. -/
theorem findRouteAux_congr (p q : RoutePlanner) (startName endName : String)
    (range : ℝ) (h1 : p.scene = q.scene) (h2 : p.allSystems = q.allSystems) :
    findRouteAux p startName endName range = findRouteAux q startName endName range := by
  unfold findRouteAux
  simp only [h1, aStarLoop_congr p q endName range h1 h2]

/-- `findOptimizedRoute` reads only the catalog and anchor fields. -/
theorem findOptimizedRoute_congr (p q : RoutePlanner)
    (startName endName : String) (range : ℝ) (h1 : p.scene = q.scene)
    (h2 : p.allSystems = q.allSystems) (h3 : p.anchors = q.anchors) :
    findOptimizedRoute p startName endName range =
      findOptimizedRoute q startName endName range := by
  have hfr : ∀ a b, findRoute p a b range = findRoute q a b range := by
    intro a b
    unfold findRoute
    rw [findRouteAux_congr p q a b range h1 h2]
  have hstep : optStep p startName endName range = optStep q startName endName range := by
    funext best a
    unfold optStep
    simp only [hfr]
  unfold findOptimizedRoute
  simp only [hfr, h1, h3, hstep]

/-- **C9.** For every call to `findRoute` or `findOptimizedRoute`, the
engine's catalog and anchor state are unchanged by the call: the calls
leave the planner state intact (neither method body assigns to `this`),
and their results depend on nothing but the catalog and anchor fields
(in particular, two planners agreeing on `scene`, `allSystems` and
`anchors` produce identical results, whatever their mutable
`currentRoute`/`maxJumpRange` fields hold). -/
theorem findRoute_readonly (p q : RoutePlanner) (startName endName : String)
    (range : ℝ) :
    (findRouteS p startName endName range).1 = p ∧
    (findOptimizedRouteS p startName endName range).1 = p ∧
    (p.scene = q.scene → p.allSystems = q.allSystems → p.anchors = q.anchors →
      (findRouteS p startName endName range).2 =
        (findRouteS q startName endName range).2 ∧
      (findOptimizedRouteS p startName endName range).2 =
        (findOptimizedRouteS q startName endName range).2) := by
  refine ⟨rfl, rfl, fun h1 h2 h3 => ⟨?_, ?_⟩⟩
  · show findRoute p startName endName range = findRoute q startName endName range
    unfold findRoute
    rw [findRouteAux_congr p q startName endName range h1 h2]
  · exact findOptimizedRoute_congr p q startName endName range h1 h2 h3

/-- Witness for C9 at a concrete planner and a planner differing in its
mutable fields. -/
theorem findRoute_readonly_witness :
    (findRouteS testPlanner "S1" "S2" 50).1 = testPlanner ∧
    (findOptimizedRouteS testPlanner "S1" "S2" 50).1 = testPlanner ∧
    (testPlanner.scene = testPlanner.scene →
      testPlanner.allSystems = testPlanner.allSystems →
      testPlanner.anchors = testPlanner.anchors →
      (findRouteS testPlanner "S1" "S2" 50).2 =
        (findRouteS testPlanner "S1" "S2" 50).2 ∧
      (findOptimizedRouteS testPlanner "S1" "S2" 50).2 =
        (findOptimizedRouteS testPlanner "S1" "S2" 50).2) :=
  findRoute_readonly testPlanner testPlanner "S1" "S2" 50

/-! ## Claim C6 — export round-trip -/

/-- When every exported system carries coordinates, the CSV rows exist
and there is exactly one row per system. -/
theorem csvRows_length (l : List ExportSystem)
    (h : ∀ s ∈ l, s.coordinates.isSome) :
    ∀ prev, ∃ rows, csvRows prev l = some rows ∧ rows.length = l.length := by
  induction l with
  | nil => intro prev; exact ⟨[], rfl, rfl⟩
  | cons s rest ih =>
    intro prev
    obtain ⟨c, hc⟩ := Option.isSome_iff_exists.mp (h s (by simp))
    obtain ⟨rows, hrows, hlen⟩ := ih (fun x hx => h x (by simp [hx])) (some c)
    refine ⟨⟨s.name, c.x, c.y, c.z,
      match prev with | none => 0 | some pc => calcDist pc c⟩ :: rows, ?_, ?_⟩
    · rw [csvRows, hc]
      dsimp only
      rw [hrows]
      rfl
    · simp only [List.length_cons, hlen]

/-- The first CSV row is emitted with a zero distance-from-previous. -/
theorem csvRows_cons_none (s : ExportSystem) (rest : List ExportSystem)
    (c : Coords) (hc : s.coordinates = some c) :
    csvRows none (s :: rest) =
      (csvRows (some c) rest).map
        (fun rows => (⟨s.name, c.x, c.y, c.z, 0⟩ : CsvRow) :: rows) := by
  rw [csvRows, hc]

/-- **C6.** For every route, the JSON export object (what
`exportRoute(route, 'json')` stringifies, hence what parsing the output
returns) reproduces `totalDistance`, `jumps` and the ordered system-name
list exactly; and the CSV export consists of the exact header row
`System Name,X,Y,Z,Distance from Previous` followed by one row per route
system (`route.length + 1` rows in total), the first data row's
distance-from-previous field being `0`.  (The CSV export reads
`coordinates.x` unconditionally, so it requires every exported system to
carry coordinates — true of every route the engine produces.) -/
theorem exportRoute_roundtrip (p : RoutePlanner) (rd : RouteData)
    (timestamp : String) (h : ∀ s ∈ rd.route, s.coords.isSome) :
    (buildRouteExport p rd timestamp).totalDistance = rd.totalDistance ∧
    (buildRouteExport p rd timestamp).jumps = rd.jumps ∧
    (buildRouteExport p rd timestamp).systems.map ExportSystem.name =
      rd.route.map StarSystem.name ∧
    (∃ rows, exportRouteCsv p rd timestamp = some (csvHeader, rows) ∧
      rows.length = rd.route.length ∧
      ∀ r0, rows.head? = some r0 → r0.distanceFromPrevious = 0) := by
  refine ⟨rfl, rfl, by simp [buildRouteExport], ?_⟩
  have hsys : ∀ s ∈ (buildRouteExport p rd timestamp).systems, s.coordinates.isSome := by
    intro s hs
    simp only [buildRouteExport, List.mem_map] at hs
    obtain ⟨t, ht, rfl⟩ := hs
    exact h t ht
  obtain ⟨rows, hrows, hlen⟩ := csvRows_length _ hsys none
  refine ⟨rows, ?_, ?_, ?_⟩
  · rw [exportRouteCsv, hrows]
    rfl
  · rw [hlen]
    show (rd.route.map fun s => (⟨s.name, s.coords⟩ : ExportSystem)).length =
      rd.route.length
    rw [List.length_map]
  · intro r0 hr0
    cases hl : (buildRouteExport p rd timestamp).systems with
    | nil =>
      rw [hl] at hrows
      simp only [csvRows] at hrows
      cases hrows
      simp at hr0
    | cons s rest =>
      rw [hl] at hrows
      obtain ⟨c, hc⟩ := Option.isSome_iff_exists.mp (hsys s (by rw [hl]; simp))
      rw [csvRows_cons_none s rest c hc] at hrows
      cases hrest : csvRows (some c) rest with
      | none => rw [hrest] at hrows; cases hrows
      | some rrest =>
        rw [hrest] at hrows
        simp only [Option.map_some'] at hrows
        cases hrows
        simp only [List.head?_cons, Option.some_inj] at hr0
        rw [← hr0]

/-- Witness for C6: exporting the concrete two-system route. -/
theorem exportRoute_roundtrip_witness :
    (∀ s ∈ ([sysS1, sysS2] : List StarSystem), s.coords.isSome) ∧
    ((buildRouteExport testPlanner
        ⟨[sysS1, sysS2], 10, 1, 2, none, none⟩ "t").totalDistance = 10 ∧
      (buildRouteExport testPlanner
        ⟨[sysS1, sysS2], 10, 1, 2, none, none⟩ "t").jumps = 1 ∧
      (buildRouteExport testPlanner
        ⟨[sysS1, sysS2], 10, 1, 2, none, none⟩ "t").systems.map ExportSystem.name =
        ["S1", "S2"] ∧
      (∃ rows, exportRouteCsv testPlanner
          ⟨[sysS1, sysS2], 10, 1, 2, none, none⟩ "t" = some (csvHeader, rows) ∧
        rows.length = 2 ∧
        ∀ r0, rows.head? = some r0 → r0.distanceFromPrevious = 0)) := by
  have h : ∀ s ∈ ([sysS1, sysS2] : List StarSystem), s.coords.isSome := by
    intro s hs
    rcases List.mem_cons.mp hs with h1 | hs2
    · rw [h1]; rfl
    · rcases List.mem_cons.mp hs2 with h1 | hs3
      · rw [h1]; rfl
      · exact absurd hs3 (List.not_mem_nil s)
  have main := exportRoute_roundtrip testPlanner
    ⟨[sysS1, sysS2], 10, 1, 2, none, none⟩ "t" h
  exact ⟨h, main⟩

/-! ## Claim C5 — loadSystemData replacement semantics -/

theorem alookup_aset_self {α : Type} (m : List (String × α)) (k : String) (v : α) :
    alookup (aset m k v) k = some v := by
  induction m with
  | nil => simp [aset, alookup]
  | cons e rest ih =>
    by_cases h : e.1 = k
    · simp [aset, h, alookup]
    · simp [aset, h, alookup, ih]

theorem alookup_aset_ne {α : Type} (m : List (String × α)) (k k2 : String)
    (v : α) (h : k2 ≠ k) : alookup (aset m k v) k2 = alookup m k2 := by
  induction m with
  | nil =>
    show (if k = k2 then some v else none) = none
    rw [if_neg (fun he => h he.symm)]
  | cons e rest ih =>
    by_cases he : e.1 = k
    · have hne : ¬e.1 = k2 := fun h2 => h (by rw [← h2, he])
      simp only [aset, if_pos he, alookup, if_neg hne]
    · simp only [aset, if_neg he, alookup, ih]

/-- Whether an anchor record resolves against a catalog to a system with
coordinates (the `system?.coords` guard). -/
def AnchorResolves (scene : Catalog) (a : AnchorInput) : Prop :=
  ∃ s, scene.getSystem a.name = some s ∧ s.coords.isSome

/-- The anchor fold step of `loadSystemData`. -/
def anchorFoldStep (scene : Catalog) (anchors : List (String × AnchorEntry))
    (anchor : AnchorInput) : List (String × AnchorEntry) :=
  match scene.getSystem anchor.name with
  | some system =>
    if system.coords.isSome then
      aset anchors anchor.name
        { name := system.name
          coords := system.coords
          radius := anchor.radius_ly
          description := anchor.description }
    else anchors
  | none => anchors

/-- A resolved anchor adds (or overwrites) its map entry. -/
theorem anchorFoldStep_resolved (scene : Catalog)
    (m : List (String × AnchorEntry)) (a : AnchorInput) (s : StarSystem)
    (hres : scene.getSystem a.name = some s) (hc : s.coords.isSome) :
    anchorFoldStep scene m a =
      aset m a.name ⟨s.name, s.coords, a.radius_ly, a.description⟩ := by
  simp only [anchorFoldStep, hres, hc, if_true]

/-- An unresolved anchor is dropped. -/
theorem anchorFoldStep_unresolved (scene : Catalog)
    (m : List (String × AnchorEntry)) (a : AnchorInput)
    (h : ¬AnchorResolves scene a) : anchorFoldStep scene m a = m := by
  unfold anchorFoldStep
  cases hres : scene.getSystem a.name with
  | none => rfl
  | some s =>
    dsimp only
    rw [if_neg (fun hc => h ⟨s, hres, hc⟩)]

theorem loadSystemData_anchors_eq (p : RoutePlanner) (scene : Catalog)
    (l : List AnchorInput) :
    ((loadSystemData p scene (some l)).1).anchors =
      l.foldl (anchorFoldStep scene) p.anchors := by
  unfold loadSystemData
  simp only []
  congr 1

/-- A fold over unresolving-or-other-named anchors leaves a lookup alone. -/
theorem anchorFold_lookup_untouched (scene : Catalog) (name : String) :
    ∀ (l : List AnchorInput) (m : List (String × AnchorEntry)),
      (∀ a ∈ l, a.name = name → ¬AnchorResolves scene a) →
      alookup (l.foldl (anchorFoldStep scene) m) name = alookup m name := by
  intro l
  induction l with
  | nil => intro m _; rfl
  | cons a rest ih =>
    intro m hl
    rw [List.foldl_cons]
    rw [ih _ (fun x hx => hl x (by simp [hx]))]
    by_cases hr : AnchorResolves scene a
    · obtain ⟨s, hres, hc⟩ := hr
      rw [anchorFoldStep_resolved scene m a s hres hc]
      have hne : name ≠ a.name := by
        intro he
        exact hl a (by simp) he.symm ⟨s, hres, hc⟩
      exact alookup_aset_ne _ _ _ _ hne
    · rw [anchorFoldStep_unresolved scene m a hr]

theorem anchorFold_preserves_isSome (scene : Catalog) (name : String) :
    ∀ (l : List AnchorInput) (m : List (String × AnchorEntry)),
      (alookup m name).isSome →
      (alookup (l.foldl (anchorFoldStep scene) m) name).isSome := by
  intro l
  induction l with
  | nil => intro m h; exact h
  | cons a rest ih =>
    intro m h
    rw [List.foldl_cons]
    refine ih _ ?_
    by_cases hr : AnchorResolves scene a
    · obtain ⟨s, hres, hc⟩ := hr
      rw [anchorFoldStep_resolved scene m a s hres hc]
      by_cases he : name = a.name
      · rw [he, alookup_aset_self]; rfl
      · rw [alookup_aset_ne _ _ _ _ he]; exact h
    · rw [anchorFoldStep_unresolved scene m a hr]; exact h

theorem anchorFold_resolved_present (scene : Catalog) (name : String) :
    ∀ (l : List AnchorInput) (m : List (String × AnchorEntry)),
      (∃ a ∈ l, a.name = name ∧ AnchorResolves scene a) →
      (alookup (l.foldl (anchorFoldStep scene) m) name).isSome := by
  intro l
  induction l with
  | nil => rintro m ⟨a, ha, -⟩; cases ha
  | cons a rest ih =>
    rintro m ⟨b, hb, hbn, hbr⟩
    rw [List.foldl_cons]
    rcases List.mem_cons.mp hb with heq | hb2
    · refine anchorFold_preserves_isSome scene name rest _ ?_
      obtain ⟨s, hres, hc⟩ := hbr
      rw [← heq, anchorFoldStep_resolved scene m b s hres hc, ← hbn,
        alookup_aset_self]
      rfl
    · exact ih _ ⟨b, hb2, hbn, hbr⟩

/-- **C5 (amended).** `loadSystemData` replaces the held *catalog*
wholesale: afterwards the planner's catalog is exactly the new input's
systems.  The anchor map, however, is *extended*, not replaced: each
anchor of the new input whose name resolves to a catalog system with
coordinates is added (overwriting a same-named entry), unresolved anchors
are dropped without an error (the call still reports success), and —
contrary to the claim — every anchor entry from a previous load whose
name is not overwritten by a resolved new anchor survives. -/
theorem loadSystemData_spec (p : RoutePlanner) (scene : Catalog)
    (l : List AnchorInput) :
    ((loadSystemData p scene (some l)).1).allSystems = scene.allSystems ∧
    ((loadSystemData p scene (some l)).1).scene = scene ∧
    (loadSystemData p scene (some l)).2 = true ∧
    (∀ name, (∃ a ∈ l, a.name = name ∧ AnchorResolves scene a) →
      (alookup ((loadSystemData p scene (some l)).1).anchors name).isSome) ∧
    (∀ name, (∀ a ∈ l, a.name = name → ¬AnchorResolves scene a) →
      alookup ((loadSystemData p scene (some l)).1).anchors name =
        alookup p.anchors name) := by
  refine ⟨rfl, rfl, rfl, ?_, ?_⟩
  · intro name hex
    rw [loadSystemData_anchors_eq]
    exact anchorFold_resolved_present scene name l p.anchors hex
  · intro name hall
    rw [loadSystemData_anchors_eq]
    exact anchorFold_lookup_untouched scene name l p.anchors hall

/-! ## A catalog with two unreachable systems (for C5/C7/C8) -/

noncomputable def sysA : StarSystem := ⟨"A", some ⟨0, 0, 0⟩⟩

noncomputable def sysB : StarSystem := ⟨"B", some ⟨100, 0, 0⟩⟩

noncomputable def farCatalog : Catalog :=
  { allSystems := [("A", sysA), ("B", sysB)]
    systemNameMap := [("a", "A"), ("b", "B")] }

noncomputable def farPlanner : RoutePlanner :=
  { scene := farCatalog
    allSystems := farCatalog.allSystems
    anchors := []
    currentRoute := none
    maxJumpRange := 50 }

theorem farPlanner_get_A : farPlanner.scene.getSystem "A" = some sysA := rfl

theorem farPlanner_get_B : farPlanner.scene.getSystem "B" = some sysB := rfl

theorem farPlanner_get_NOPE : farPlanner.scene.getSystem "NOPE" = none := rfl

theorem dist_A_B : calculateDistance sysA sysB = 100 := by
  show calcDist ⟨0, 0, 0⟩ ⟨100, 0, 0⟩ = 100
  rw [calcDist_x_axis]
  norm_num

/-- With range 1, `A` has no neighbours at all. -/
theorem farPlanner_no_neighbors :
    findSystemsInRange farPlanner.allSystems sysA 1 = [] := by
  have hd : calcDist ⟨0, 0, 0⟩ ⟨100, 0, 0⟩ = 100 := by
    rw [calcDist_x_axis]; norm_num
  unfold findSystemsInRange
  simp only [farPlanner, farCatalog, sysA, sysB, List.filterMap_cons,
    List.filterMap_nil, hd]
  norm_num

/-- The search from `A` to `B` with range 1 exhausts its open set after a
single expansion and reports `NotFound` (`none`). -/
theorem farPlanner_noRoute : findRouteAux farPlanner "A" "B" 1 = (none, 1) := by
  rw [findRouteAux, farPlanner_get_A, farPlanner_get_B]
  show (match sysA.coords, sysB.coords with
    | some _, some _ => _
    | _, _ => (none, 0)) = (none, 1)
  rw [show sysA.coords = some ⟨0, 0, 0⟩ from rfl,
    show sysB.coords = some ⟨100, 0, 0⟩ from rfl]
  dsimp only
  rw [dist_A_B, if_neg (by norm_num : ¬(100:ℝ) ≤ 1)]
  rw [show maxIterations = 999 + 1 from rfl, aStarLoop]
  have hsel : selectCurrent ["A"] (mapSet (fun _ => none) "A" (100:ℝ)) = some "A" := by
    unfold selectCurrent selGo
    rw [show jsOrInf (mapSet (fun _ => none) "A" (100:ℝ) "A") = some 100 by
      unfold jsOrInf mapSet
      norm_num]
    rw [if_pos (by trivial : scoreLt (some 100) none)]
    rfl
  simp only [List.isEmpty_cons, hsel, Bool.false_eq_true, if_false]
  rw [if_neg (by simp : ¬("A" : String) = "B")]
  rw [farPlanner_get_A]
  dsimp only
  rw [show (["A"].erase "A") = [] by simp, show jsSetAdd [] "A" = ["A"] from rfl]
  rw [farPlanner_no_neighbors]
  rw [List.foldl_nil]
  rw [show (999 : ℕ) = 998 + 1 from rfl, aStarLoop]
  simp

/-! ## Claim C7 — unknown system names -/

/-- Computation lemma: an unresolved start or end name makes `findRoute`
return `null` before the search starts. -/
theorem findRouteAux_unresolved (p : RoutePlanner)
    (startName endName : String) (range : ℝ)
    (h : p.scene.getSystem startName = none ∨ p.scene.getSystem endName = none) :
    findRouteAux p startName endName range = (none, 0) := by
  rcases h with h | h
  · unfold findRouteAux
    rw [h]
  · unfold findRouteAux
    cases hx : p.scene.getSystem startName with
    | none => rfl
    | some s => rw [h]

/-- **C7 (amended).** If either the start or the end name is absent from
the catalog, `findRoute` rejects the call immediately (zero search
iterations) by returning `null` — but this is the *same* `null` the
`NotFound` outcome of an exhausted search produces, so the caller cannot
distinguish the two from the returned value (only the console logging
differs). -/
theorem findRoute_unknown_system (p : RoutePlanner)
    (startName endName : String) (range : ℝ)
    (h : p.scene.getSystem startName = none ∨ p.scene.getSystem endName = none) :
    findRouteAux p startName endName range = (none, 0) :=
  findRouteAux_unresolved p startName endName range h

/-- Counterexample to C7 as stated: at the concrete catalog, the
unknown-name rejection (`"NOPE"` does not resolve) and the exhausted
search (`A` to `B` at range 1, both of which resolve) return the
identical value `none`; no `UnknownSystem`-vs-`NotFound` distinction
reaches the caller. -/
theorem findRoute_unknown_counterexample :
    farPlanner.scene.getSystem "NOPE" = none ∧
    farPlanner.scene.getSystem "A" = some sysA ∧
    farPlanner.scene.getSystem "B" = some sysB ∧
    findRoute farPlanner "NOPE" "B" 1 = none ∧
    findRoute farPlanner "A" "B" 1 = none ∧
    findRoute farPlanner "NOPE" "B" 1 = findRoute farPlanner "A" "B" 1 := by
  have h1 : findRoute farPlanner "NOPE" "B" 1 = none := by
    unfold findRoute
    rw [findRoute_unknown_system farPlanner "NOPE" "B" 1 (Or.inl farPlanner_get_NOPE)]
  have h2 : findRoute farPlanner "A" "B" 1 = none := by
    unfold findRoute
    rw [farPlanner_noRoute]
  exact ⟨farPlanner_get_NOPE, farPlanner_get_A, farPlanner_get_B, h1, h2,
    h1.trans h2.symm⟩

/-- Witness for C7 (amended): the rejection at the concrete catalog. -/
theorem findRoute_unknown_system_witness :
    (farPlanner.scene.getSystem "NOPE" = none ∨
      farPlanner.scene.getSystem "B" = none) ∧
    findRouteAux farPlanner "NOPE" "B" 1 = (none, 0) :=
  ⟨Or.inl farPlanner_get_NOPE,
    findRoute_unknown_system farPlanner "NOPE" "B" 1 (Or.inl farPlanner_get_NOPE)⟩

/-! ## Claim C5 — counterexample fixtures (two successive loads) -/

noncomputable def emptyPlanner : RoutePlanner :=
  { scene := ⟨[], []⟩
    allSystems := []
    anchors := []
    currentRoute := none
    maxJumpRange := 50 }

noncomputable def catalogOnlyA : Catalog :=
  { allSystems := [("A", sysA)], systemNameMap := [("a", "A")] }

noncomputable def catalogOnlyB : Catalog :=
  { allSystems := [("B", sysB)], systemNameMap := [("b", "B")] }

noncomputable def anchorInputA : AnchorInput := ⟨"A", 100, "hub"⟩

/-- Counterexample to C5 as stated: load a catalog containing `A` with
anchor `A`, then load a catalog containing only `B` with *no* anchors.
The claim demands that after the second load the anchor map contain
exactly the (zero) resolved anchors of the new input; in fact the stale
entry for `A` — which does not even resolve in the new catalog —
survives, because `loadSystemData` never clears the anchor map. -/
theorem loadSystemData_counterexample :
    ((loadSystemData
        (loadSystemData emptyPlanner catalogOnlyA (some [anchorInputA])).1
        catalogOnlyB (some [])).1).anchors =
      [("A", ⟨"A", some ⟨0, 0, 0⟩, 100, "hub"⟩)] ∧
    catalogOnlyB.getSystem "A" = none :=
  ⟨rfl, rfl⟩

/-- Witness for C5 (amended), at the two concrete loads: the catalog is
replaced wholesale, the call reports success, and the stale anchor
lookup is untouched by the anchor-free second load. -/
theorem loadSystemData_spec_witness :
    ((loadSystemData
        (loadSystemData emptyPlanner catalogOnlyA (some [anchorInputA])).1
        catalogOnlyB (some [])).1).allSystems = catalogOnlyB.allSystems ∧
    (loadSystemData
        (loadSystemData emptyPlanner catalogOnlyA (some [anchorInputA])).1
        catalogOnlyB (some [])).2 = true ∧
    alookup ((loadSystemData
        (loadSystemData emptyPlanner catalogOnlyA (some [anchorInputA])).1
        catalogOnlyB (some [])).1).anchors "A" =
      alookup ((loadSystemData emptyPlanner catalogOnlyA
        (some [anchorInputA])).1).anchors "A" := by
  have h := loadSystemData_spec
    (loadSystemData emptyPlanner catalogOnlyA (some [anchorInputA])).1
    catalogOnlyB []
  exact ⟨h.1, h.2.2.1, h.2.2.2.2 "A" (fun a ha => absurd ha (List.not_mem_nil a))⟩

/-! ## Claim C8 — updateJumpRange -/

/-- **C8 (amended).** `updateJumpRange(newRange)` always sets the
engine's default jump range to `newRange`.  When a route with at least
two systems is held as active, it immediately recomputes a route between
the held route's start and end systems via `findOptimizedRoute` with the
new range, and — when that recomputation returns a route — visualizes it,
thereby replacing the held route.  When the recomputation returns `null`,
however, the previously held route is left in place (it still reflects
the old range), contrary to the claim's unconditional "replaces the held
route with that result". -/
theorem updateJumpRange_spec (p : RoutePlanner) (newRange : ℝ) :
    ((updateJumpRange p newRange).1).maxJumpRange = newRange ∧
    (p.currentRoute = none →
      (updateJumpRange p newRange).1 = { p with maxJumpRange := newRange } ∧
      (updateJumpRange p newRange).2 = none) ∧
    (∀ cr, p.currentRoute = some cr → 2 ≤ cr.route.length →
      (∀ nr, findOptimizedRoute { p with maxJumpRange := newRange }
            ((cr.route.head?.map StarSystem.name).getD "")
            ((cr.route.getLast?.map StarSystem.name).getD "") newRange = some nr →
        (updateJumpRange p newRange).1 =
          visualizeRoute { p with maxJumpRange := newRange } (some nr) ∧
        (updateJumpRange p newRange).2 = some nr ∧
        (2 ≤ nr.route.length →
          2 ≤ (nr.route.filter (fun s => s.coords.isSome)).length →
          ((updateJumpRange p newRange).1).currentRoute = some nr)) ∧
      (findOptimizedRoute { p with maxJumpRange := newRange }
            ((cr.route.head?.map StarSystem.name).getD "")
            ((cr.route.getLast?.map StarSystem.name).getD "") newRange = none →
        (updateJumpRange p newRange).1 = { p with maxJumpRange := newRange } ∧
        (updateJumpRange p newRange).2 = none)) := by
  obtain ⟨psc, pas, pan, pcur, pmr⟩ := p
  refine ⟨?_, ?_, ?_⟩
  · unfold updateJumpRange
    cases pcur with
    | none => rfl
    | some cr =>
      dsimp only
      by_cases hl : 2 ≤ cr.route.length
      · rw [if_pos hl]
        cases hopt : findOptimizedRoute ⟨psc, pas, pan, some cr, newRange⟩
            ((cr.route.head?.map StarSystem.name).getD "")
            ((cr.route.getLast?.map StarSystem.name).getD "") newRange with
        | none => rfl
        | some nr =>
          dsimp only
          unfold visualizeRoute
          dsimp only
          split <;> rfl
      · rw [if_neg hl]
  · intro hcr
    cases pcur with
    | none => exact ⟨rfl, rfl⟩
    | some cr => cases hcr
  · intro cr hcr hl
    cases pcur with
    | none => cases hcr
    | some cr0 =>
      injection hcr with h
      subst h
      constructor
      · intro nr hopt
        unfold updateJumpRange
        dsimp only
        rw [if_pos hl, hopt]
        dsimp only
        refine ⟨rfl, rfl, ?_⟩
        intro h1 h2
        unfold visualizeRoute
        dsimp only
        rw [if_pos ⟨h1, h2⟩]
      · intro hopt
        unfold updateJumpRange
        dsimp only
        rw [if_pos hl, hopt]
        exact ⟨rfl, rfl⟩

/-- The held far-apart route, computed at the old range 50. -/
noncomputable def rdAB : RouteData := ⟨[sysA, sysB], 100, 1, 2, none, none⟩

noncomputable def heldFarPlanner : RoutePlanner :=
  { scene := farCatalog
    allSystems := farCatalog.allSystems
    anchors := []
    currentRoute := some rdAB
    maxJumpRange := 50 }

/-- With the new range 1 no route between `A` and `B` exists, and there
are no anchors to relay through: the recomputation yields `null`. -/
theorem heldFarPlanner_opt_none :
    findOptimizedRoute { heldFarPlanner with maxJumpRange := 1 } "A" "B" 1 = none := by
  have h1 : findRoute { heldFarPlanner with maxJumpRange := 1 } "A" "B" 1 = none := by
    unfold findRoute
    rw [findRouteAux_congr { heldFarPlanner with maxJumpRange := 1 } farPlanner
      "A" "B" 1 rfl rfl, farPlanner_noRoute]
  unfold findOptimizedRoute
  simp only [h1]
  rw [if_neg (by simp : ¬∃ d, (none : Option RouteData) = some d ∧ d.jumps ≤ 10)]
  rw [show ({ heldFarPlanner with maxJumpRange := 1 } :
      RoutePlanner).scene.getSystem "A" = some sysA from rfl]
  rw [show ({ heldFarPlanner with maxJumpRange := 1 } :
      RoutePlanner).scene.getSystem "B" = some sysB from rfl]
  rfl

/-- Counterexample to C8 as stated: with the held `A → B` route (computed
at range 50) and new range 1, the recomputation returns `null`, and the
engine keeps holding the *old* route rather than replacing the held route
with that result. -/
theorem updateJumpRange_counterexample :
    heldFarPlanner.currentRoute = some rdAB ∧
    findOptimizedRoute { heldFarPlanner with maxJumpRange := 1 } "A" "B" 1 = none ∧
    ((updateJumpRange heldFarPlanner 1).1).currentRoute = some rdAB ∧
    (updateJumpRange heldFarPlanner 1).2 = none := by
  have hopt := heldFarPlanner_opt_none
  simp only [heldFarPlanner] at hopt
  refine ⟨rfl, heldFarPlanner_opt_none, ?_, ?_⟩ <;>
  · unfold updateJumpRange
    simp only [heldFarPlanner]
    rw [if_pos (by norm_num [rdAB] : 2 ≤ rdAB.route.length)]
    rw [show ((rdAB.route.head?.map StarSystem.name).getD "") = "A" from rfl]
    rw [show ((rdAB.route.getLast?.map StarSystem.name).getD "") = "B" from rfl]
    rw [hopt]

/-- Witness for C8 (amended), exercising the none-recomputation branch at
the concrete planner. -/
theorem updateJumpRange_spec_witness :
    ((updateJumpRange heldFarPlanner 1).1).maxJumpRange = 1 ∧
    (heldFarPlanner.currentRoute = some rdAB ∧ 2 ≤ rdAB.route.length ∧
      findOptimizedRoute { heldFarPlanner with maxJumpRange := 1 }
        ((rdAB.route.head?.map StarSystem.name).getD "")
        ((rdAB.route.getLast?.map StarSystem.name).getD "") 1 = none) ∧
    (updateJumpRange heldFarPlanner 1).1 =
      { heldFarPlanner with maxJumpRange := 1 } ∧
    (updateJumpRange heldFarPlanner 1).2 = none := by
  have hopt : findOptimizedRoute { heldFarPlanner with maxJumpRange := 1 }
      ((rdAB.route.head?.map StarSystem.name).getD "")
      ((rdAB.route.getLast?.map StarSystem.name).getD "") 1 = none := by
    rw [show ((rdAB.route.head?.map StarSystem.name).getD "") = "A" from rfl]
    rw [show ((rdAB.route.getLast?.map StarSystem.name).getD "") = "B" from rfl]
    exact heldFarPlanner_opt_none
  have h := updateJumpRange_spec heldFarPlanner 1
  have h2 := (h.2.2 rdAB rfl (by norm_num [rdAB])).2 hopt
  exact ⟨h.1, ⟨rfl, by norm_num [rdAB], hopt⟩, h2.1, h2.2⟩

/-! ## Claim C4 — findOptimizedRoute -/

/-- The candidate an anchor contributes: defined when the anchor differs
from start and end and both legs succeed. -/
noncomputable def optCandidateAt (p : RoutePlanner) (s e : String) (range : ℝ)
    (a : String × AnchorEntry) : Option RouteData :=
  if a.1 = s ∨ a.1 = e then none
  else
    match findRoute p s a.1 range, findRoute p a.1 e range with
    | some r1, some r2 => some (combineRoutes r1 r2 a.1)
    | _, _ => none

/-- The anchor-relayed candidate routes of the anchor loop, in iteration
order: for each anchor other than start and end for which both legs
succeed, the combined route. -/
noncomputable def optCandidates (p : RoutePlanner) (s e : String) (range : ℝ)
    (l : List (String × AnchorEntry)) : List RouteData :=
  l.filterMap (optCandidateAt p s e range)

theorem optCandidates_cons (p : RoutePlanner) (s e : String) (range : ℝ)
    (a : String × AnchorEntry) (rest : List (String × AnchorEntry)) :
    optCandidates p s e range (a :: rest) =
      (optCandidateAt p s e range a).toList ++ optCandidates p s e range rest := by
  unfold optCandidates
  rw [List.filterMap_cons]
  cases hx : optCandidateAt p s e range a with
  | none => simp [hx]
  | some c => simp [hx]

/-- `findOptimizedRoute` returns the direct route when it exists with at
most 10 jumps. -/
theorem findOptimizedRoute_eq_direct (p : RoutePlanner) (s e : String)
    (range : ℝ) (hdir : ∃ d, findRoute p s e range = some d ∧ d.jumps ≤ 10) :
    findOptimizedRoute p s e range = findRoute p s e range := by
  unfold findOptimizedRoute
  dsimp only
  rw [if_pos hdir]

/-- With no good direct route but both names resolving, the result is the
anchor fold. -/
theorem findOptimizedRoute_eq_fold (p : RoutePlanner) (s e : String)
    (range : ℝ) (hdir : ¬∃ d, findRoute p s e range = some d ∧ d.jumps ≤ 10)
    (ss es : StarSystem) (hs : p.scene.getSystem s = some ss)
    (he : p.scene.getSystem e = some es) :
    findOptimizedRoute p s e range =
      (p.anchors.foldl (optStep p s e range)
        (findRoute p s e range,
          (findRoute p s e range).map RouteData.totalDistance)).1 := by
  unfold findOptimizedRoute
  dsimp only
  rw [if_neg hdir, hs, he]

/-- With no good direct route and an unresolved name, the direct result
is returned. -/
theorem findOptimizedRoute_eq_direct_unresolved (p : RoutePlanner)
    (s e : String) (range : ℝ)
    (hdir : ¬∃ d, findRoute p s e range = some d ∧ d.jumps ≤ 10)
    (h : p.scene.getSystem s = none ∨ p.scene.getSystem e = none) :
    findOptimizedRoute p s e range = findRoute p s e range := by
  unfold findOptimizedRoute
  dsimp only
  rw [if_neg hdir]
  rcases h with h | h
  · rw [h]
  · cases hx : p.scene.getSystem s with
    | none => rfl
    | some ss => rw [h]

/-- An unresolved start or end name makes every anchor candidate fail. -/
theorem optCandidateAt_none_unresolved (p : RoutePlanner) (s e : String)
    (range : ℝ) (a : String × AnchorEntry)
    (h : p.scene.getSystem s = none ∨ p.scene.getSystem e = none) :
    optCandidateAt p s e range a = none := by
  unfold optCandidateAt
  by_cases hae : a.1 = s ∨ a.1 = e
  · rw [if_pos hae]
  · rw [if_neg hae]
    rcases h with h | h
    · have h1 : findRoute p s a.1 range = none := by
        unfold findRoute
        rw [findRouteAux_unresolved p s a.1 range (Or.inl h)]
      rw [h1]
    · have h1 : findRoute p a.1 e range = none := by
        unfold findRoute
        rw [findRouteAux_unresolved p a.1 e range (Or.inr h)]
      cases hx : findRoute p s a.1 range with
      | none => rfl
      | some r1 => rw [h1]

/-- An unresolved start or end name leaves no anchor candidates. -/
theorem optCandidates_nil_unresolved (p : RoutePlanner) (s e : String)
    (range : ℝ)
    (h : p.scene.getSystem s = none ∨ p.scene.getSystem e = none) :
    ∀ l, optCandidates p s e range l = [] := by
  intro l
  induction l with
  | nil => rfl
  | cons a rest ih =>
    rw [optCandidates_cons, optCandidateAt_none_unresolved p s e range a h]
    exact ih

/-- The anchor step, phrased through its candidate: a skipped or failing
anchor leaves the accumulator alone. -/
theorem optStep_skip (p : RoutePlanner) (s e : String) (range : ℝ)
    (acc : Option RouteData × Option ℝ) (a : String × AnchorEntry)
    (hx : optCandidateAt p s e range a = none) :
    optStep p s e range acc a = acc := by
  unfold optCandidateAt at hx
  unfold optStep
  dsimp only
  by_cases hae : a.1 = s ∨ a.1 = e
  · rw [if_pos hae]
  · rw [if_neg hae]
    rw [if_neg hae] at hx
    cases h1 : findRoute p s a.1 range with
    | none => rfl
    | some r1 =>
      cases h2 : findRoute p a.1 e range with
      | none => rfl
      | some r2 =>
        simp only [h1, h2] at hx
        cases hx

/-- The anchor step on a successful candidate: keep the better of the
accumulator and the candidate (strict improvement required). -/
theorem optStep_cand (p : RoutePlanner) (s e : String) (range : ℝ)
    (acc : Option RouteData × Option ℝ) (a : String × AnchorEntry)
    (c : RouteData) (hx : optCandidateAt p s e range a = some c) :
    optStep p s e range acc a =
      if ltInfO c.totalDistance acc.2 then (some c, some c.totalDistance)
      else acc := by
  unfold optCandidateAt at hx
  unfold optStep
  dsimp only
  by_cases hae : a.1 = s ∨ a.1 = e
  · rw [if_pos hae] at hx
    cases hx
  · rw [if_neg hae]
    rw [if_neg hae] at hx
    cases h1 : findRoute p s a.1 range with
    | none =>
      rw [h1] at hx
      cases hx
    | some r1 =>
      cases h2 : findRoute p a.1 e range with
      | none =>
        simp only [h1, h2] at hx
        cases hx
      | some r2 =>
        simp only [h1, h2, Option.some_inj] at hx
        rw [← hx]
        rfl

/-- Full characterisation of the anchor fold: the result is the initial
best or one of the candidates; it is no worse than the initial best and
than any candidate; it exists whenever the initial best or any candidate
exists; and the initial best survives when no candidate strictly beats
it. -/
theorem optFold_spec (p : RoutePlanner) (s e : String) (range : ℝ) :
    ∀ (l : List (String × AnchorEntry)) (acc : Option RouteData × Option ℝ),
      acc.2 = acc.1.map RouteData.totalDistance →
      ((l.foldl (optStep p s e range) acc).1 = acc.1 ∨
        ∃ c ∈ optCandidates p s e range l,
          (l.foldl (optStep p s e range) acc).1 = some c) ∧
      (∀ r0, acc.1 = some r0 → ∀ r, (l.foldl (optStep p s e range) acc).1 = some r →
        r.totalDistance ≤ r0.totalDistance) ∧
      (∀ c ∈ optCandidates p s e range l,
        ∀ r, (l.foldl (optStep p s e range) acc).1 = some r →
          r.totalDistance ≤ c.totalDistance) ∧
      (acc.1.isSome → ((l.foldl (optStep p s e range) acc).1).isSome) ∧
      (optCandidates p s e range l ≠ [] →
        ((l.foldl (optStep p s e range) acc).1).isSome) ∧
      (∀ r0, acc.1 = some r0 →
        (∀ c ∈ optCandidates p s e range l,
          ¬(c.totalDistance < r0.totalDistance)) →
        (l.foldl (optStep p s e range) acc).1 = acc.1) := by
  intro l
  induction l with
  | nil =>
    intro acc hacc
    refine ⟨Or.inl (by rw [List.foldl_nil]), ?_, ?_, ?_, ?_, ?_⟩
    · intro r0 h0 r hr
      rw [List.foldl_nil, h0] at hr
      cases hr
      exact le_refl _
    · intro c hc
      exact absurd hc (List.not_mem_nil c)
    · intro h
      rw [List.foldl_nil]
      exact h
    · intro h
      exact absurd rfl h
    · intro r0 h0 hc
      rw [List.foldl_nil]
  | cons a rest ih =>
    intro acc hacc
    rw [List.foldl_cons, optCandidates_cons]
    cases hx : optCandidateAt p s e range a with
    | none =>
      rw [optStep_skip p s e range acc a hx]
      simp only [Option.toList_none, List.nil_append]
      exact ih acc hacc
    | some c =>
      rw [optStep_cand p s e range acc a c hx]
      simp only [Option.toList_some, List.singleton_append]
      by_cases hlt : ltInfO c.totalDistance acc.2
      · rw [if_pos hlt]
        obtain ⟨ih1, ih2, ih3, ih4, ih5, ih6⟩ :=
          ih (some c, some c.totalDistance) (by simp)
        refine ⟨?_, ?_, ?_, ?_, ?_, ?_⟩
        · rcases ih1 with h | ⟨c2, hc2, h⟩
          · exact Or.inr ⟨c, by simp, h⟩
          · exact Or.inr ⟨c2, by simp [hc2], h⟩
        · intro r0 h0 r hr
          have hle : r.totalDistance ≤ c.totalDistance := ih2 c rfl r hr
          rw [h0] at hacc
          simp only [Option.map_some'] at hacc
          have hlt2 : c.totalDistance < r0.totalDistance := by
            have h3 := hlt
            unfold ltInfO at h3
            rw [hacc] at h3
            exact h3
          exact le_of_lt (lt_of_le_of_lt hle hlt2)
        · intro c2 hc2 r hr
          rcases List.mem_cons.mp hc2 with he2 | hc3
          · rw [he2]
            exact ih2 c rfl r hr
          · exact ih3 c2 hc3 r hr
        · intro _
          exact ih4 rfl
        · intro _
          exact ih4 rfl
        · intro r0 h0 hnc
          have hbeat := hnc c (by simp)
          rw [h0] at hacc
          simp only [Option.map_some'] at hacc
          have hlt2 : c.totalDistance < r0.totalDistance := by
            have h3 := hlt
            unfold ltInfO at h3
            rw [hacc] at h3
            exact h3
          exact absurd hlt2 hbeat
      · rw [if_neg hlt]
        obtain ⟨ih1, ih2, ih3, ih4, ih5, ih6⟩ := ih acc hacc
        have hacc1 : ∃ r0, acc.1 = some r0 := by
          cases ha1 : acc.1 with
          | none =>
            rw [ha1] at hacc
            simp only [Option.map_none'] at hacc
            rw [hacc] at hlt
            exact absurd trivial hlt
          | some r0 => exact ⟨r0, rfl⟩
        obtain ⟨r0, hr0⟩ := hacc1
        have hr0le : r0.totalDistance ≤ c.totalDistance := by
          rw [hr0] at hacc
          simp only [Option.map_some'] at hacc
          rw [hacc] at hlt
          unfold ltInfO at hlt
          exact le_of_not_lt hlt
        refine ⟨?_, ih2, ?_, ih4, ?_, ?_⟩
        · rcases ih1 with h | ⟨c2, hc2, h⟩
          · exact Or.inl h
          · exact Or.inr ⟨c2, by simp [hc2], h⟩
        · intro c2 hc2 r hr
          rcases List.mem_cons.mp hc2 with he2 | hc3
          · rw [he2]
            exact le_trans (ih2 r0 hr0 r hr) hr0le
          · exact ih3 c2 hc3 r hr
        · intro _
          exact ih4 (by rw [hr0]; rfl)
        · intro r0x h0x hnc
          exact ih6 r0x h0x (fun c2 hc2 => hnc c2 (by simp [hc2]))

/-- Every anchor candidate has the claimed shape: built from a
non-start/end anchor whose two legs both succeed, by `combineRoutes`,
and annotated with the anchor's name in `waypoint`. -/
theorem optCandidates_mem (p : RoutePlanner) (s e : String) (range : ℝ) :
    ∀ (l : List (String × AnchorEntry)) (c : RouteData),
      c ∈ optCandidates p s e range l →
      ∃ a r1 r2, ¬(a = s ∨ a = e) ∧
        findRoute p s a range = some r1 ∧ findRoute p a e range = some r2 ∧
        c = combineRoutes r1 r2 a ∧ c.waypoint = some a := by
  intro l
  induction l with
  | nil =>
    intro c hc
    exact absurd hc (List.not_mem_nil c)
  | cons a rest ih =>
    intro c hc
    rw [optCandidates_cons] at hc
    rcases List.mem_append.mp hc with hc1 | hc2
    · cases hx : optCandidateAt p s e range a with
      | none =>
        rw [hx] at hc1
        exact absurd hc1 (List.not_mem_nil c)
      | some c0 =>
        rw [hx] at hc1
        simp only [Option.toList_some, List.mem_singleton] at hc1
        subst hc1
        unfold optCandidateAt at hx
        by_cases hae : a.1 = s ∨ a.1 = e
        · rw [if_pos hae] at hx
          cases hx
        · rw [if_neg hae] at hx
          cases h1 : findRoute p s a.1 range with
          | none =>
            rw [h1] at hx
            cases hx
          | some r1 =>
            cases h2 : findRoute p a.1 e range with
            | none =>
              simp only [h1, h2] at hx
              cases hx
            | some r2 =>
              simp only [h1, h2, Option.some_inj] at hx
              exact ⟨a.1, r1, r2, hae, h1, h2, hx.symm, by rw [← hx]; rfl⟩
    · exact ih c hc2

/-- **C4.** `findOptimizedRoute` returns the direct `findRoute` result
unchanged whenever that route exists with jump count ≤ 10.  Otherwise,
each anchor other than start and end whose two legs both succeed yields a
candidate (paths concatenated with the duplicated anchor vertex dropped
once, distances and jumps summed, `waypoint` annotated with the anchor's
name), and the returned route is the direct route or one of these
candidates, is no more expensive than the direct route or any candidate,
exists whenever the direct route or any candidate does, and defaults to
the direct route when no candidate strictly beats it. -/
theorem findOptimizedRoute_spec (p : RoutePlanner) (s e : String) (range : ℝ) :
    (∀ d, findRoute p s e range = some d → d.jumps ≤ 10 →
      findOptimizedRoute p s e range = some d) ∧
    (∀ c ∈ optCandidates p s e range p.anchors, ∃ a r1 r2, ¬(a = s ∨ a = e) ∧
      findRoute p s a range = some r1 ∧ findRoute p a e range = some r2 ∧
      c = combineRoutes r1 r2 a ∧ c.waypoint = some a) ∧
    (¬(∃ d, findRoute p s e range = some d ∧ d.jumps ≤ 10) →
      (findOptimizedRoute p s e range = findRoute p s e range ∨
        ∃ c ∈ optCandidates p s e range p.anchors,
          findOptimizedRoute p s e range = some c) ∧
      (∀ d, findRoute p s e range = some d → ∀ r,
        findOptimizedRoute p s e range = some r →
        r.totalDistance ≤ d.totalDistance) ∧
      (∀ c ∈ optCandidates p s e range p.anchors, ∀ r,
        findOptimizedRoute p s e range = some r →
        r.totalDistance ≤ c.totalDistance) ∧
      ((optCandidates p s e range p.anchors ≠ [] ∨
          (findRoute p s e range).isSome) →
        (findOptimizedRoute p s e range).isSome) ∧
      (∀ d, findRoute p s e range = some d →
        (∀ c ∈ optCandidates p s e range p.anchors,
          ¬(c.totalDistance < d.totalDistance)) →
        findOptimizedRoute p s e range = some d)) := by
  refine ⟨?_, fun c hc => optCandidates_mem p s e range p.anchors c hc, ?_⟩
  · intro d hd hj
    rw [findOptimizedRoute_eq_direct p s e range ⟨d, hd, hj⟩, hd]
  · intro hdir
    by_cases hres : (∃ ss, p.scene.getSystem s = some ss) ∧
        (∃ es, p.scene.getSystem e = some es)
    · obtain ⟨⟨ss, hs⟩, ⟨es, he⟩⟩ := hres
      rw [findOptimizedRoute_eq_fold p s e range hdir ss es hs he]
      obtain ⟨ih1, ih2, ih3, ih4, ih5, ih6⟩ := optFold_spec p s e range p.anchors
        (findRoute p s e range, (findRoute p s e range).map RouteData.totalDistance)
        rfl
      refine ⟨ih1, ?_, ih3, ?_, ?_⟩
      · intro d hd r hr
        exact ih2 d hd r hr
      · rintro (hne | hsome)
        · exact ih5 hne
        · obtain ⟨d, hd⟩ := Option.isSome_iff_exists.mp hsome
          exact ih4 (by rw [hd]; rfl)
      · intro d hd hnc
        rw [ih6 d hd hnc, hd]
    · have hun : p.scene.getSystem s = none ∨ p.scene.getSystem e = none := by
        rcases not_and_or.mp hres with h | h
        · left
          cases hx : p.scene.getSystem s with
          | none => rfl
          | some ss => exact absurd ⟨ss, hx⟩ h
        · right
          cases hx : p.scene.getSystem e with
          | none => rfl
          | some es => exact absurd ⟨es, hx⟩ h
      have hdn : findRoute p s e range = none := by
        unfold findRoute
        rw [findRouteAux_unresolved p s e range hun]
      have hcn : optCandidates p s e range p.anchors = [] :=
        optCandidates_nil_unresolved p s e range hun p.anchors
      have hopt := findOptimizedRoute_eq_direct_unresolved p s e range hdir hun
      refine ⟨Or.inl hopt, ?_, ?_, ?_, ?_⟩
      · intro d hd
        rw [hdn] at hd
        cases hd
      · intro c hc
        rw [hcn] at hc
        exact absurd hc (List.not_mem_nil c)
      · rintro (hne | hsome)
        · exact absurd hcn hne
        · rw [hdn] at hsome
          cases hsome
      · intro d hd
        rw [hdn] at hd
        cases hd

/-- Witness for C4 at two concrete planners: the good-direct branch
(`S1 → S3`, 2 jumps at most 10... in fact the 25 ly direct jump fits in
range 50, one jump) and the anchor-free else branch (`A → B` at range 1,
no direct route, no anchors). -/
theorem findOptimizedRoute_spec_witness :
    (findRoute testPlanner "S1" "S3" 50 =
      some { route := [sysS1, sysS3]
             totalDistance := 25
             jumps := 1
             fuelRequired := 2
             pathNames := none
             waypoint := none } ∧
      (1 : ℤ) ≤ 10 ∧
      findOptimizedRoute testPlanner "S1" "S3" 50 =
        some { route := [sysS1, sysS3]
               totalDistance := 25
               jumps := 1
               fuelRequired := 2
               pathNames := none
               waypoint := none }) ∧
    ((¬∃ d, findRoute farPlanner "A" "B" 1 = some d ∧ d.jumps ≤ 10) ∧
      (findOptimizedRoute farPlanner "A" "B" 1 = findRoute farPlanner "A" "B" 1 ∨
        ∃ c ∈ optCandidates farPlanner "A" "B" 1 farPlanner.anchors,
          findOptimizedRoute farPlanner "A" "B" 1 = some c)) := by
  have hfr : findRoute testPlanner "S1" "S3" 50 =
      some { route := [sysS1, sysS3]
             totalDistance := 25
             jumps := 1
             fuelRequired := 2
             pathNames := none
             waypoint := none } := by
    unfold findRoute
    rw [findRouteAux_direct testPlanner "S1" "S3" 50 sysS1 sysS3 ⟨0, 0, 0⟩
      ⟨25, 0, 0⟩ rfl rfl rfl rfl (by rw [dist_S1_S3]; norm_num), dist_S1_S3]
    rfl
  have hno : findRoute farPlanner "A" "B" 1 = none := by
    unfold findRoute
    rw [farPlanner_noRoute]
  refine ⟨⟨hfr, by norm_num, ?_⟩, ?_, ?_⟩
  · exact (findOptimizedRoute_spec testPlanner "S1" "S3" 50).1 _ hfr (by norm_num)
  · rw [hno]
    rintro ⟨d, hd, -⟩
    cases hd
  · exact ((findOptimizedRoute_spec farPlanner "A" "B" 1).2.2
      (by rw [hno]; rintro ⟨d, hd, -⟩; cases hd)).1

/-! ## Claim C1 — foundations -/

theorem Coords.ext_eq (c1 c2 : Coords) (hx : c1.x = c2.x) (hy : c1.y = c2.y)
    (hz : c1.z = c2.z) : c1 = c2 := by
  cases c1
  cases c2
  simp only at hx hy hz
  rw [hx, hy, hz]

theorem calcDist_eq_zero_iff_eq (c1 c2 : Coords) :
    calcDist c1 c2 = 0 ↔ c1 = c2 := by
  rw [calcDist_eq_zero_iff]
  constructor
  · rintro ⟨hx, hy, hz⟩
    exact Coords.ext_eq c1 c2 hx hy hz
  · rintro rfl
    exact ⟨rfl, rfl, rfl⟩

/-- The default coordinates used when unwrapping a missing `coords`. -/
noncomputable def zCoords : Coords := ⟨0, 0, 0⟩

/-- The coordinates of a system record (with the `getD` convention of
`calculateDistance`). -/
noncomputable def sysCd (s : StarSystem) : Coords := s.coords.getD zCoords

theorem calculateDistance_eq (s1 s2 : StarSystem) :
    calculateDistance s1 s2 = calcDist (sysCd s1) (sysCd s2) := rfl

/-- A path in the claim's implicit graph: a list of catalog systems with
coordinates in which every consecutive pair lies at Euclidean distance at
most `range`. -/
def SysChain (p : RoutePlanner) (range : ℝ) (l : List StarSystem) : Prop :=
  (∀ x ∈ l, (∃ k, (k, x) ∈ p.allSystems) ∧ x.coords.isSome) ∧
  List.Chain' (fun a b => calculateDistance a b ≤ range) l

/-- The total length of a system path (sum of consecutive distances). -/
noncomputable def chainWeight : List StarSystem → ℝ
  | a :: b :: rest => calculateDistance a b + chainWeight (b :: rest)
  | _ => 0

theorem chainWeight_nonneg : ∀ l, 0 ≤ chainWeight l
  | [] => le_refl 0
  | [_] => le_refl 0
  | a :: b :: rest => by
    rw [chainWeight]
    have h1 : 0 ≤ calculateDistance a b := Real.sqrt_nonneg _
    have h2 := chainWeight_nonneg (b :: rest)
    linarith

theorem chainWeight_ge_direct : ∀ (l : List StarSystem) (a b : StarSystem),
    l.head? = some a → l.getLast? = some b →
    calcDist (sysCd a) (sysCd b) ≤ chainWeight l
  | [], a, b => by intro h; cases h
  | [x], a, b => by
    intro ha hb
    simp only [List.head?_cons, Option.some_inj] at ha
    simp only [List.getLast?_singleton, Option.some_inj] at hb
    subst ha
    subst hb
    rw [calcDist_self]
    rfl
  | x :: y :: rest, a, b => by
    intro ha hb
    cases ha
    have hb2 : (y :: rest).getLast? = some b := by
      rw [← hb]
      rfl
    have ih := chainWeight_ge_direct (y :: rest) y b rfl hb2
    have htri := calcDist_triangle (sysCd x) (sysCd y) (sysCd b)
    rw [chainWeight, calculateDistance_eq]
    linarith

/-- Split a list at the last element satisfying `P`. -/
theorem split_at_last_prop {α : Type} (P : α → Prop) :
    ∀ (l : List α), (∃ v ∈ l, P v) →
      ∃ l1 v l2, l = l1 ++ v :: l2 ∧ P v ∧ ∀ m ∈ l2, ¬P m := by
  intro l
  induction l using List.reverseRecOn with
  | nil =>
    rintro ⟨v, hv, -⟩
    exact absurd hv (List.not_mem_nil v)
  | append_singleton init last ih =>
    intro hex
    by_cases hl : P last
    · exact ⟨init, last, [], rfl, hl, fun m hm => absurd hm (List.not_mem_nil m)⟩
    · obtain ⟨v, hv, hPv⟩ := hex
      rcases List.mem_append.mp hv with hv1 | hv2
      · obtain ⟨l1, v0, l2, heq, hPv0, hl2⟩ := ih ⟨v, hv1, hPv⟩
        refine ⟨l1, v0, l2 ++ [last], by rw [heq]; simp, hPv0, ?_⟩
        intro m hm
        rcases List.mem_append.mp hm with hm1 | hm2
        · exact hl2 m hm1
        · rw [List.mem_singleton.mp hm2]
          exact hl
      · rw [List.mem_singleton.mp hv2] at hPv
        exact absurd hPv hl

/-- The predecessor chains of the `cameFrom` map, as finite derivations:
`Walk cf n l` says that walking predecessors from `n` terminates and
produces exactly the path `l` (ending in `n`). -/
inductive Walk (cf : String → Option String) : String → List String → Prop
  | base (n : String) : cf n = none → Walk cf n [n]
  | step (n prev : String) (l : List String) :
      cf n = some prev → Walk cf prev l → Walk cf n (l ++ [n])

theorem Walk.last_eq {cf : String → Option String} {n : String}
    {l : List String} (h : Walk cf n l) : l.getLast? = some n := by
  induction h with
  | base n _ => rfl
  | step n prev l _ _ _ => simp

theorem Walk.ne_nil {cf : String → Option String} {n : String}
    {l : List String} (h : Walk cf n l) : l ≠ [] := by
  induction h with
  | base n _ => simp
  | step n prev l _ _ _ => simp

/-- A `Walk` is computed exactly by the fuelled `reconstructWalk` when
the fuel covers the walk's length. -/
theorem Walk.reconstruct {cf : String → Option String} :
    ∀ {n : String} {l : List String}, Walk cf n l →
      ∀ fuel, l.length ≤ fuel + 1 → reconstructWalk cf fuel n = l := by
  intro n l h
  induction h with
  | base n hn =>
    intro fuel _
    cases fuel with
    | zero => rfl
    | succ m =>
      rw [reconstructWalk, hn]
  | step n prev l hn hw ih =>
    intro fuel hlen
    cases fuel with
    | zero =>
      have h1 : 1 ≤ l.length := by
        cases l with
        | nil => exact absurd rfl hw.ne_nil
        | cons x xs => simp
      rw [List.length_append, List.length_singleton] at hlen
      omega
    | succ m =>
      rw [reconstructWalk, hn]
      show reconstructWalk cf m prev ++ [n] = l ++ [n]
      rw [ih m (by
        rw [List.length_append, List.length_singleton] at hlen
        omega)]

/-- Updating `cameFrom` at a name not on the walk leaves the walk. -/
theorem Walk.update {cf : String → Option String} {w : String} {v : String} :
    ∀ {n : String} {l : List String}, Walk cf n l → w ∉ l →
      Walk (mapSet cf w v) n l := by
  intro n l h
  induction h with
  | base n hn =>
    intro hw
    refine Walk.base n ?_
    unfold mapSet
    have hnw : ¬n = w := by
      simp only [List.mem_singleton] at hw
      exact fun he => hw he.symm
    rw [if_neg hnw, hn]
  | step n prev l hn hwk ih =>
    intro hw
    have hnw : n ≠ w := by
      intro he
      exact hw (by rw [he]; simp)
    have hlw : w ∉ l := fun hm => hw (by simp [hm])
    refine Walk.step n prev l ?_ (ih hlw)
    unfold mapSet
    rw [if_neg hnw, hn]

/-! ### Catalog well-formedness

The catalog the scene manager builds (`allSystems.set(system.name, system)`
and `systemNameMap.set(normalize(name), name)`) keys every entry by its
system's own name, with names unique up to normalization (the spec's
catalog invariant: "no two distinct entries share a name"). -/

structure CatalogWF (c : Catalog) : Prop where
  key_eq : ∀ ent ∈ c.allSystems, ent.1 = ent.2.name
  nodup : (c.allSystems.map Prod.fst).Nodup
  norm_nodup : (c.allSystems.map (fun ent => normalizeSystemName ent.1)).Nodup
  name_map : c.systemNameMap =
    c.allSystems.map (fun ent => (normalizeSystemName ent.1, ent.1))

theorem alookup_mem {α : Type} : ∀ (m : List (String × α)) (k : String) (v : α),
    alookup m k = some v → (k, v) ∈ m := by
  intro m
  induction m with
  | nil => intro k v h; cases h
  | cons e rest ih =>
    intro k v h
    unfold alookup at h
    by_cases he : e.1 = k
    · rw [if_pos he] at h
      cases h
      rw [← he]
      exact List.mem_cons_self e rest
    · rw [if_neg he] at h
      exact List.mem_cons_of_mem e (ih k v h)

theorem alookup_of_mem_nodup {α : Type} :
    ∀ (m : List (String × α)) (k : String) (v : α),
      (k, v) ∈ m → (m.map Prod.fst).Nodup → alookup m k = some v := by
  intro m
  induction m with
  | nil => intro k v h; cases h
  | cons e rest ih =>
    intro k v h hnd
    rw [List.map_cons, List.nodup_cons] at hnd
    rcases List.mem_cons.mp h with he | hm
    · rw [← he]
      unfold alookup
      rw [if_pos rfl]
    · unfold alookup
      by_cases hek : e.1 = k
      · exfalso
        exact hnd.1 (hek ▸ (List.mem_map.mpr ⟨(k, v), hm, rfl⟩))
      · rw [if_neg hek]
        exact ih k v hm hnd.2

/-- Under well-formedness, a catalog key resolves to its own entry. -/
theorem CatalogWF.resolve_key {c : Catalog} (hwf : CatalogWF c)
    {k : String} {s : StarSystem} (h : (k, s) ∈ c.allSystems) :
    c.getSystem k = some s := by
  unfold Catalog.getSystem
  have hmapmem : (normalizeSystemName k, k) ∈ c.systemNameMap := by
    rw [hwf.name_map]
    exact List.mem_map.mpr ⟨(k, s), h, rfl⟩
  have hmapnodup : (c.systemNameMap.map Prod.fst).Nodup := by
    rw [hwf.name_map, List.map_map]
    exact hwf.norm_nodup
  rw [alookup_of_mem_nodup _ _ _ hmapmem hmapnodup]
  exact alookup_of_mem_nodup _ _ _ h hwf.nodup

/-- Under well-formedness, whatever `getSystem` returns is a catalog
entry keyed by its own name. -/
theorem CatalogWF.resolve_val {c : Catalog} (hwf : CatalogWF c)
    {n : String} {s : StarSystem} (h : c.getSystem n = some s) :
    (s.name, s) ∈ c.allSystems := by
  unfold Catalog.getSystem at h
  cases ho : alookup c.systemNameMap (normalizeSystemName n) with
  | none => rw [ho] at h; cases h
  | some o =>
    rw [ho] at h
    have hm := alookup_mem _ _ _ h
    have hk := hwf.key_eq (o, s) hm
    simp only at hk
    rw [← hk]
    exact hm

/-- Catalog values are determined by their names (keys are unique). -/
theorem CatalogWF.val_inj {c : Catalog} (hwf : CatalogWF c)
    {x y : StarSystem} (hx : (x.name, x) ∈ c.allSystems)
    (hy : (y.name, y) ∈ c.allSystems) (he : x.name = y.name) : x = y := by
  have h1 := alookup_of_mem_nodup _ _ _ hx hwf.nodup
  have h2 := alookup_of_mem_nodup _ _ _ hy hwf.nodup
  rw [he] at h1
  rw [h1] at h2
  exact Option.some_inj.mp h2

/-- Membership in `findSystemsInRange` (ignoring order): exactly the
catalog entries other than the center's key whose distance is in range. -/
theorem mem_findSystemsInRange (cat : List (String × StarSystem))
    (center : StarSystem) (range : ℝ) (s : StarSystem) (d : ℝ) :
    (s, d) ∈ findSystemsInRange cat center range ↔
      ∃ k cc sc, (k, s) ∈ cat ∧ k ≠ center.name ∧ center.coords = some cc ∧
        s.coords = some sc ∧ d = calcDist cc sc ∧ d ≤ range := by
  unfold findSystemsInRange
  rw [List.Perm.mem_iff (List.mergeSort_perm _ _), List.mem_filterMap]
  constructor
  · rintro ⟨ent, hent, hf⟩
    by_cases hk : ent.1 = center.name
    · rw [if_pos hk] at hf
      cases hf
    · rw [if_neg hk] at hf
      cases hcc : center.coords with
      | none => rw [hcc] at hf; cases hf
      | some cc =>
        cases hsc : ent.2.coords with
        | none => rw [hcc, hsc] at hf; cases hf
        | some sc =>
          rw [hcc, hsc] at hf
          dsimp only at hf
          by_cases hd : calcDist cc sc ≤ range
          · rw [if_pos hd] at hf
            cases hf
            refine ⟨ent.1, cc, sc, ?_, hk, rfl, hsc, rfl, hd⟩
            exact hent
          · rw [if_neg hd] at hf
            cases hf
  · rintro ⟨k, cc, sc, hmem, hk, hcc, hsc, hd, hdr⟩
    refine ⟨(k, s), hmem, ?_⟩
    rw [if_neg hk, hcc, hsc]
    dsimp only
    rw [if_pos (hd ▸ hdr)]
    rw [hd]

/-! ### Name-level paths (the search works on system names) -/

/-- The coordinates a name resolves to through the scene manager. -/
noncomputable def nCoords (p : RoutePlanner) (n : String) : Option Coords :=
  match p.scene.getSystem n with
  | some s => s.coords
  | none => none

/-- Resolved coordinates with the `getD` convention. -/
noncomputable def cdN (p : RoutePlanner) (n : String) : Coords :=
  (nCoords p n).getD zCoords

/-- Distance between two names (via their resolved coordinates). -/
noncomputable def nwD (p : RoutePlanner) (a b : String) : ℝ :=
  calcDist (cdN p a) (cdN p b)

/-- Weight of a name path. -/
noncomputable def kWeight (p : RoutePlanner) : List String → ℝ
  | a :: b :: rest => nwD p a b + kWeight p (b :: rest)
  | _ => 0

/-- A catalog vertex: a catalog entry with coordinates, named by its key. -/
def KVert (p : RoutePlanner) (n : String) : Prop :=
  ∃ s c, (n, s) ∈ p.allSystems ∧ s.coords = some c

/-- The edge the neighbour scan of the search traverses from a resolving
name `a` into the catalog vertex `b`: `b`'s entry is not keyed by the
resolved center's own name and lies within range. -/
def KEdge (p : RoutePlanner) (range : ℝ) (a b : String) : Prop :=
  ∃ sa ca sb cb, p.scene.getSystem a = some sa ∧ sa.coords = some ca ∧
    (b, sb) ∈ p.allSystems ∧ sb.coords = some cb ∧ b ≠ sa.name ∧
    calcDist ca cb ≤ range

/-- A path the search can build: starts at the raw start name and follows
search edges. -/
def KPath (p : RoutePlanner) (range : ℝ) (startName : String)
    (l : List String) : Prop :=
  l.head? = some startName ∧ List.Chain' (KEdge p range) l

/-- A normalized path: additionally, no vertex after the head sits at the
start's coordinates.  (Optimality is proved against these; arbitrary
paths are reduced to them.) -/
def NPath (p : RoutePlanner) (range : ℝ) (startName : String) (cs : Coords)
    (l : List String) : Prop :=
  KPath p range startName l ∧ ∀ n ∈ l.tail, cdN p n ≠ cs

theorem nwD_nonneg (p : RoutePlanner) (a b : String) : 0 ≤ nwD p a b :=
  Real.sqrt_nonneg _

theorem kWeight_nonneg (p : RoutePlanner) : ∀ l, 0 ≤ kWeight p l
  | [] => le_refl 0
  | [_] => le_refl 0
  | a :: b :: rest => by
    rw [kWeight]
    have h2 := kWeight_nonneg p (b :: rest)
    have h1 := nwD_nonneg p a b
    linarith

theorem kWeight_ge_direct (p : RoutePlanner) :
    ∀ (l : List String) (a b : String),
      l.head? = some a → l.getLast? = some b →
      calcDist (cdN p a) (cdN p b) ≤ kWeight p l
  | [], a, b => by intro h; cases h
  | [x], a, b => by
    intro ha hb
    simp only [List.head?_cons, Option.some_inj] at ha
    simp only [List.getLast?_singleton, Option.some_inj] at hb
    subst ha
    subst hb
    rw [calcDist_self]
    rfl
  | x :: y :: rest, a, b => by
    intro ha hb
    simp only [List.head?_cons, Option.some_inj] at ha
    subst ha
    have hb2 : (y :: rest).getLast? = some b := by
      rw [← hb]
      rfl
    have ih := kWeight_ge_direct p (y :: rest) y b rfl hb2
    have htri := calcDist_triangle (cdN p x) (cdN p y) (cdN p b)
    rw [kWeight]
    unfold nwD
    linarith

theorem kWeight_append_one (p : RoutePlanner) :
    ∀ (l : List String) (u w : String), l.getLast? = some u →
      kWeight p (l ++ [w]) = kWeight p l + nwD p u w
  | [], u, w => by intro h; cases h
  | [x], u, w => by
    intro h
    simp only [List.getLast?_singleton, Option.some_inj] at h
    subst h
    show nwD p x w + 0 = 0 + nwD p x w
    ring
  | x :: y :: rest, u, w => by
    intro h
    have h2 : (y :: rest).getLast? = some u := by
      rw [← h]
      rfl
    have ih := kWeight_append_one p (y :: rest) u w h2
    show nwD p x y + kWeight p ((y :: rest) ++ [w]) =
      nwD p x y + kWeight p (y :: rest) + nwD p u w
    rw [ih]
    ring

theorem kWeight_split (p : RoutePlanner) :
    ∀ (l1 : List String) (v b : String) (l2 : List String),
      kWeight p (l1 ++ v :: b :: l2) =
        kWeight p (l1 ++ [v]) + nwD p v b + kWeight p (b :: l2) := by
  intro l1
  induction l1 with
  | nil =>
    intro v b l2
    show nwD p v b + kWeight p (b :: l2) = (0 + nwD p v b) + kWeight p (b :: l2)
    ring
  | cons x xs ih =>
    intro v b l2
    cases xs with
    | nil =>
      show nwD p x v + kWeight p (v :: b :: l2) =
        (nwD p x v + 0) + nwD p v b + kWeight p (b :: l2)
      rw [kWeight]
      ring
    | cons y ys =>
      have ihy := ih v b l2
      show nwD p x y + kWeight p ((y :: ys) ++ v :: b :: l2) =
        nwD p x y + kWeight p ((y :: ys) ++ [v]) + nwD p v b + kWeight p (b :: l2)
      rw [ihy]
      ring

/-- A `KPath` truncated just after a marked vertex is a `KPath`. -/
theorem KPath_trunc (p : RoutePlanner) (range : ℝ) (startName : String)
    (l1 : List String) (v : String) (l2 : List String)
    (h : KPath p range startName (l1 ++ v :: l2)) :
    KPath p range startName (l1 ++ [v]) := by
  obtain ⟨hh, hc⟩ := h
  constructor
  · rw [← hh]
    cases l1 <;> rfl
  · refine hc.prefix ⟨l2, by simp⟩

theorem NPath_trunc (p : RoutePlanner) (range : ℝ) (startName : String)
    (cs : Coords) (l1 : List String) (v : String) (l2 : List String)
    (h : NPath p range startName cs (l1 ++ v :: l2)) :
    NPath p range startName cs (l1 ++ [v]) := by
  obtain ⟨hk, hn⟩ := h
  refine ⟨KPath_trunc p range startName l1 v l2 hk, ?_⟩
  intro n hn2
  refine hn n ?_
  cases l1 with
  | nil => simp at hn2
  | cons x xs =>
    simp only [List.cons_append, List.tail_cons] at hn2 ⊢
    rcases List.mem_append.mp hn2 with h1 | h2
    · exact List.mem_append.mpr (Or.inl h1)
    · rw [List.mem_singleton.mp h2]
      exact List.mem_append.mpr (Or.inr (by simp))

/-- Extending a `KPath` along an edge. -/
theorem KPath.snoc (p : RoutePlanner) (range : ℝ) (startName : String)
    (l : List String) (u w : String) (h : KPath p range startName l)
    (hu : l.getLast? = some u) (he : KEdge p range u w) :
    KPath p range startName (l ++ [w]) := by
  obtain ⟨hh, hc⟩ := h
  constructor
  · rw [← hh]
    cases l with
    | nil => cases hh
    | cons x xs => rfl
  · rw [List.chain'_append]
    refine ⟨hc, List.chain'_singleton w, ?_⟩
    intro x hx y hy
    rw [hu] at hx
    simp only [List.head?_cons, Option.mem_def, Option.some_inj] at hx hy
    subst hx
    subst hy
    exact he

/-- The edge across a split of a `KPath`'s chain. -/
theorem KPath.edge_of_split (p : RoutePlanner) (range : ℝ)
    (startName : String) (l1 : List String) (v b : String) (l2 : List String)
    (h : KPath p range startName (l1 ++ v :: b :: l2)) : KEdge p range v b := by
  obtain ⟨-, hc⟩ := h
  have h2 : List.Chain' (KEdge p range) (v :: b :: l2) :=
    hc.suffix ⟨l1, rfl⟩
  exact (List.chain'_cons.mp h2).1

/-! ### The open-set selection scan -/

theorem jsOrInf_some {v : ℝ} (h : ¬v = 0) : jsOrInf (some v) = some v := by
  unfold jsOrInf
  dsimp only
  rw [if_neg h]

theorem selGo_min (fS : String → Option ℝ) :
    ∀ (l : List String) (cur : Option String) (low : Option ℝ),
      (∀ n ∈ l, ∃ v, fS n = some v ∧ ¬v = 0) →
      ((cur = none ∧ low = none) ∨
        (∃ c v, cur = some c ∧ low = some v ∧ fS c = some v ∧ ¬v = 0)) →
      ∀ u, selGo fS l cur low = some u →
        ((∃ vu, fS u = some vu ∧ ¬vu = 0 ∧
          (∀ n ∈ l, ∀ vn, fS n = some vn → vu ≤ vn) ∧
          (∀ c v, cur = some c → low = some v → vu ≤ v)) ∧
        (u ∈ l ∨ cur = some u)) := by
  intro l
  induction l with
  | nil =>
    intro cur low _ hinv u hu
    unfold selGo at hu
    rcases hinv with ⟨hc, -⟩ | ⟨c, v, hc, hlow, hfc, hnz⟩
    · rw [hc] at hu
      cases hu
    · rw [hc] at hu
      cases hu
      refine ⟨⟨v, hfc, hnz, ?_, ?_⟩, Or.inr hc⟩
      · intro n hn
        exact absurd hn (List.not_mem_nil n)
      · intro c2 v2 hc2 hv2
        rw [hc] at hc2
        cases hc2
        rw [hlow] at hv2
        cases hv2
        exact le_refl v
  | cons n rest ih =>
    intro cur low hfin hinv u hu
    obtain ⟨vn, hfn, hvn⟩ := hfin n (by simp)
    unfold selGo at hu
    rw [hfn, jsOrInf_some hvn] at hu
    by_cases hlt : scoreLt (some vn) low
    · rw [if_pos hlt] at hu
      obtain ⟨⟨vu, hfu, hnz, hmins, hcurb⟩, hmem⟩ :=
        ih (some n) (some vn) (fun m hm => hfin m (by simp [hm]))
          (Or.inr ⟨n, vn, rfl, rfl, hfn, hvn⟩) u hu
      refine ⟨⟨vu, hfu, hnz, ?_, ?_⟩, ?_⟩
      · intro m hm vm hfm
        rcases List.mem_cons.mp hm with he1 | hm2
        · rw [he1] at hfm
          rw [hfm] at hfn
          injection hfn with hv
          rw [hv]
          exact hcurb n vn rfl rfl
        · exact hmins m hm2 vm hfm
      · intro c v hc hv
        rcases hinv with ⟨-, hlow⟩ | ⟨c0, v0, hc0, hlow, -, -⟩
        · rw [hlow] at hv
          cases hv
        · rw [hlow] at hv
          rw [hv] at hlow
          unfold scoreLt at hlt
          rw [hlow] at hlt
          have h1 : vu ≤ vn := hcurb n vn rfl rfl
          exact le_of_lt (lt_of_le_of_lt h1 hlt)
      · rcases hmem with h1 | h2
        · exact Or.inl (by simp [h1])
        · cases h2
          exact Or.inl (by simp)
    · rw [if_neg hlt] at hu
      obtain ⟨⟨vu, hfu, hnz, hmins, hcurb⟩, hmem⟩ :=
        ih cur low (fun m hm => hfin m (by simp [hm])) hinv u hu
      have hlow : ∃ c lo, cur = some c ∧ low = some lo ∧ ¬vn < lo := by
        rcases hinv with ⟨hc, hl⟩ | ⟨c, v, hc, hl, -, -⟩
        · rw [hl] at hlt
          exact absurd trivial hlt
        · refine ⟨c, v, hc, hl, ?_⟩
          intro h2
          refine hlt ?_
          unfold scoreLt
          rw [hl]
          exact h2
      obtain ⟨c, lo, hc, hl, hnlt⟩ := hlow
      refine ⟨⟨vu, hfu, hnz, ?_, hcurb⟩, ?_⟩
      · intro m hm vm hfm
        rcases List.mem_cons.mp hm with he1 | hm2
        · rw [he1] at hfm
          rw [hfm] at hfn
          injection hfn with hv
          rw [hv]
          exact le_trans (hcurb c lo hc hl) (le_of_not_lt hnlt)
        · exact hmins m hm2 vm hfm
      · rcases hmem with h1 | h2
        · exact Or.inl (by simp [h1])
        · exact Or.inr h2

/-- The selected node is an open node of minimal f-score, provided every
open node's f-score is present and non-zero (so that the `|| Infinity`
coercion is transparent). -/
theorem selectCurrent_spec (openSet : List String) (fS : String → Option ℝ)
    (hfin : ∀ n ∈ openSet, ∃ v, fS n = some v ∧ ¬v = 0) (u : String)
    (h : selectCurrent openSet fS = some u) :
    u ∈ openSet ∧ ∃ vu, fS u = some vu ∧
      ∀ n ∈ openSet, ∀ vn, fS n = some vn → vu ≤ vn := by
  obtain ⟨⟨vu, hfu, -, hmins, -⟩, hmem⟩ :=
    selGo_min fS openSet none none hfin (Or.inl ⟨rfl, rfl⟩) u h
  rcases hmem with h1 | h2
  · exact ⟨h1, vu, hfu, hmins⟩
  · cases h2

/-! ### The search context and loop invariant -/

/-- The heuristic: straight-line distance to the destination. -/
noncomputable def hFun (p : RoutePlanner) (ce : Coords) (n : String) : ℝ :=
  calcDist (cdN p n) ce

/-- Everything fixed during one A* run on a well-formed catalog, in the
non-fast-path case. -/
structure SearchCtx (p : RoutePlanner) (range : ℝ)
    (startName endName : String) (sSys eSys : StarSystem)
    (cs ce : Coords) : Prop where
  wf : CatalogWF p.scene
  load : p.allSystems = p.scene.allSystems
  hs : p.scene.getSystem startName = some sSys
  hsc : sSys.coords = some cs
  he : p.scene.getSystem endName = some eSys
  hec : eSys.coords = some ce
  hDpos : 0 < calcDist cs ce
  hD : range < calcDist cs ce

namespace SearchCtx

variable {p : RoutePlanner} {range : ℝ} {startName endName : String}
variable {sSys eSys : StarSystem} {cs ce : Coords}

theorem Dpos (ctx : SearchCtx p range startName endName sSys eSys cs ce) :
    0 < calcDist cs ce :=
  ctx.hDpos

theorem ncoords_start (ctx : SearchCtx p range startName endName sSys eSys cs ce) :
    nCoords p startName = some cs := by
  unfold nCoords
  rw [ctx.hs]
  dsimp only
  exact ctx.hsc

theorem cd_start (ctx : SearchCtx p range startName endName sSys eSys cs ce) :
    cdN p startName = cs := by
  unfold cdN
  rw [ctx.ncoords_start]
  rfl

theorem ncoords_end (ctx : SearchCtx p range startName endName sSys eSys cs ce) :
    nCoords p endName = some ce := by
  unfold nCoords
  rw [ctx.he]
  dsimp only
  exact ctx.hec

theorem cd_end (ctx : SearchCtx p range startName endName sSys eSys cs ce) :
    cdN p endName = ce := by
  unfold cdN
  rw [ctx.ncoords_end]
  rfl

theorem hFun_end (ctx : SearchCtx p range startName endName sSys eSys cs ce) :
    hFun p ce endName = 0 := by
  unfold hFun
  rw [ctx.cd_end, calcDist_self]

theorem start_ne_end (ctx : SearchCtx p range startName endName sSys eSys cs ce) :
    startName ≠ endName := by
  intro h
  have h2 := ctx.hs
  rw [h, ctx.he] at h2
  cases h2
  have h3 := ctx.hsc
  rw [ctx.hec] at h3
  cases h3
  exact absurd (calcDist_self cs) (ne_of_gt ctx.Dpos)

/-- Any vertex the search handles resolves coherently. -/
theorem resolve_vert (ctx : SearchCtx p range startName endName sSys eSys cs ce)
    {n : String} (h : n = startName ∨ KVert p n) :
    ∃ s c, p.scene.getSystem n = some s ∧ s.coords = some c ∧
      nCoords p n = some c ∧ cdN p n = c := by
  rcases h with h | ⟨s, c, hmem, hc⟩
  · subst h
    exact ⟨sSys, cs, ctx.hs, ctx.hsc, ctx.ncoords_start, ctx.cd_start⟩
  · have hres : p.scene.getSystem n = some s := by
      refine ctx.wf.resolve_key ?_
      rw [← ctx.load]
      exact hmem
    refine ⟨s, c, hres, hc, ?_, ?_⟩
    · unfold nCoords
      rw [hres]
      dsimp only
      exact hc
    · unfold cdN nCoords
      rw [hres]
      dsimp only
      rw [hc]
      rfl

/-- A catalog vertex's key is its system's name. -/
theorem kvert_name (ctx : SearchCtx p range startName endName sSys eSys cs ce)
    {n : String} (h : KVert p n) :
    ∃ s, (n, s) ∈ p.allSystems ∧ s.name = n ∧ s.coords.isSome := by
  obtain ⟨s, c, hmem, hc⟩ := h
  have hk := ctx.wf.key_eq (n, s) (by rw [← ctx.load]; exact hmem)
  simp only at hk
  exact ⟨s, hmem, hk.symm, by rw [hc]; rfl⟩

end SearchCtx

/-- The A* loop invariant. -/
structure LoopInv (p : RoutePlanner) (range : ℝ)
    (startName endName : String) (cs ce : Coords) (st : AStarState) : Prop where
  open_nodup : st.openSet.Nodup
  disj : ∀ n ∈ st.openSet, n ∉ st.closedSet
  open_vert : ∀ n ∈ st.openSet, n = startName ∨ KVert p n
  closed_vert : ∀ n ∈ st.closedSet, n = startName ∨ KVert p n
  g_dom : ∀ n, (st.gScore n).isSome ↔ (n ∈ st.openSet ∨ n ∈ st.closedSet)
  f_eq : ∀ n gv, st.gScore n = some gv → st.fScore n = some (gv + hFun p ce n)
  g_walk : ∀ n gv, st.gScore n = some gv → ∃ l, Walk st.cameFrom n l ∧
    KPath p range startName l ∧ l.getLast? = some n ∧ kWeight p l = gv ∧
    l.Nodup ∧ ∀ m ∈ l.dropLast, m ∈ st.closedSet
  cf_start : st.cameFrom startName = none
  g_start : st.gScore startName = some 0
  start_placed : startName ∈ st.openSet ∨ startName ∈ st.closedSet
  start_open_alone : startName ∈ st.openSet →
    st.openSet = [startName] ∧ st.closedSet = []
  closed_opt : ∀ n ∈ st.closedSet, ∀ gv, st.gScore n = some gv →
    ∀ l, NPath p range startName cs l → l.getLast? = some n →
      gv ≤ kWeight p l
  closed_dom : ∀ n ∈ st.closedSet, ∀ gn, st.gScore n = some gn →
    ∀ b, KEdge p range n b → cdN p b ≠ cs → b ∉ st.closedSet →
      b ∈ st.openSet ∧ ∃ gb, st.gScore b = some gb ∧ gb ≤ gn + nwD p n b
  end_not_closed : endName ∉ st.closedSet

/-! ### Optimality of the popped node -/

/-- In the loop invariant, every open node carries a present, non-zero
f-score, so the `|| Infinity` coercion in the selection scan is
transparent. -/
theorem LoopInv.f_ne_zero
    {p : RoutePlanner} {range : ℝ} {startName endName : String}
    {sSys eSys : StarSystem} {cs ce : Coords}
    (ctx : SearchCtx p range startName endName sSys eSys cs ce)
    {st : AStarState} (inv : LoopInv p range startName endName cs ce st) :
    ∀ n ∈ st.openSet, ∃ v, st.fScore n = some v ∧ ¬v = 0 := by
  intro n hn
  obtain ⟨gv, hgv⟩ :=
    Option.isSome_iff_exists.mp ((inv.g_dom n).mpr (Or.inl hn))
  refine ⟨gv + hFun p ce n, inv.f_eq n gv hgv, ?_⟩
  obtain ⟨l, -, hkp, hlast, hw, -, -⟩ := inv.g_walk n gv hgv
  have hlow : calcDist cs (cdN p n) ≤ gv := by
    have h := kWeight_ge_direct p l startName n hkp.1 hlast
    rw [ctx.cd_start] at h
    rw [hw] at h
    exact h
  intro h0
  have hg0 : 0 ≤ gv := le_trans (calcDist_nonneg _ _) hlow
  have hh0 : 0 ≤ hFun p ce n := calcDist_nonneg _ _
  have hgz : gv = 0 := by linarith
  have hhz : hFun p ce n = 0 := by linarith
  have hce : cdN p n = ce := by
    unfold hFun at hhz
    exact (calcDist_eq_zero_iff_eq _ _).mp hhz
  rw [hgz, hce] at hlow
  exact absurd (le_antisymm hlow (calcDist_nonneg _ _)) (ne_of_gt ctx.hDpos)

/-- When the scan pops a node, its recorded g-score is at most the weight
of every normalized path that reaches it (the frontier argument: either
the whole search is still at the start, or the path crosses the closed
set's boundary through an already-relaxed edge). -/
theorem pop_optimal
    {p : RoutePlanner} {range : ℝ} {startName endName : String}
    {sSys eSys : StarSystem} {cs ce : Coords}
    (ctx : SearchCtx p range startName endName sSys eSys cs ce)
    {st : AStarState} (inv : LoopInv p range startName endName cs ce st)
    {u : String} (hu : selectCurrent st.openSet st.fScore = some u)
    {gu : ℝ} (hgu : st.gScore u = some gu) :
    ∀ l, NPath p range startName cs l → l.getLast? = some u →
      gu ≤ kWeight p l := by
  obtain ⟨humem, vu, hfu, hmin⟩ :=
    selectCurrent_spec st.openSet st.fScore (inv.f_ne_zero ctx) u hu
  have hunotc : u ∉ st.closedSet := inv.disj u humem
  have hvu : vu = gu + hFun p ce u := by
    have h2 := inv.f_eq u gu hgu
    rw [hfu] at h2
    exact Option.some_inj.mp h2
  intro l hnp hlast
  by_cases hso : startName ∈ st.openSet
  · obtain ⟨hopen, -⟩ := inv.start_open_alone hso
    have hus : u = startName := by
      rw [hopen] at humem
      exact List.mem_singleton.mp humem
    have hgu0 : st.gScore u = some 0 := by rw [hus]; exact inv.g_start
    rw [hgu] at hgu0
    rw [Option.some_inj.mp hgu0]
    exact kWeight_nonneg p l
  · have hsc2 : startName ∈ st.closedSet := by
      rcases inv.start_placed with h | h
      · exact absurd h hso
      · exact h
    have hheadmem : startName ∈ l := by
      have hh := hnp.1.1
      cases l with
      | nil => cases hh
      | cons x xs =>
        simp only [List.head?_cons, Option.some_inj] at hh
        rw [← hh]
        exact List.mem_cons_self x xs
    obtain ⟨l1, v, l2, heq, hvclosed, hl2⟩ :=
      split_at_last_prop (fun m => m ∈ st.closedSet) l
        ⟨startName, hheadmem, hsc2⟩
    cases l2 with
    | nil =>
      exfalso
      subst heq
      rw [List.getLast?_append_cons, List.getLast?_singleton] at hlast
      rw [Option.some_inj.mp hlast] at hvclosed
      exact hunotc hvclosed
    | cons b l2' =>
      subst heq
      obtain ⟨gv, hgvv⟩ :=
        Option.isSome_iff_exists.mp ((inv.g_dom v).mpr (Or.inr hvclosed))
      have hpre : NPath p range startName cs (l1 ++ [v]) :=
        NPath_trunc p range startName cs l1 v (b :: l2') hnp
      have hprelast : (l1 ++ [v]).getLast? = some v := by
        rw [List.getLast?_append_cons, List.getLast?_singleton]
      have hvopt : gv ≤ kWeight p (l1 ++ [v]) :=
        inv.closed_opt v hvclosed gv hgvv (l1 ++ [v]) hpre hprelast
      have hedge : KEdge p range v b :=
        KPath.edge_of_split p range startName l1 v b l2' hnp.1
      have hbtail : b ∈ (l1 ++ v :: b :: l2').tail := by
        cases l1 with
        | nil => simp
        | cons x xs => simp
      have hbns : cdN p b ≠ cs := hnp.2 b hbtail
      have hbnotc : b ∉ st.closedSet := hl2 b (List.mem_cons_self b l2')
      obtain ⟨hbopen, gb, hgb, hgble⟩ :=
        inv.closed_dom v hvclosed gv hgvv b hedge hbns hbnotc
      have hminb := hmin b hbopen (gb + hFun p ce b) (inv.f_eq b gb hgb)
      rw [hvu] at hminb
      have htri : hFun p ce b ≤ nwD p b u + hFun p ce u := by
        unfold hFun nwD
        exact calcDist_triangle _ _ _
      have hlast2 : (b :: l2').getLast? = some u := by
        rw [List.getLast?_append_cons, List.getLast?_cons_cons] at hlast
        exact hlast
      have hrem : nwD p b u ≤ kWeight p (b :: l2') :=
        kWeight_ge_direct p (b :: l2') b u rfl hlast2
      rw [kWeight_split p l1 v b l2']
      linarith

/-! ### The neighbour-relaxation fold -/

theorem contains_iff_mem (l : List String) (x : String) :
    l.contains x = true ↔ x ∈ l := by simp

/-- A recorded g-score of a vertex away from the start's coordinates is
strictly positive (it is the weight of a path from the start). -/
theorem g_pos_of_walk {p : RoutePlanner} {range : ℝ} {startName : String}
    {cs : Coords} (hcd : cdN p startName = cs) {n : String} {gv : ℝ}
    {l : List String} (hkp : KPath p range startName l)
    (hlast : l.getLast? = some n) (hw : kWeight p l = gv)
    (hcs : cdN p n ≠ cs) : 0 < gv := by
  have h := kWeight_ge_direct p l startName n hkp.1 hlast
  rw [hcd, hw] at h
  have h0 : 0 ≤ calcDist cs (cdN p n) := calcDist_nonneg _ _
  have hne : calcDist cs (cdN p n) ≠ 0 := by
    intro h2
    exact hcs ((calcDist_eq_zero_iff_eq _ _).mp h2).symm
  linarith [lt_of_le_of_ne h0 (Ne.symm hne)]

/-- What each entry of the neighbour list produced by
`findSystemsInRange` satisfies under catalog well-formedness: a catalog
vertex keyed by its own name, distinct from the centre's resolved name,
at distance `e.2 ≤ range` from the centre. -/
def NEntry (p : RoutePlanner) (range : ℝ) (uSys : StarSystem) (cu : Coords)
    (e : StarSystem × ℝ) : Prop :=
  (e.1.name, e.1) ∈ p.allSystems ∧ ∃ cb, e.1.coords = some cb ∧
    e.1.name ≠ uSys.name ∧ e.2 = calcDist cu cb ∧ e.2 ≤ range

/-- Invariant maintained by the neighbour-relaxation fold of one A*
iteration.  `g0` is the g-score map at the start of the fold, `baseOpen`
and `baseClosed` the open and closed sets just after `u` (with g-score
`gu`) was popped, and `todo` the still-unprocessed neighbour entries. -/
structure RelaxInv (p : RoutePlanner) (range : ℝ) (startName : String)
    (cs ce : Coords) (u : String) (gu : ℝ)
    (g0 : String → Option ℝ) (baseOpen baseClosed : List String)
    (s : AStarState) (todo : List (StarSystem × ℝ)) : Prop where
  closed_eq : s.closedSet = baseClosed
  open_ext : ∃ ext, s.openSet = baseOpen ++ ext
  open_nodup : s.openSet.Nodup
  disj : ∀ n ∈ s.openSet, n ∉ baseClosed
  open_vert : ∀ n ∈ s.openSet, n = startName ∨ KVert p n
  g_dom : ∀ n, (s.gScore n).isSome ↔ (n ∈ s.openSet ∨ n ∈ baseClosed)
  f_eq : ∀ n gv, s.gScore n = some gv → s.fScore n = some (gv + hFun p ce n)
  g_frozen : ∀ n ∈ baseClosed, s.gScore n = g0 n
  g_mono : ∀ n g1, g0 n = some g1 → cdN p n ≠ cs →
    ∃ g2, s.gScore n = some g2 ∧ g2 ≤ g1
  g_walk : ∀ n gv, s.gScore n = some gv → ∃ l, Walk s.cameFrom n l ∧
    KPath p range startName l ∧ l.getLast? = some n ∧ kWeight p l = gv ∧
    l.Nodup ∧ ∀ m ∈ l.dropLast, m ∈ baseClosed
  cf_start : s.cameFrom startName = none
  g_start : s.gScore startName = some 0
  start_closed : startName ∈ baseClosed
  u_closed : u ∈ baseClosed
  g_u : s.gScore u = some gu
  dom_u : ∀ b, KEdge p range u b → cdN p b ≠ cs → b ∉ baseClosed →
    (b ∈ s.openSet ∧ ∃ gb, s.gScore b = some gb ∧ gb ≤ gu + nwD p u b) ∨
    (∃ sb d, (sb, d) ∈ todo ∧ sb.name = b ∧ d = nwD p u b)

/-- The writing branches of `relaxNeighbor` preserve the fold invariant:
the maps are updated at the neighbour's key and the neighbour is on the
open list afterwards. -/
theorem relaxCore
    {p : RoutePlanner} {range : ℝ} {startName endName : String}
    {sSys eSys : StarSystem} {cs ce : Coords}
    (ctx : SearchCtx p range startName endName sSys eSys cs ce)
    {u : String} {uSys : StarSystem} {cu : Coords}
    (hu_res : p.scene.getSystem u = some uSys) (hcu : uSys.coords = some cu)
    {gu : ℝ} {g0 : String → Option ℝ} {baseOpen baseClosed : List String}
    {s : AStarState} {e : StarSystem × ℝ} {todo : List (StarSystem × ℝ)}
    (hE : NEntry p range uSys cu e)
    (inv : RelaxInv p range startName cs ce u gu g0 baseOpen baseClosed s
      (e :: todo))
    (hnc : e.1.name ∉ baseClosed)
    {newOpen : List String}
    (hcases : (newOpen = s.openSet ∧ e.1.name ∈ s.openSet) ∨
      (newOpen = s.openSet ++ [e.1.name] ∧ e.1.name ∉ s.openSet))
    (hglt : ∀ gb, s.gScore e.1.name = some gb → gb = 0 ∨ gu + e.2 < gb) :
    RelaxInv p range startName cs ce u gu g0 baseOpen baseClosed
      { openSet := newOpen
        closedSet := s.closedSet
        gScore := mapSet s.gScore e.1.name (gu + e.2)
        fScore := mapSet s.fScore e.1.name
          (gu + e.2 + calculateDistance e.1 eSys)
        cameFrom := mapSet s.cameFrom e.1.name u } todo := by
  obtain ⟨hmem, cb, hcb, hbneq, hd, hdr⟩ := hE
  have hbmem_scene : (e.1.name, e.1) ∈ p.scene.allSystems := by
    rw [← ctx.load]
    exact hmem
  have hb_res : p.scene.getSystem e.1.name = some e.1 :=
    ctx.wf.resolve_key hbmem_scene
  have hcdb : cdN p e.1.name = cb := by
    unfold cdN nCoords
    rw [hb_res]
    dsimp only
    rw [hcb]
    rfl
  have hcdu : cdN p u = cu := by
    unfold cdN nCoords
    rw [hu_res]
    dsimp only
    rw [hcu]
    rfl
  have hnwD : nwD p u e.1.name = e.2 := by
    unfold nwD
    rw [hcdu, hcdb, hd]
  have hKVb : KVert p e.1.name := ⟨e.1, cb, hmem, hcb⟩
  have hKEub : KEdge p range u e.1.name :=
    ⟨uSys, cu, e.1, cb, hu_res, hcu, hmem, hcb, hbneq, hd ▸ hdr⟩
  have hfb : calculateDistance e.1 eSys = hFun p ce e.1.name := by
    rw [calculateDistance_eq]
    unfold hFun
    rw [hcdb]
    unfold sysCd
    rw [hcb, ctx.hec]
    rfl
  have hBopen : e.1.name ∈ newOpen := by
    rcases hcases with ⟨he2, hm⟩ | ⟨he2, -⟩
    · rw [he2]; exact hm
    · rw [he2]; exact List.mem_append.mpr (Or.inr (List.mem_singleton.mpr rfl))
  have hOpenIff : ∀ n, n ∈ newOpen ↔ (n ∈ s.openSet ∨ n = e.1.name) := by
    intro n
    rcases hcases with ⟨he2, hm⟩ | ⟨he2, -⟩
    · rw [he2]
      constructor
      · exact fun h => Or.inl h
      · rintro (h | h)
        · exact h
        · rw [h]; exact hm
    · rw [he2]
      rw [List.mem_append, List.mem_singleton]
  have hbu : e.1.name ≠ u := fun h => hnc (h ▸ inv.u_closed)
  have hbs : e.1.name ≠ startName := fun h => hnc (h ▸ inv.start_closed)
  refine ⟨inv.closed_eq, ?_, ?_, ?_, ?_, ?_, ?_, ?_, ?_, ?_, ?_, ?_,
    inv.start_closed, inv.u_closed, ?_, ?_⟩
  · -- open_ext
    obtain ⟨ext, hext⟩ := inv.open_ext
    rcases hcases with ⟨he2, -⟩ | ⟨he2, -⟩
    · exact ⟨ext, by rw [he2, hext]⟩
    · exact ⟨ext ++ [e.1.name], by rw [he2, hext, List.append_assoc]⟩
  · -- open_nodup
    rcases hcases with ⟨he2, -⟩ | ⟨he2, hno⟩
    · rw [he2]; exact inv.open_nodup
    · rw [he2]
      refine List.Nodup.append inv.open_nodup (List.nodup_singleton _) ?_
      intro a ha hab
      exact hno (List.mem_singleton.mp hab ▸ ha)
  · -- disj
    intro n hn
    rcases (hOpenIff n).mp hn with h | h
    · exact inv.disj n h
    · rw [h]; exact hnc
  · -- open_vert
    intro n hn
    rcases (hOpenIff n).mp hn with h | h
    · exact inv.open_vert n h
    · rw [h]; exact Or.inr hKVb
  · -- g_dom
    intro n
    show (mapSet s.gScore e.1.name (gu + e.2) n).isSome ↔ _
    unfold mapSet
    by_cases hn : n = e.1.name
    · rw [if_pos hn]
      simp only [Option.isSome_some]
      exact ⟨fun _ => Or.inl (hn ▸ hBopen), fun _ => trivial⟩
    · rw [if_neg hn, inv.g_dom n]
      constructor
      · rintro (h | h)
        · exact Or.inl ((hOpenIff n).mpr (Or.inl h))
        · exact Or.inr h
      · rintro (h | h)
        · rcases (hOpenIff n).mp h with h2 | h2
          · exact Or.inl h2
          · exact absurd h2 hn
        · exact Or.inr h
  · -- f_eq
    intro n gv
    show mapSet s.gScore e.1.name (gu + e.2) n = some gv →
      mapSet s.fScore e.1.name (gu + e.2 + calculateDistance e.1 eSys) n =
        some (gv + hFun p ce n)
    unfold mapSet
    by_cases hn : n = e.1.name
    · rw [if_pos hn, if_pos hn]
      intro h
      rw [← Option.some_inj.mp h, hfb, hn]
    · rw [if_neg hn, if_neg hn]
      exact inv.f_eq n gv
  · -- g_frozen
    intro n hn
    show mapSet s.gScore e.1.name (gu + e.2) n = g0 n
    unfold mapSet
    rw [if_neg (show ¬n = e.1.name from fun h => hnc (by rw [← h]; exact hn))]
    exact inv.g_frozen n hn
  · -- g_mono
    intro n g1 hg1 hcs2
    show ∃ g2, mapSet s.gScore e.1.name (gu + e.2) n = some g2 ∧ g2 ≤ g1
    unfold mapSet
    by_cases hn : n = e.1.name
    · rw [if_pos hn]
      obtain ⟨g2, hg2, hle2⟩ := inv.g_mono n g1 hg1 hcs2
      obtain ⟨l, -, hkp, hlast, hw, -, -⟩ := inv.g_walk n g2 hg2
      have hpos : 0 < g2 := g_pos_of_walk ctx.cd_start hkp hlast hw hcs2
      rcases hglt g2 (hn ▸ hg2) with h0 | hlt
      · exact absurd h0 (ne_of_gt hpos)
      · exact ⟨gu + e.2, rfl, le_trans (le_of_lt hlt) hle2⟩
    · rw [if_neg hn]
      exact inv.g_mono n g1 hg1 hcs2
  · -- g_walk
    intro n gv
    show mapSet s.gScore e.1.name (gu + e.2) n = some gv → _
    unfold mapSet
    by_cases hn : n = e.1.name
    · rw [if_pos hn]
      intro hgv
      have hgvt : gv = gu + e.2 := (Option.some_inj.mp hgv).symm
      obtain ⟨lu, hwu, hkpu, hlastu, hwtu, hnodupu, hdropu⟩ :=
        inv.g_walk u gu inv.g_u
      have hlu_closed : ∀ m ∈ lu, m ∈ baseClosed := by
        intro m hm
        have hdecomp : lu.dropLast ++ [u] = lu :=
          List.dropLast_append_getLast? u (Option.mem_def.mpr hlastu)
        rw [← hdecomp] at hm
        rcases List.mem_append.mp hm with h2 | h2
        · exact hdropu m h2
        · rw [List.mem_singleton.mp h2]
          exact inv.u_closed
      have hbnotlu : e.1.name ∉ lu := fun hmm => hnc (hlu_closed _ hmm)
      have hwu2 : Walk (mapSet s.cameFrom e.1.name u) u lu :=
        Walk.update hwu hbnotlu
      refine ⟨lu ++ [e.1.name], ?_, ?_, ?_, ?_, ?_, ?_⟩
      · rw [hn]
        exact Walk.step e.1.name u lu
          (by show mapSet s.cameFrom e.1.name u e.1.name = some u
              unfold mapSet
              rw [if_pos rfl]) hwu2
      · exact KPath.snoc p range startName lu u e.1.name hkpu hlastu hKEub
      · rw [List.getLast?_append_cons, List.getLast?_singleton, hn]
      · rw [kWeight_append_one p lu u e.1.name hlastu, hwtu, hnwD, hgvt]
      · refine List.Nodup.append hnodupu (List.nodup_singleton _) ?_
        intro a ha hab
        exact hbnotlu (List.mem_singleton.mp hab ▸ ha)
      · rw [List.dropLast_concat]
        exact hlu_closed
    · rw [if_neg hn]
      intro hgv
      obtain ⟨l, hwn, hkp, hlast, hw, hnd, hdrop⟩ := inv.g_walk n gv hgv
      have hl_mem : ∀ m ∈ l, m ∈ baseClosed ∨ m = n := by
        intro m hm
        have hdecomp : l.dropLast ++ [n] = l :=
          List.dropLast_append_getLast? n (Option.mem_def.mpr hlast)
        rw [← hdecomp] at hm
        rcases List.mem_append.mp hm with h2 | h2
        · exact Or.inl (hdrop m h2)
        · exact Or.inr (List.mem_singleton.mp h2)
      have hbnotl : e.1.name ∉ l := by
        intro hmm
        rcases hl_mem _ hmm with h2 | h2
        · exact hnc h2
        · exact hn h2.symm
      exact ⟨l, Walk.update hwn hbnotl, hkp, hlast, hw, hnd, hdrop⟩
  · -- cf_start
    show mapSet s.cameFrom e.1.name u startName = none
    unfold mapSet
    rw [if_neg (fun h => hbs h.symm)]
    exact inv.cf_start
  · -- g_start
    show mapSet s.gScore e.1.name (gu + e.2) startName = some 0
    unfold mapSet
    rw [if_neg (fun h => hbs h.symm)]
    exact inv.g_start
  · -- g_u
    show mapSet s.gScore e.1.name (gu + e.2) u = some gu
    unfold mapSet
    rw [if_neg (fun h => hbu h.symm)]
    exact inv.g_u
  · -- dom_u
    intro b2 he2 hcs2 hnc2
    by_cases hb2 : b2 = e.1.name
    · refine Or.inl ⟨hb2 ▸ hBopen, gu + e.2, ?_, ?_⟩
      · show mapSet s.gScore e.1.name (gu + e.2) b2 = some (gu + e.2)
        unfold mapSet
        rw [if_pos hb2]
      · rw [hb2, hnwD]
    · rcases inv.dom_u b2 he2 hcs2 hnc2 with
        ⟨hopen2, gb2, hgb2, hle2⟩ | ⟨sb, dd, hsd, hname, hdd⟩
      · refine Or.inl ⟨(hOpenIff b2).mpr (Or.inl hopen2), gb2, ?_, hle2⟩
        show mapSet s.gScore e.1.name (gu + e.2) b2 = some gb2
        unfold mapSet
        rw [if_neg hb2]
        exact hgb2
      · rcases List.mem_cons.mp hsd with hhd | htl
        · exfalso
          have : sb.name = e.1.name := by rw [← hhd]
          exact hb2 (hname ▸ this ▸ rfl)
        · exact Or.inr ⟨sb, dd, htl, hname, hdd⟩

/-- One step of the neighbour loop preserves the fold invariant. -/
theorem relaxStep
    {p : RoutePlanner} {range : ℝ} {startName endName : String}
    {sSys eSys : StarSystem} {cs ce : Coords}
    (ctx : SearchCtx p range startName endName sSys eSys cs ce)
    {u : String} {uSys : StarSystem} {cu : Coords}
    (hu_res : p.scene.getSystem u = some uSys) (hcu : uSys.coords = some cu)
    {gu : ℝ} {g0 : String → Option ℝ} {baseOpen baseClosed : List String}
    {s : AStarState} {e : StarSystem × ℝ} {todo : List (StarSystem × ℝ)}
    (hE : NEntry p range uSys cu e)
    (inv : RelaxInv p range startName cs ce u gu g0 baseOpen baseClosed s
      (e :: todo)) :
    RelaxInv p range startName cs ce u gu g0 baseOpen baseClosed
      (relaxNeighbor eSys u s e) todo := by
  have hnwD : nwD p u e.1.name = e.2 := by
    obtain ⟨hmem, cb, hcb, hbneq, hd, hdr⟩ := hE
    have hbmem_scene : (e.1.name, e.1) ∈ p.scene.allSystems := by
      rw [← ctx.load]
      exact hmem
    have hb_res : p.scene.getSystem e.1.name = some e.1 :=
      ctx.wf.resolve_key hbmem_scene
    have hcdb : cdN p e.1.name = cb := by
      unfold cdN nCoords
      rw [hb_res]
      dsimp only
      rw [hcb]
      rfl
    have hcdu : cdN p u = cu := by
      unfold cdN nCoords
      rw [hu_res]
      dsimp only
      rw [hcu]
      rfl
    unfold nwD
    rw [hcdu, hcdb, hd]
  unfold relaxNeighbor
  dsimp only
  rw [inv.g_u]
  simp only [Option.getD_some]
  by_cases hbc : e.1.name ∈ baseClosed
  · have hcont : s.closedSet.contains e.1.name = true := by
      rw [inv.closed_eq]
      exact (contains_iff_mem _ _).mpr hbc
    rw [if_pos hcont]
    refine ⟨inv.closed_eq, inv.open_ext, inv.open_nodup, inv.disj,
      inv.open_vert, inv.g_dom, inv.f_eq, inv.g_frozen, inv.g_mono,
      inv.g_walk, inv.cf_start, inv.g_start, inv.start_closed,
      inv.u_closed, inv.g_u, ?_⟩
    intro b2 he2 hcs2 hnc2
    rcases inv.dom_u b2 he2 hcs2 hnc2 with hL | ⟨sb, dd, hsd, hname, hdd⟩
    · exact Or.inl hL
    · rcases List.mem_cons.mp hsd with hhd | htl
      · exfalso
        have hsb : sb.name = e.1.name := by rw [← hhd]
        rw [hname] at hsb
        rw [hsb] at hnc2
        exact hnc2 hbc
      · exact Or.inr ⟨sb, dd, htl, hname, hdd⟩
  · have hcont : ¬s.closedSet.contains e.1.name = true := by
      rw [inv.closed_eq]
      exact fun h => hbc ((contains_iff_mem _ _).mp h)
    rw [if_neg hcont]
    by_cases hbo : e.1.name ∈ s.openSet
    · have hcont2 : s.openSet.contains e.1.name = true :=
        (contains_iff_mem _ _).mpr hbo
      rw [if_pos hcont2]
      by_cases hge : geJsOrInf (gu + e.2) (s.gScore e.1.name)
      · rw [if_pos hge]
        refine ⟨inv.closed_eq, inv.open_ext, inv.open_nodup, inv.disj,
          inv.open_vert, inv.g_dom, inv.f_eq, inv.g_frozen, inv.g_mono,
          inv.g_walk, inv.cf_start, inv.g_start, inv.start_closed,
          inv.u_closed, inv.g_u, ?_⟩
        intro b2 he2 hcs2 hnc2
        rcases inv.dom_u b2 he2 hcs2 hnc2 with hL | ⟨sb, dd, hsd, hname, hdd⟩
        · exact Or.inl hL
        · rcases List.mem_cons.mp hsd with hhd | htl
          · have hsb : sb.name = e.1.name := by rw [← hhd]
            have hdd2 : dd = e.2 := by rw [← hhd]
            have hb2 : b2 = e.1.name := by rw [← hname, hsb]
            unfold geJsOrInf at hge
            cases hgb : s.gScore e.1.name with
            | none => rw [hgb] at hge; exact absurd hge id
            | some gb =>
              rw [hgb] at hge
              refine Or.inl ⟨hb2 ▸ hbo, gb, hb2 ▸ hgb, ?_⟩
              rw [hb2, hnwD]
              exact hge.2
          · exact Or.inr ⟨sb, dd, htl, hname, hdd⟩
      · rw [if_neg hge]
        refine relaxCore ctx hu_res hcu hE inv hbc (Or.inl ⟨rfl, hbo⟩) ?_
        intro gb hgb
        unfold geJsOrInf at hge
        rw [hgb] at hge
        rcases not_and_or.mp hge with h | h
        · exact Or.inl (not_not.mp h)
        · exact Or.inr (not_le.mp h)
    · have hcont2 : ¬s.openSet.contains e.1.name = true :=
        fun h => hbo ((contains_iff_mem _ _).mp h)
      rw [if_neg hcont2]
      refine relaxCore ctx hu_res hcu hE inv hbc (Or.inr ⟨rfl, hbo⟩) ?_
      intro gb hgb
      exfalso
      have hs2 : (s.gScore e.1.name).isSome := by rw [hgb]; rfl
      rcases (inv.g_dom e.1.name).mp hs2 with h | h
      · exact hbo h
      · exact hbc h

/-- The whole relaxation fold preserves the invariant and empties the
todo list. -/
theorem relaxFold
    {p : RoutePlanner} {range : ℝ} {startName endName : String}
    {sSys eSys : StarSystem} {cs ce : Coords}
    (ctx : SearchCtx p range startName endName sSys eSys cs ce)
    {u : String} {uSys : StarSystem} {cu : Coords}
    (hu_res : p.scene.getSystem u = some uSys) (hcu : uSys.coords = some cu)
    {gu : ℝ} {g0 : String → Option ℝ} {baseOpen baseClosed : List String} :
    ∀ (todo : List (StarSystem × ℝ)) (s : AStarState),
      (∀ e ∈ todo, NEntry p range uSys cu e) →
      RelaxInv p range startName cs ce u gu g0 baseOpen baseClosed s todo →
      RelaxInv p range startName cs ce u gu g0 baseOpen baseClosed
        (todo.foldl (relaxNeighbor eSys u) s) [] := by
  intro todo
  induction todo with
  | nil =>
    intro s _ inv
    rw [List.foldl_nil]
    exact inv
  | cons e rest ih =>
    intro s hEs inv
    rw [List.foldl_cons]
    exact ih (relaxNeighbor eSys u s e)
      (fun e2 h2 => hEs e2 (List.mem_cons_of_mem e h2))
      (relaxStep ctx hu_res hcu (hEs e (List.mem_cons_self e rest)) inv)

/-- Every entry of the neighbour list satisfies `NEntry`. -/
theorem neighbors_entries
    {p : RoutePlanner} {range : ℝ} {startName endName : String}
    {sSys eSys : StarSystem} {cs ce : Coords}
    (ctx : SearchCtx p range startName endName sSys eSys cs ce)
    {uSys : StarSystem} {cu : Coords} (hcu : uSys.coords = some cu) :
    ∀ e ∈ findSystemsInRange p.allSystems uSys range,
      NEntry p range uSys cu e := by
  intro e he
  obtain ⟨k, cc, sc, hmemk, hkne, hccu, hsc, hdeq, hdle⟩ :=
    (mem_findSystemsInRange p.allSystems uSys range e.1 e.2).mp he
  have hkey : k = e.1.name := by
    have h2 : (k, e.1) ∈ p.scene.allSystems := by
      rw [← ctx.load]
      exact hmemk
    exact ctx.wf.key_eq (k, e.1) h2
  have hcc : cc = cu := by
    rw [hccu] at hcu
    exact Option.some_inj.mp hcu
  rw [hkey] at hmemk hkne
  rw [hcc] at hdeq
  exact ⟨hmemk, sc, hsc, hkne, hdeq, hdle⟩

/-- One full A* iteration body — pop `u`, close it, relax its neighbours —
preserves the loop invariant, and grows the closed set by exactly `u`. -/
theorem loopStep
    {p : RoutePlanner} {range : ℝ} {startName endName : String}
    {sSys eSys : StarSystem} {cs ce : Coords}
    (ctx : SearchCtx p range startName endName sSys eSys cs ce)
    {st : AStarState} (inv : LoopInv p range startName endName cs ce st)
    {u : String} (hu : selectCurrent st.openSet st.fScore = some u)
    (hne : u ≠ endName)
    {uSys : StarSystem} (hu_res : p.scene.getSystem u = some uSys) :
    LoopInv p range startName endName cs ce
      ((findSystemsInRange p.allSystems uSys range).foldl
        (relaxNeighbor eSys u)
        { st with openSet := st.openSet.erase u
                  closedSet := jsSetAdd st.closedSet u }) ∧
    ((findSystemsInRange p.allSystems uSys range).foldl
        (relaxNeighbor eSys u)
        { st with openSet := st.openSet.erase u
                  closedSet := jsSetAdd st.closedSet u }).closedSet =
      st.closedSet ++ [u] := by
  obtain ⟨humem, vu, hfu, hmin⟩ :=
    selectCurrent_spec st.openSet st.fScore (inv.f_ne_zero ctx) u hu
  have hunotc : u ∉ st.closedSet := inv.disj u humem
  obtain ⟨gu, hgu⟩ :=
    Option.isSome_iff_exists.mp ((inv.g_dom u).mpr (Or.inl humem))
  have hpop := pop_optimal ctx inv hu hgu
  obtain ⟨s2, c2, hres2, hc2, -, -⟩ := ctx.resolve_vert (inv.open_vert u humem)
  have hs2u : s2 = uSys := by
    rw [hu_res] at hres2
    exact (Option.some_inj.mp hres2).symm
  rw [hs2u] at hc2
  have hjs : jsSetAdd st.closedSet u = st.closedSet ++ [u] := by
    unfold jsSetAdd
    rw [if_neg (fun h => hunotc ((contains_iff_mem _ _).mp h))]
  have hstartc : startName ∈ st.closedSet ++ [u] := by
    by_cases hso : startName ∈ st.openSet
    · obtain ⟨hopen, -⟩ := inv.start_open_alone hso
      have : u = startName := by
        rw [hopen] at humem
        exact List.mem_singleton.mp humem
      rw [← this]
      exact List.mem_append.mpr (Or.inr (List.mem_singleton.mpr rfl))
    · rcases inv.start_placed with h | h
      · exact absurd h hso
      · exact List.mem_append.mpr (Or.inl h)
  have hinv0 : RelaxInv p range startName cs ce u gu st.gScore
      (st.openSet.erase u) (st.closedSet ++ [u])
      { st with openSet := st.openSet.erase u
                closedSet := jsSetAdd st.closedSet u }
      (findSystemsInRange p.allSystems uSys range) := by
    refine ⟨hjs, ⟨[], (List.append_nil _).symm⟩,
      inv.open_nodup.erase u, ?_, ?_, ?_, inv.f_eq,
      fun _ _ => rfl, fun n g1 h _ => ⟨g1, h, le_refl g1⟩, ?_,
      inv.cf_start, inv.g_start, hstartc,
      List.mem_append.mpr (Or.inr (List.mem_singleton.mpr rfl)), hgu, ?_⟩
    · -- disj
      intro n hn
      obtain ⟨hnu, hno⟩ := (inv.open_nodup.mem_erase_iff).mp hn
      intro hmem2
      rcases List.mem_append.mp hmem2 with h2 | h2
      · exact inv.disj n hno h2
      · exact hnu (List.mem_singleton.mp h2)
    · -- open_vert
      intro n hn
      exact inv.open_vert n ((inv.open_nodup.mem_erase_iff).mp hn).2
    · -- g_dom
      intro n
      rw [inv.g_dom n]
      constructor
      · rintro (h | h)
        · by_cases hnu : n = u
          · exact Or.inr (List.mem_append.mpr (Or.inr (by
              rw [hnu]; exact List.mem_singleton.mpr rfl)))
          · exact Or.inl ((inv.open_nodup.mem_erase_iff).mpr ⟨hnu, h⟩)
        · exact Or.inr (List.mem_append.mpr (Or.inl h))
      · rintro (h | h)
        · exact Or.inl ((inv.open_nodup.mem_erase_iff).mp h).2
        · rcases List.mem_append.mp h with h2 | h2
          · exact Or.inr h2
          · rw [List.mem_singleton.mp h2]
            exact Or.inl humem
    · -- g_walk
      intro n gv hgv
      obtain ⟨l, hw, hkp, hlast, hwt, hnd, hdrop⟩ := inv.g_walk n gv hgv
      exact ⟨l, hw, hkp, hlast, hwt, hnd,
        fun m hm => List.mem_append.mpr (Or.inl (hdrop m hm))⟩
    · -- dom_u
      intro b2 he2 hcs2 hnc2
      obtain ⟨sa, ca, sb, cbb, hsa, hca, hmemb, hcbb, hbne, hdist⟩ := he2
      have hsau : sa = uSys := by
        rw [hu_res] at hsa
        exact (Option.some_inj.mp hsa).symm
      have hcau : ca = c2 := by
        rw [hsau] at hca
        rw [hca] at hc2
        exact Option.some_inj.mp hc2
      have hbname : sb.name = b2 := by
        have h2 : (b2, sb) ∈ p.scene.allSystems := by
          rw [← ctx.load]
          exact hmemb
        exact (ctx.wf.key_eq (b2, sb) h2).symm
      have hcdb2 : cdN p b2 = cbb := by
        have hres3 : p.scene.getSystem b2 = some sb := by
          refine ctx.wf.resolve_key ?_
          rw [← ctx.load]
          exact hmemb
        unfold cdN nCoords
        rw [hres3]
        dsimp only
        rw [hcbb]
        rfl
      have hcdu2 : cdN p u = c2 := by
        unfold cdN nCoords
        rw [hu_res]
        dsimp only
        rw [hc2]
        rfl
      refine Or.inr ⟨sb, calcDist c2 cbb, ?_, hbname, ?_⟩
      · refine (mem_findSystemsInRange p.allSystems uSys range sb
          (calcDist c2 cbb)).mpr ?_
        refine ⟨b2, c2, cbb, hmemb, ?_, hc2, hcbb, rfl, ?_⟩
        · rw [← hsau]
          exact hbne
        · rw [← hcau]
          exact hdist
      · unfold nwD
        rw [hcdu2, hcdb2]
  have hR := relaxFold ctx hu_res hc2
    (findSystemsInRange p.allSystems uSys range)
    { st with openSet := st.openSet.erase u
              closedSet := jsSetAdd st.closedSet u }
    (neighbors_entries ctx hc2) hinv0
  refine ⟨?_, hR.closed_eq⟩
  refine ⟨hR.open_nodup, ?_, hR.open_vert, ?_, ?_, hR.f_eq, ?_,
    hR.cf_start, hR.g_start, Or.inr (by rw [hR.closed_eq]; exact hstartc),
    ?_, ?_, ?_, ?_⟩
  · -- disj
    intro n hn
    rw [hR.closed_eq]
    exact hR.disj n hn
  · -- closed_vert
    intro n hn
    rw [hR.closed_eq] at hn
    rcases List.mem_append.mp hn with h | h
    · exact inv.closed_vert n h
    · rw [List.mem_singleton.mp h]
      exact inv.open_vert u humem
  · -- g_dom
    intro n
    rw [hR.g_dom n, hR.closed_eq]
  · -- g_walk
    intro n gv hgv
    obtain ⟨l, hw, hkp, hlast, hwt, hnd, hdrop⟩ := hR.g_walk n gv hgv
    refine ⟨l, hw, hkp, hlast, hwt, hnd, ?_⟩
    rw [hR.closed_eq]
    exact hdrop
  · -- start_open_alone
    intro hso
    exfalso
    exact hR.disj startName hso hstartc
  · -- closed_opt
    intro n hn gv hgv l2 hnp2 hlast2
    rw [hR.closed_eq] at hn
    have hg0 : st.gScore n = some gv := by
      rw [← hR.g_frozen n hn]
      exact hgv
    rcases List.mem_append.mp hn with h | h
    · exact inv.closed_opt n h gv hg0 l2 hnp2 hlast2
    · rw [List.mem_singleton.mp h] at hg0
      rw [hgu] at hg0
      rw [← Option.some_inj.mp hg0]
      exact hpop l2 hnp2 (by
        rw [← List.mem_singleton.mp h]
        exact hlast2)
  · -- closed_dom
    intro n hn gn hgn b2 he2 hcs2 hnc2
    rw [hR.closed_eq] at hn hnc2
    rcases List.mem_append.mp hn with h | h
    · -- an old closed vertex
      have hbu2 : b2 ≠ u := by
        intro h2
        exact hnc2 (by
          rw [h2]
          exact List.mem_append.mpr (Or.inr (List.mem_singleton.mpr rfl)))
      have hbnotc : b2 ∉ st.closedSet :=
        fun h2 => hnc2 (List.mem_append.mpr (Or.inl h2))
      have hg0 : st.gScore n = some gn := by
        rw [← hR.g_frozen n (List.mem_append.mpr (Or.inl h))]
        exact hgn
      obtain ⟨hbopen0, gb0, hgb0, hle0⟩ :=
        inv.closed_dom n h gn hg0 b2 he2 hcs2 hbnotc
      obtain ⟨gb2, hgb2, hle2⟩ := hR.g_mono b2 gb0 hgb0 hcs2
      obtain ⟨ext, hext⟩ := hR.open_ext
      refine ⟨?_, gb2, hgb2, le_trans hle2 hle0⟩
      rw [hext]
      exact List.mem_append.mpr
        (Or.inl ((inv.open_nodup.mem_erase_iff).mpr ⟨hbu2, hbopen0⟩))
    · -- the newly closed vertex u
      rw [List.mem_singleton.mp h] at hgn
      have hgngu : gn = gu := by
        rw [hR.g_u] at hgn
        exact (Option.some_inj.mp hgn).symm
      rcases hR.dom_u b2 (by
          rw [← List.mem_singleton.mp h]
          exact he2) hcs2 hnc2 with
        ⟨hbo2, gb2, hgb2, hle2⟩ | ⟨sb, dd, hsd, -, -⟩
      · refine ⟨hbo2, gb2, hgb2, ?_⟩
        rw [hgngu, List.mem_singleton.mp h]
        exact hle2
      · exact absurd hsd (List.not_mem_nil (sb, dd))
  · -- end_not_closed
    rw [hR.closed_eq]
    intro h2
    rcases List.mem_append.mp h2 with h3 | h3
    · exact inv.end_not_closed h3
    · exact hne (List.mem_singleton.mp h3).symm

/-! ### Soundness of the fuelled loop -/

/-- Every vertex after the head of an edge chain is a catalog vertex. -/
theorem chain_targets (p : RoutePlanner) (range : ℝ) :
    ∀ l : List String, List.Chain' (KEdge p range) l →
      ∀ n ∈ l.tail, KVert p n := by
  intro l
  induction l with
  | nil => intro _ n hn; cases hn
  | cons x xs ih =>
    intro hc n hn
    cases xs with
    | nil => cases hn
    | cons y ys =>
      obtain ⟨hxy, hc2⟩ := List.chain'_cons.mp hc
      rcases List.mem_cons.mp hn with h | h
      · obtain ⟨sa, ca, sb, cb, -, -, hmem, hcb, -, -⟩ := hxy
        rw [h]
        exact ⟨sb, cb, hmem, hcb⟩
      · exact ih hc2 n h

/-- Every vertex of a `KPath` is the start name or a catalog vertex. -/
theorem kpath_verts (p : RoutePlanner) (range : ℝ) (startName : String)
    (l : List String) (h : KPath p range startName l) :
    ∀ n ∈ l, n = startName ∨ KVert p n := by
  obtain ⟨hh, hc⟩ := h
  intro n hn
  cases l with
  | nil => cases hn
  | cons x xs =>
    simp only [List.head?_cons, Option.some_inj] at hh
    rcases List.mem_cons.mp hn with h2 | h2
    · exact Or.inl (h2.trans hh)
    · exact Or.inr (chain_targets p range (x :: xs) hc n h2)

/-- The resolved-system view of a name (total, with a junk default that
is never reached on resolving names). -/
noncomputable def resolveSys (p : RoutePlanner) (n : String) : StarSystem :=
  (p.scene.getSystem n).getD ⟨"", none⟩

theorem filterMap_resolve (p : RoutePlanner) :
    ∀ l : List String, (∀ n ∈ l, (p.scene.getSystem n).isSome) →
      l.filterMap p.scene.getSystem = l.map (resolveSys p) := by
  intro l
  induction l with
  | nil => intro _; rfl
  | cons x xs ih =>
    intro hres
    obtain ⟨s, hs⟩ :=
      Option.isSome_iff_exists.mp (hres x (List.mem_cons_self x xs))
    rw [List.filterMap_cons, hs, List.map_cons]
    dsimp only
    rw [ih (fun n hn => hres n (List.mem_cons_of_mem x hn))]
    have h2 : resolveSys p x = s := by
      unfold resolveSys
      rw [hs]
      rfl
    rw [h2]

theorem nwD_eq_resolve (p : RoutePlanner) (a b : String)
    (ha : (p.scene.getSystem a).isSome) (hb : (p.scene.getSystem b).isSome) :
    calculateDistance (resolveSys p a) (resolveSys p b) = nwD p a b := by
  obtain ⟨sa, hsa⟩ := Option.isSome_iff_exists.mp ha
  obtain ⟨sb, hsb⟩ := Option.isSome_iff_exists.mp hb
  unfold resolveSys nwD cdN nCoords
  rw [hsa, hsb]
  dsimp only
  rfl

theorem chainWeight_map_resolve (p : RoutePlanner) :
    ∀ l : List String, (∀ n ∈ l, (p.scene.getSystem n).isSome) →
      chainWeight (l.map (resolveSys p)) = kWeight p l := by
  intro l
  induction l with
  | nil => intro _; rfl
  | cons x xs ih =>
    intro hres
    cases xs with
    | nil => rfl
    | cons y ys =>
      have hx := hres x (List.mem_cons_self x (y :: ys))
      have hy := hres y (by simp)
      show calculateDistance (resolveSys p x) (resolveSys p y) +
        chainWeight ((y :: ys).map (resolveSys p)) = nwD p x y +
        kWeight p (y :: ys)
      rw [nwD_eq_resolve p x y hx hy,
        ih (fun n hn => hres n (List.mem_cons_of_mem x hn))]

theorem pathDistance_eq_kWeight (p : RoutePlanner) :
    ∀ l : List String, (∀ n ∈ l, (p.scene.getSystem n).isSome) →
      pathDistance p.scene l = kWeight p l := by
  intro l
  induction l with
  | nil => intro _; rfl
  | cons x xs ih =>
    intro hres
    cases xs with
    | nil => rfl
    | cons y ys =>
      obtain ⟨sx, hsx⟩ :=
        Option.isSome_iff_exists.mp (hres x (List.mem_cons_self x (y :: ys)))
      obtain ⟨sy, hsy⟩ := Option.isSome_iff_exists.mp (hres y (by simp))
      rw [pathDistance, kWeight, hsx, hsy]
      dsimp only
      rw [ih (fun n hn => hres n (List.mem_cons_of_mem x hn))]
      have h2 : calculateDistance sx sy = nwD p x y := by
        unfold nwD cdN nCoords
        rw [hsx, hsy]
        dsimp only
        rfl
      rw [h2]

/-- Soundness and optimality of the fuelled A* loop: a returned route is
reconstructed from the recorded predecessor walk — a search path of the
recorded weight ending at the end name — and that weight is minimal among
all normalized search paths reaching the end name. -/
theorem aStarLoop_sound
    {p : RoutePlanner} {range : ℝ} {startName endName : String}
    {sSys eSys : StarSystem} {cs ce : Coords}
    (ctx : SearchCtx p range startName endName sSys eSys cs ce) :
    ∀ (fuel : ℕ) (st : AStarState),
      LoopInv p range startName endName cs ce st →
      st.closedSet.length + fuel ≤ maxIterations →
      ∀ rd, (aStarLoop p endName eSys range fuel st).1 = some rd →
        KVert p endName ∧
        ∃ l gv, KPath p range startName l ∧ l.getLast? = some endName ∧
          kWeight p l = gv ∧ rd.totalDistance = gv ∧
          rd.route = l.filterMap p.scene.getSystem ∧
          (∀ n ∈ l, (p.scene.getSystem n).isSome) ∧
          (∀ l2, NPath p range startName cs l2 →
            l2.getLast? = some endName → gv ≤ kWeight p l2) := by
  intro fuel
  induction fuel with
  | zero =>
    intro st _ _ rd hrd
    simp [aStarLoop] at hrd
  | succ fuel ih =>
    intro st inv hbound rd hrd
    rw [aStarLoop] at hrd
    by_cases hemp : st.openSet.isEmpty = true
    · rw [if_pos hemp] at hrd
      simp at hrd
    · rw [if_neg hemp] at hrd
      cases hsel : selectCurrent st.openSet st.fScore with
      | none =>
        rw [hsel] at hrd
        simp at hrd
      | some current =>
        rw [hsel] at hrd
        dsimp only at hrd
        by_cases hcur_end : current = endName
        · rw [if_pos hcur_end] at hrd
          dsimp only at hrd
          have hrd2 : rd = reconstructPath p.scene st.cameFrom current :=
            (Option.some_inj.mp hrd).symm
          rw [hcur_end] at hsel hrd2
          obtain ⟨hendopen, vu, hfu, hminv⟩ :=
            selectCurrent_spec st.openSet st.fScore (inv.f_ne_zero ctx)
              endName hsel
          obtain ⟨gv, hge⟩ :=
            Option.isSome_iff_exists.mp
              ((inv.g_dom endName).mpr (Or.inl hendopen))
          have hpop := pop_optimal ctx inv hsel hge
          obtain ⟨l, hw, hkp, hlast, hwt, hnd, hdrop⟩ :=
            inv.g_walk endName gv hge
          have hkv : KVert p endName := by
            rcases inv.open_vert endName hendopen with h | h
            · exact absurd h.symm ctx.start_ne_end
            · exact h
          have hres : ∀ n ∈ l, (p.scene.getSystem n).isSome := by
            intro n hn
            obtain ⟨s, c, hres2, -, -, -⟩ :=
              ctx.resolve_vert (kpath_verts p range startName l hkp n hn)
            rw [hres2]
            rfl
          have hlen : l.length ≤ st.closedSet.length + 1 := by
            have hdecomp : l.dropLast ++ [endName] = l :=
              List.dropLast_append_getLast? endName (Option.mem_def.mpr hlast)
            have hnd2 : l.dropLast.Nodup := by
              rw [← hdecomp] at hnd
              exact (List.nodup_append.mp hnd).1
            have hsub := List.subperm_of_subset hnd2
              (fun m hm => hdrop m hm)
            have hlen2 : l.dropLast.length ≤ st.closedSet.length :=
              hsub.length_le
            have hlen3 : l.length = l.dropLast.length + 1 := by
              conv_lhs => rw [← hdecomp]
              rw [List.length_append, List.length_singleton]
            omega
          have hwalk_eq :
              reconstructWalk st.cameFrom (maxIterations + 1) endName = l := by
            refine Walk.reconstruct hw (maxIterations + 1) ?_
            omega
          refine ⟨hkv, l, gv, hkp, hlast, hwt, ?_, ?_, hres, hpop⟩
          · rw [hrd2]
            unfold reconstructPath
            dsimp only
            rw [hwalk_eq, pathDistance_eq_kWeight p l hres, hwt]
          · rw [hrd2]
            unfold reconstructPath
            dsimp only
            rw [hwalk_eq]
        · rw [if_neg hcur_end] at hrd
          obtain ⟨hcuropen, -, -, -⟩ :=
            selectCurrent_spec st.openSet st.fScore (inv.f_ne_zero ctx)
              current hsel
          obtain ⟨s2, c2, hres2, hc2, -, -⟩ :=
            ctx.resolve_vert (inv.open_vert current hcuropen)
          rw [hres2] at hrd
          dsimp only at hrd
          obtain ⟨hinv2, hclosed2⟩ := loopStep ctx inv hsel hcur_end hres2
          refine ih _ hinv2 ?_ rd hrd
          rw [hclosed2, List.length_append, List.length_singleton]
          omega

/-! ### Normalizing arbitrary system chains to search paths -/

/-- Remove consecutive same-name entries from a system list. -/
def dedupC : List StarSystem → List StarSystem
  | [] => []
  | [a] => [a]
  | a :: b :: rest =>
    if a.name = b.name then dedupC (b :: rest) else a :: dedupC (b :: rest)

theorem dedupC_ne_nil : ∀ (a : StarSystem) (l : List StarSystem),
    dedupC (a :: l) ≠ []
  | _, [] => by
    rw [dedupC]
    simp
  | a, b :: rest => by
    rw [dedupC]
    by_cases h : a.name = b.name
    · rw [if_pos h]
      exact dedupC_ne_nil b rest
    · rw [if_neg h]
      simp

theorem dedupC_head : ∀ (a : StarSystem) (l : List StarSystem),
    (∀ x ∈ a :: l, ∀ y ∈ a :: l, x.name = y.name → x = y) →
    (dedupC (a :: l)).head? = some a
  | _, [] => fun _ => rfl
  | a, b :: rest => fun hinj => by
    rw [dedupC]
    by_cases h : a.name = b.name
    · rw [if_pos h]
      have hab : a = b :=
        hinj a (List.mem_cons_self a (b :: rest)) b
          (List.mem_cons_of_mem a (List.mem_cons_self b rest)) h
      rw [dedupC_head b rest (fun x hx y hy h2 =>
        hinj x (List.mem_cons_of_mem a hx) y (List.mem_cons_of_mem a hy) h2)]
      rw [hab]
    · rw [if_neg h]
      rfl

theorem dedupC_last : ∀ l : List StarSystem,
    (dedupC l).getLast? = l.getLast?
  | [] => rfl
  | [_] => rfl
  | a :: b :: rest => by
    rw [dedupC]
    by_cases h : a.name = b.name
    · rw [if_pos h, dedupC_last (b :: rest), List.getLast?_cons_cons]
    · rw [if_neg h, List.getLast?_cons_cons, ← dedupC_last (b :: rest)]
      cases hd : dedupC (b :: rest) with
      | nil => exact absurd hd (dedupC_ne_nil b rest)
      | cons c cs2 => rw [List.getLast?_cons_cons]

theorem dedupC_subset : ∀ (l : List StarSystem), ∀ x ∈ dedupC l, x ∈ l
  | [] => by intro x hx; rw [dedupC] at hx; cases hx
  | [a] => by
    intro x hx
    rw [dedupC] at hx
    exact hx
  | a :: b :: rest => by
    intro x hx
    rw [dedupC] at hx
    by_cases h : a.name = b.name
    · rw [if_pos h] at hx
      exact List.mem_cons_of_mem a (dedupC_subset (b :: rest) x hx)
    · rw [if_neg h] at hx
      rcases List.mem_cons.mp hx with h2 | h2
      · rw [h2]
        exact List.mem_cons_self a (b :: rest)
      · exact List.mem_cons_of_mem a (dedupC_subset (b :: rest) x h2)

theorem dedupC_chain' (R : StarSystem → StarSystem → Prop) :
    ∀ l : List StarSystem,
      (∀ x ∈ l, ∀ y ∈ l, x.name = y.name → x = y) →
      List.Chain' R l → List.Chain' R (dedupC l)
  | [] => fun _ _ => List.chain'_nil
  | [a] => fun _ _ => by
    rw [dedupC]
    exact List.chain'_singleton a
  | a :: b :: rest => fun hinj hc => by
    obtain ⟨hab, hc2⟩ := List.chain'_cons.mp hc
    have hinj2 : ∀ x ∈ b :: rest, ∀ y ∈ b :: rest, x.name = y.name → x = y :=
      fun x hx y hy h2 =>
        hinj x (List.mem_cons_of_mem a hx) y (List.mem_cons_of_mem a hy) h2
    rw [dedupC]
    by_cases h : a.name = b.name
    · rw [if_pos h]
      exact dedupC_chain' R (b :: rest) hinj2 hc2
    · rw [if_neg h]
      refine List.chain'_cons'.mpr ⟨?_, dedupC_chain' R (b :: rest) hinj2 hc2⟩
      intro hd hhd
      rw [dedupC_head b rest hinj2] at hhd
      have h2 : b = hd := Option.some_inj.mp (Option.mem_def.mp hhd)
      rw [← h2]
      exact hab

theorem dedupC_names : ∀ l : List StarSystem,
    (∀ x ∈ l, ∀ y ∈ l, x.name = y.name → x = y) →
    List.Chain' (fun x y => x.name ≠ y.name) (dedupC l)
  | [] => fun _ => List.chain'_nil
  | [a] => fun _ => by
    rw [dedupC]
    exact List.chain'_singleton a
  | a :: b :: rest => fun hinj => by
    have hinj2 : ∀ x ∈ b :: rest, ∀ y ∈ b :: rest, x.name = y.name → x = y :=
      fun x hx y hy h2 =>
        hinj x (List.mem_cons_of_mem a hx) y (List.mem_cons_of_mem a hy) h2
    rw [dedupC]
    by_cases h : a.name = b.name
    · rw [if_pos h]
      exact dedupC_names (b :: rest) hinj2
    · rw [if_neg h]
      refine List.chain'_cons'.mpr ⟨?_, dedupC_names (b :: rest) hinj2⟩
      intro hd hhd
      rw [dedupC_head b rest hinj2] at hhd
      have h2 : b = hd := Option.some_inj.mp (Option.mem_def.mp hhd)
      rw [← h2]
      exact h

theorem dedupC_weight : ∀ l : List StarSystem,
    (∀ x ∈ l, ∀ y ∈ l, x.name = y.name → x = y) →
    chainWeight (dedupC l) = chainWeight l
  | [] => fun _ => rfl
  | [_] => fun _ => rfl
  | a :: b :: rest => fun hinj => by
    have hinj2 : ∀ x ∈ b :: rest, ∀ y ∈ b :: rest, x.name = y.name → x = y :=
      fun x hx y hy h2 =>
        hinj x (List.mem_cons_of_mem a hx) y (List.mem_cons_of_mem a hy) h2
    rw [dedupC]
    by_cases h : a.name = b.name
    · rw [if_pos h]
      have hab : a = b :=
        hinj a (List.mem_cons_self a (b :: rest)) b
          (List.mem_cons_of_mem a (List.mem_cons_self b rest)) h
      rw [dedupC_weight (b :: rest) hinj2]
      show chainWeight (b :: rest) = chainWeight (a :: b :: rest)
      rw [chainWeight, hab, calculateDistance_eq, calcDist_self, zero_add]
    · rw [if_neg h]
      cases hd : dedupC (b :: rest) with
      | nil => exact absurd hd (dedupC_ne_nil b rest)
      | cons c cs2 =>
        have hcb : c = b := by
          have h2 := dedupC_head b rest hinj2
          rw [hd] at h2
          exact Option.some_inj.mp h2
        show calculateDistance a c + chainWeight (c :: cs2) =
          calculateDistance a b + chainWeight (b :: rest)
        rw [← hd, dedupC_weight (b :: rest) hinj2, hcb]

theorem chainWeight_suffix_le :
    ∀ (l1 l2 : List StarSystem), l2 ≠ [] →
      chainWeight l2 ≤ chainWeight (l1 ++ l2)
  | [], _, _ => le_refl _
  | x :: xs, l2, h => by
    have ih := chainWeight_suffix_le xs l2 h
    rw [List.cons_append]
    refine le_trans ih ?_
    cases hx : xs ++ l2 with
    | nil => exact absurd ((List.append_eq_nil.mp hx).2) h
    | cons c cs2 =>
      show chainWeight (c :: cs2) ≤ calculateDistance x c + chainWeight (c :: cs2)
      have h2 : 0 ≤ calculateDistance x c := by
        rw [calculateDistance_eq]
        exact calcDist_nonneg _ _
      linarith

/-- A coordinate-and-range chain of catalog systems with pairwise-distinct
consecutive names maps to a `KEdge` chain on their keys. -/
theorem chain_edges
    {p : RoutePlanner} {range : ℝ} {startName endName : String}
    {sSys eSys : StarSystem} {cs ce : Coords}
    (ctx : SearchCtx p range startName endName sSys eSys cs ce) :
    ∀ (l : List StarSystem),
      (∀ y ∈ l, (y.name, y) ∈ p.allSystems ∧ y.coords.isSome) →
      List.Chain' (fun a b => calculateDistance a b ≤ range) l →
      List.Chain' (fun a b => a.name ≠ b.name) l →
      List.Chain' (KEdge p range) (l.map StarSystem.name) := by
  intro l
  induction l with
  | nil => intro _ _ _; exact List.chain'_nil
  | cons x xs ih =>
    intro hmem hcd hcn
    rw [List.map_cons]
    cases xs with
    | nil => exact List.chain'_singleton _
    | cons y ys =>
      rw [List.map_cons]
      obtain ⟨hdxy, hcd2⟩ := List.chain'_cons.mp hcd
      obtain ⟨hnxy, hcn2⟩ := List.chain'_cons.mp hcn
      refine List.chain'_cons.mpr ⟨?_, ?_⟩
      · obtain ⟨hxm, hxc⟩ := hmem x (List.mem_cons_self x (y :: ys))
        obtain ⟨hym, hyc⟩ := hmem y (by simp)
        obtain ⟨cx, hcx⟩ := Option.isSome_iff_exists.mp hxc
        obtain ⟨cy, hcy⟩ := Option.isSome_iff_exists.mp hyc
        have hres_x : p.scene.getSystem x.name = some x := by
          refine ctx.wf.resolve_key ?_
          rw [← ctx.load]
          exact hxm
        refine ⟨x, cx, y, cy, hres_x, hcx, hym, hcy,
          fun h2 => hnxy h2.symm, ?_⟩
        have h2 : calculateDistance x y = calcDist cx cy := by
          rw [calculateDistance_eq]
          unfold sysCd
          rw [hcx, hcy]
          rfl
        rw [← h2]
        exact hdxy
      · rw [← List.map_cons]
        exact ih (fun y2 hy2 => hmem y2 (List.mem_cons_of_mem x hy2)) hcd2 hcn2

theorem kWeight_map_name
    {p : RoutePlanner} {range : ℝ} {startName endName : String}
    {sSys eSys : StarSystem} {cs ce : Coords}
    (ctx : SearchCtx p range startName endName sSys eSys cs ce) :
    ∀ (l : List StarSystem),
      (∀ y ∈ l, (y.name, y) ∈ p.allSystems ∧ y.coords.isSome) →
      kWeight p (l.map StarSystem.name) = chainWeight l := by
  intro l
  induction l with
  | nil => intro _; rfl
  | cons x xs ih =>
    intro hmem
    cases xs with
    | nil => rfl
    | cons y ys =>
      obtain ⟨hxm, hxc⟩ := hmem x (List.mem_cons_self x (y :: ys))
      obtain ⟨hym, hyc⟩ := hmem y (by simp)
      obtain ⟨cx, hcx⟩ := Option.isSome_iff_exists.mp hxc
      obtain ⟨cy, hcy⟩ := Option.isSome_iff_exists.mp hyc
      have hres_x : p.scene.getSystem x.name = some x := by
        refine ctx.wf.resolve_key ?_
        rw [← ctx.load]
        exact hxm
      have hres_y : p.scene.getSystem y.name = some y := by
        refine ctx.wf.resolve_key ?_
        rw [← ctx.load]
        exact hym
      show nwD p x.name y.name + kWeight p ((y :: ys).map StarSystem.name) =
        calculateDistance x y + chainWeight (y :: ys)
      rw [ih (fun y2 hy2 => hmem y2 (List.mem_cons_of_mem x hy2))]
      have h2 : nwD p x.name y.name = calculateDistance x y := by
        unfold nwD cdN nCoords
        rw [hres_x, hres_y]
        dsimp only
        rw [calculateDistance_eq]
        rfl
      rw [h2]

theorem getLast?_map_name :
    ∀ (l : List StarSystem) (s : StarSystem), l.getLast? = some s →
      (l.map StarSystem.name).getLast? = some s.name
  | [], _ => by intro h; cases h
  | [a], s => by
    intro h
    rw [List.getLast?_singleton] at h
    rw [Option.some_inj.mp h]
    rfl
  | a :: b :: rest, s => by
    intro h
    rw [List.getLast?_cons_cons] at h
    rw [List.map_cons, List.map_cons, List.getLast?_cons_cons, ← List.map_cons]
    exact getLast?_map_name (b :: rest) s h

/-- Any system chain from the start system to the end system gives a
normalized search path to the end key of no greater weight. -/
theorem chain_to_npath
    {p : RoutePlanner} {range : ℝ} {startName endName : String}
    {sSys eSys : StarSystem} {cs ce : Coords}
    (ctx : SearchCtx p range startName endName sSys eSys cs ce)
    (hkey : eSys.name = endName)
    (l2 : List StarSystem) (hc : SysChain p range l2)
    (hh : l2.head? = some sSys) (hl : l2.getLast? = some eSys) :
    ∃ nl, NPath p range startName cs nl ∧ nl.getLast? = some endName ∧
      kWeight p nl ≤ chainWeight l2 := by
  obtain ⟨hmem0, hchain0⟩ := hc
  have hmem : ∀ y ∈ l2, (y.name, y) ∈ p.allSystems ∧ y.coords.isSome := by
    intro y hy
    obtain ⟨⟨k, hk⟩, hco⟩ := hmem0 y hy
    have hk2 : k = y.name := by
      have h3 : (k, y) ∈ p.scene.allSystems := by
        rw [← ctx.load]
        exact hk
      exact ctx.wf.key_eq (k, y) h3
    exact ⟨hk2 ▸ hk, hco⟩
  have hinj : ∀ x ∈ l2, ∀ y ∈ l2, x.name = y.name → x = y := by
    intro x hx y hy hxy
    have h1 := (hmem x hx).1
    have h2 := (hmem y hy).1
    rw [ctx.load] at h1 h2
    exact ctx.wf.val_inj h1 h2 hxy
  have hscd : sysCd sSys = cs := by
    unfold sysCd
    rw [ctx.hsc]
    rfl
  have hecd : sysCd eSys = ce := by
    unfold sysCd
    rw [ctx.hec]
    rfl
  cases l2 with
  | nil => cases hh
  | cons a0 rest0 =>
  have ha0 : a0 = sSys := by
    simp only [List.head?_cons, Option.some_inj] at hh
    exact hh
  have hdh : (dedupC (a0 :: rest0)).head? = some sSys := by
    rw [dedupC_head a0 rest0 hinj, ha0]
  have hdlast : (dedupC (a0 :: rest0)).getLast? = some eSys := by
    rw [dedupC_last (a0 :: rest0)]
    exact hl
  have hdmem : ∀ y ∈ dedupC (a0 :: rest0),
      (y.name, y) ∈ p.allSystems ∧ y.coords.isSome :=
    fun y hy => hmem y (dedupC_subset (a0 :: rest0) y hy)
  have hdchain : List.Chain' (fun a b => calculateDistance a b ≤ range)
      (dedupC (a0 :: rest0)) :=
    dedupC_chain' _ (a0 :: rest0) hinj hchain0
  have hdnames : List.Chain' (fun x y => x.name ≠ y.name)
      (dedupC (a0 :: rest0)) :=
    dedupC_names (a0 :: rest0) hinj
  have hdweight : chainWeight (dedupC (a0 :: rest0)) =
      chainWeight (a0 :: rest0) :=
    dedupC_weight (a0 :: rest0) hinj
  have hsSys_mem : sSys ∈ dedupC (a0 :: rest0) := by
    cases hdd : dedupC (a0 :: rest0) with
    | nil => exact absurd hdd (dedupC_ne_nil a0 rest0)
    | cons c cs2 =>
      rw [hdd] at hdh
      simp only [List.head?_cons, Option.some_inj] at hdh
      rw [← hdh]
      exact List.mem_cons_self c cs2
  obtain ⟨m1, v, m2, hdeq, hvcs, hm2⟩ :=
    split_at_last_prop (fun x => sysCd x = cs) (dedupC (a0 :: rest0))
      ⟨sSys, hsSys_mem, hscd⟩
  rw [hdeq] at hdlast hdmem hdchain hdnames hdweight
  cases m2 with
  | nil =>
    exfalso
    rw [List.getLast?_append_cons, List.getLast?_singleton] at hdlast
    have hv : v = eSys := Option.some_inj.mp hdlast
    rw [hv, hecd] at hvcs
    exact absurd (by rw [hvcs, calcDist_self]) (ne_of_gt ctx.hDpos)
  | cons b m3 =>
  have hsfx_mem : ∀ y ∈ v :: b :: m3,
      (y.name, y) ∈ p.allSystems ∧ y.coords.isSome := by
    intro y hy
    exact hdmem y (List.mem_append.mpr (Or.inr hy))
  have hsfx_chain : List.Chain' (fun a b2 => calculateDistance a b2 ≤ range)
      (v :: b :: m3) :=
    hdchain.suffix ⟨m1, rfl⟩
  have hsfx_names : List.Chain' (fun x y => x.name ≠ y.name) (v :: b :: m3) :=
    hdnames.suffix ⟨m1, rfl⟩
  obtain ⟨hbm, hbc⟩ := hsfx_mem b (by simp)
  obtain ⟨cbb, hcbb⟩ := Option.isSome_iff_exists.mp hbc
  have hbcd : sysCd b = cbb := by
    unfold sysCd
    rw [hcbb]
    rfl
  have hb_res : p.scene.getSystem b.name = some b := by
    refine ctx.wf.resolve_key ?_
    rw [← ctx.load]
    exact hbm
  have hbns : sysCd b ≠ cs := hm2 b (List.mem_cons_self b m3)
  have hcd_names : ∀ y ∈ b :: m3, cdN p y.name = sysCd y := by
    intro y hy
    obtain ⟨hym, hyc⟩ := hsfx_mem y (List.mem_cons_of_mem v hy)
    have hres_y : p.scene.getSystem y.name = some y := by
      refine ctx.wf.resolve_key ?_
      rw [← ctx.load]
      exact hym
    unfold cdN nCoords sysCd
    rw [hres_y]
  have hfirst : KEdge p range startName b.name := by
    refine ⟨sSys, cs, b, cbb, ctx.hs, ctx.hsc, hbm, hcbb, ?_, ?_⟩
    · intro h2
      have h3 := (hsfx_mem b (by simp)).1
      have h4 : (sSys.name, sSys) ∈ p.scene.allSystems :=
        ctx.wf.resolve_val ctx.hs
      rw [ctx.load] at h3
      have hbe : b = sSys := ctx.wf.val_inj h3 h4 h2
      rw [hbe, hscd] at hbns
      exact hbns rfl
    · have h2 := (List.chain'_cons.mp hsfx_chain).1
      rw [calculateDistance_eq, hvcs, hbcd] at h2
      exact h2
  refine ⟨startName :: (b :: m3).map StarSystem.name, ⟨⟨rfl, ?_⟩, ?_⟩, ?_, ?_⟩
  · -- the KEdge chain
    rw [List.map_cons]
    refine List.chain'_cons.mpr ⟨hfirst, ?_⟩
    rw [← List.map_cons]
    exact chain_edges ctx (b :: m3)
      (fun y hy => hsfx_mem y (List.mem_cons_of_mem v hy))
      (List.chain'_cons.mp hsfx_chain).2
      (List.chain'_cons.mp hsfx_names).2
  · -- the tail avoids the start's coordinates
    intro n hn
    rw [List.tail_cons] at hn
    obtain ⟨y, hy, hyn⟩ := List.mem_map.mp hn
    rw [← hyn, hcd_names y hy]
    exact hm2 y hy
  · -- it ends at the end key
    have h2 : (b :: m3).getLast? = some eSys := by
      rw [List.getLast?_append_cons, List.getLast?_cons_cons] at hdlast
      exact hdlast
    have h3 := getLast?_map_name (b :: m3) eSys h2
    rw [List.map_cons] at h3 ⊢
    rw [List.getLast?_cons_cons, h3, hkey]
  · -- the weight bound
    have hwname : kWeight p ((b :: m3).map StarSystem.name) =
        chainWeight (b :: m3) :=
      kWeight_map_name ctx (b :: m3)
        (fun y hy => hsfx_mem y (List.mem_cons_of_mem v hy))
    have hstep : kWeight p (startName :: (b :: m3).map StarSystem.name) =
        calcDist cs cbb + chainWeight (b :: m3) := by
      show nwD p startName b.name + kWeight p ((b :: m3).map StarSystem.name) =
        calcDist cs cbb + chainWeight (b :: m3)
      rw [hwname]
      have h2 : nwD p startName b.name = calcDist cs cbb := by
        unfold nwD
        rw [ctx.cd_start, hcd_names b (List.mem_cons_self b m3), hbcd]
      rw [h2]
    have hsfxw : chainWeight (v :: b :: m3) =
        calcDist cs cbb + chainWeight (b :: m3) := by
      show calculateDistance v b + chainWeight (b :: m3) = _
      rw [calculateDistance_eq, hvcs, hbcd]
    have hle := chainWeight_suffix_le m1 (v :: b :: m3) (by simp)
    rw [hstep]
    rw [← hsfxw]
    rw [← hdweight]
    exact hle

theorem map_getLast? {α β : Type} (f : α → β) :
    ∀ (l : List α) (a : α), l.getLast? = some a →
      (l.map f).getLast? = some (f a)
  | [], _ => by intro h; cases h
  | [x], a => by
    intro h
    rw [List.getLast?_singleton] at h
    rw [Option.some_inj.mp h]
    rfl
  | x :: y :: rest, a => by
    intro h
    rw [List.getLast?_cons_cons] at h
    rw [List.map_cons, List.map_cons, List.getLast?_cons_cons, ← List.map_cons]
    exact map_getLast? f (y :: rest) a h

/-- The system list a resolving search path maps to is a valid chain with
matching endpoints and weight. -/
theorem route_chain
    {p : RoutePlanner} {range : ℝ} {startName endName : String}
    {sSys eSys : StarSystem} {cs ce : Coords}
    (ctx : SearchCtx p range startName endName sSys eSys cs ce)
    (l : List String) (hkp : KPath p range startName l)
    (hres : ∀ n ∈ l, (p.scene.getSystem n).isSome) :
    SysChain p range (l.map (resolveSys p)) ∧
    (l.map (resolveSys p)).head? = some sSys ∧
    (l.getLast? = some endName → (l.map (resolveSys p)).getLast? = some eSys) ∧
    chainWeight (l.map (resolveSys p)) = kWeight p l := by
  have hverts := kpath_verts p range startName l hkp
  refine ⟨⟨?_, ?_⟩, ?_, ?_, chainWeight_map_resolve p l hres⟩
  · intro x hx
    obtain ⟨n, hn, hxn⟩ := List.mem_map.mp hx
    obtain ⟨s, c, hres2, hc2, -, -⟩ := ctx.resolve_vert (hverts n hn)
    have hxs : x = s := by
      rw [← hxn]
      unfold resolveSys
      rw [hres2]
      rfl
    have h3 := ctx.wf.resolve_val hres2
    rw [← ctx.load] at h3
    refine ⟨⟨s.name, by rw [hxs]; exact h3⟩, ?_⟩
    rw [hxs, hc2]
    rfl
  · obtain ⟨-, hc⟩ := hkp
    rw [List.chain'_map]
    refine hc.imp ?_
    intro a b hab
    obtain ⟨sa, ca, sb, cbb, hsa, hca, hmb, hcb, -, hd⟩ := hab
    have hra : resolveSys p a = sa := by
      unfold resolveSys
      rw [hsa]
      rfl
    have hrb : resolveSys p b = sb := by
      unfold resolveSys
      rw [ctx.wf.resolve_key (show (b, sb) ∈ p.scene.allSystems by
        rw [← ctx.load]; exact hmb)]
      rfl
    rw [hra, hrb, calculateDistance_eq]
    unfold sysCd
    rw [hca, hcb]
    show calcDist ca cbb ≤ range
    exact hd
  · cases l with
    | nil => cases hkp.1
    | cons x xs =>
      have hx : x = startName := by
        have h2 := hkp.1
        simp only [List.head?_cons, Option.some_inj] at h2
        exact h2
      rw [List.map_cons, List.head?_cons, hx]
      have h2 : resolveSys p startName = sSys := by
        unfold resolveSys
        rw [ctx.hs]
        rfl
      rw [h2]
  · intro hlast
    rw [map_getLast? (resolveSys p) l endName hlast]
    have h2 : resolveSys p endName = eSys := by
      unfold resolveSys
      rw [ctx.he]
      rfl
    rw [h2]

/-! ## Claim C1 — validity and optimality of returned routes -/

/-- **C1.**  For every well-formed loaded catalog, every jump range, and
every pair of start/end names that resolve to catalog systems with
coordinates: if `findRoute` returns a route, that route is a chain of
catalog systems from the start system to the end system in which every
consecutive pair lies at Euclidean distance at most the range, its
`totalDistance` is the chain's total length, and that length is minimal
among all such chains in the implicit graph. -/
theorem findRoute_optimal
    (p : RoutePlanner) (range : ℝ) (startName endName : String)
    (sSys eSys : StarSystem) (cs ce : Coords)
    (hwf : CatalogWF p.scene) (hload : p.allSystems = p.scene.allSystems)
    (hs : p.scene.getSystem startName = some sSys)
    (hsc : sSys.coords = some cs)
    (he : p.scene.getSystem endName = some eSys)
    (hec : eSys.coords = some ce)
    (rd : RouteData) (hfound : findRoute p startName endName range = some rd) :
    SysChain p range rd.route ∧ rd.route.head? = some sSys ∧
    rd.route.getLast? = some eSys ∧ rd.totalDistance = chainWeight rd.route ∧
    ∀ l, SysChain p range l → l.head? = some sSys → l.getLast? = some eSys →
      rd.totalDistance ≤ chainWeight l := by
  have hdist : calculateDistance sSys eSys = calcDist cs ce := by
    rw [calculateDistance_eq]
    unfold sysCd
    rw [hsc, hec]
    rfl
  unfold findRoute findRouteAux at hfound
  rw [hs, he] at hfound
  dsimp only at hfound
  rw [hsc, hec] at hfound
  dsimp only at hfound
  by_cases hfast : calculateDistance sSys eSys ≤ range
  · rw [if_pos hfast] at hfound
    dsimp only at hfound
    have hrd : rd = { route := [sSys, eSys]
                      totalDistance := calculateDistance sSys eSys
                      jumps := 1
                      fuelRequired := fuelPerJump
                      pathNames := none
                      waypoint := none } := (Option.some_inj.mp hfound).symm
    subst hrd
    refine ⟨⟨?_, ?_⟩, rfl, ?_, ?_, ?_⟩
    · intro x hx
      rcases List.mem_cons.mp hx with h | h
      · have h3 := hwf.resolve_val hs
        rw [← hload] at h3
        refine ⟨⟨sSys.name, by rw [h]; exact h3⟩, ?_⟩
        rw [h, hsc]
        rfl
      · rw [List.mem_singleton.mp h]
        have h3 := hwf.resolve_val he
        rw [← hload] at h3
        exact ⟨⟨eSys.name, h3⟩, by rw [hec]; rfl⟩
    · exact List.chain'_pair.mpr hfast
    · rw [List.getLast?_cons_cons, List.getLast?_singleton]
    · show calculateDistance sSys eSys =
        calculateDistance sSys eSys + chainWeight [eSys]
      show calculateDistance sSys eSys = calculateDistance sSys eSys + 0
      rw [add_zero]
    · intro l hchain hhl hll
      have h2 := chainWeight_ge_direct l sSys eSys hhl hll
      show calculateDistance sSys eSys ≤ chainWeight l
      rw [calculateDistance_eq]
      exact h2
  · rw [if_neg hfast] at hfound
    have hD : range < calcDist cs ce := by
      rw [← hdist]
      exact not_le.mp hfast
    by_cases hD0 : calcDist cs ce = 0
    · exfalso
      rw [show maxIterations = 999 + 1 from rfl, aStarLoop] at hfound
      have hsel0 : selectCurrent [startName]
          (mapSet (fun _ => none) startName (calculateDistance sSys eSys)) =
            none := by
        unfold selectCurrent selGo
        rw [show jsOrInf (mapSet (fun _ => none) startName
            (calculateDistance sSys eSys) startName) = none by
          unfold jsOrInf mapSet
          rw [if_pos rfl]
          dsimp only
          rw [if_pos (by rw [hdist, hD0])]]
        rw [if_neg (show ¬scoreLt (none : Option ℝ) none from fun h => h)]
        rfl
      simp only [List.isEmpty_cons, hsel0, Bool.false_eq_true, if_false]
        at hfound
      simp at hfound
    · have hDpos : 0 < calcDist cs ce :=
        lt_of_le_of_ne (calcDist_nonneg _ _) (Ne.symm hD0)
      have ctx : SearchCtx p range startName endName sSys eSys cs ce :=
        ⟨hwf, hload, hs, hsc, he, hec, hDpos, hD⟩
      have hinv0 : LoopInv p range startName endName cs ce
          { openSet := [startName]
            closedSet := []
            gScore := mapSet (fun _ => none) startName 0
            fScore := mapSet (fun _ => none) startName
              (calculateDistance sSys eSys)
            cameFrom := fun _ => none } := by
        refine ⟨List.nodup_singleton _, ?_, ?_, ?_, ?_, ?_, ?_, rfl, ?_,
          Or.inl (List.mem_singleton.mpr rfl), fun _ => ⟨rfl, rfl⟩,
          ?_, ?_, List.not_mem_nil endName⟩
        · intro n _
          exact List.not_mem_nil n
        · intro n hn
          exact Or.inl (List.mem_singleton.mp hn)
        · intro n hn
          exact absurd hn (List.not_mem_nil n)
        · intro n
          show (mapSet (fun _ => none) startName 0 n).isSome ↔ _
          unfold mapSet
          by_cases hn : n = startName
          · rw [if_pos hn]
            simp only [Option.isSome_some]
            refine ⟨fun _ => Or.inl ?_, fun _ => trivial⟩
            rw [hn]
            exact List.mem_singleton.mpr rfl
          · rw [if_neg hn]
            simp only [Option.isSome_none]
            constructor
            · intro h
              exact absurd h (by simp)
            · rintro (h | h)
              · exact absurd (List.mem_singleton.mp h) hn
              · exact absurd h (List.not_mem_nil n)
        · intro n gv hgv
          show mapSet (fun _ => none) startName
            (calculateDistance sSys eSys) n = some (gv + hFun p ce n)
          unfold mapSet at hgv ⊢
          dsimp only at hgv
          by_cases hn : n = startName
          · rw [if_pos hn] at hgv ⊢
            have hg0 : gv = 0 := (Option.some_inj.mp hgv).symm
            have hFs : hFun p ce startName = calcDist cs ce := by
              unfold hFun cdN nCoords
              rw [hs]
              dsimp only
              rw [hsc]
              rfl
            rw [hg0, hn, hFs, zero_add, hdist]
          · rw [if_neg hn] at hgv
            cases hgv
        · intro n gv hgv
          unfold mapSet at hgv
          dsimp only at hgv
          by_cases hn : n = startName
          · rw [if_pos hn] at hgv
            have hg0 : gv = 0 := (Option.some_inj.mp hgv).symm
            subst hn
            refine ⟨[n], Walk.base n rfl, ⟨rfl, List.chain'_singleton _⟩,
              List.getLast?_singleton n, ?_, List.nodup_singleton _, ?_⟩
            · rw [hg0]
              rfl
            · intro m hm
              exact absurd hm (List.not_mem_nil m)
          · rw [if_neg hn] at hgv
            cases hgv
        · show mapSet (fun _ => none) startName 0 startName = some 0
          unfold mapSet
          rw [if_pos rfl]
        · intro n hn
          exact absurd hn (List.not_mem_nil n)
        · intro n hn
          exact absurd hn (List.not_mem_nil n)
      obtain ⟨hkv, l, gv, hkp, hlast, hwt, htd, hroute, hres, hmin⟩ :=
        aStarLoop_sound ctx maxIterations _ hinv0
          (by show ([] : List String).length + maxIterations ≤ maxIterations
              simp) rd hfound
      have hkey : eSys.name = endName := by
        obtain ⟨sb, cbb, hmemb, hcbb⟩ := hkv
        have h2 : p.scene.getSystem endName = some sb := by
          refine hwf.resolve_key ?_
          rw [← hload]
          exact hmemb
        rw [he] at h2
        have hsb : eSys = sb := Option.some_inj.mp h2
        have h3 : (endName, sb) ∈ p.scene.allSystems := by
          rw [← hload]
          exact hmemb
        have h4 := hwf.key_eq (endName, sb) h3
        rw [hsb]
        exact h4.symm
      obtain ⟨hchain_r, hhead_r, hlast_r, hweight_r⟩ := route_chain ctx l hkp hres
      rw [hroute, filterMap_resolve p l hres]
      refine ⟨hchain_r, hhead_r, hlast_r hlast, ?_, ?_⟩
      · rw [htd, hweight_r, hwt]
      · intro l2 hc2 hh2 hl2
        obtain ⟨nl, hnp, hnl_last, hnl_w⟩ :=
          chain_to_npath ctx hkey l2 hc2 hh2 hl2
        have h5 := hmin nl hnp hnl_last
        rw [htd]
        linarith

/-! ### A full concrete search run: `S1 → S3` at range 15 relays via `S2` -/

theorem dist_S3_S3 : calculateDistance sysS3 sysS3 = 0 := by
  show calcDist ⟨25, 0, 0⟩ ⟨25, 0, 0⟩ = 0
  exact calcDist_self _

/-- At range 15, `S1`'s only neighbour is `S2` (10 ly away). -/
theorem testPlanner_nbrs_S1 :
    findSystemsInRange testPlanner.allSystems sysS1 15 = [(sysS2, 10)] := by
  have hd1 : calcDist ⟨0, 0, 0⟩ ⟨10, 0, 0⟩ = 10 := by
    rw [calcDist_x_axis]; norm_num
  have hd2 : calcDist ⟨0, 0, 0⟩ ⟨25, 0, 0⟩ = 25 := by
    rw [calcDist_x_axis]; norm_num
  have hne21 : ¬("S2" : String) = "S1" := by decide
  have hne31 : ¬("S3" : String) = "S1" := by decide
  unfold findSystemsInRange
  simp only [testPlanner, testCatalog, sysS1, sysS2, sysS3,
    List.filterMap_cons, List.filterMap_nil, hd1, hd2, hne21, hne31]
  norm_num [List.mergeSort_singleton]

/-- At range 15, `S2` reaches both `S1` (10 ly) and `S3` (15 ly). -/
theorem testPlanner_nbrs_S2 :
    findSystemsInRange testPlanner.allSystems sysS2 15 =
      [(sysS1, 10), (sysS3, 15)] := by
  have hd1 : calcDist ⟨10, 0, 0⟩ ⟨0, 0, 0⟩ = 10 := by
    rw [calcDist_x_axis]; norm_num
  have hd2 : calcDist ⟨10, 0, 0⟩ ⟨25, 0, 0⟩ = 15 := by
    rw [calcDist_x_axis]; norm_num
  have hne12 : ¬("S1" : String) = "S2" := by decide
  have hne32 : ¬("S3" : String) = "S2" := by decide
  unfold findSystemsInRange
  simp only [testPlanner, testCatalog, sysS1, sysS2, sysS3,
    List.filterMap_cons, List.filterMap_nil, hd1, hd2, hne12, hne32]
  norm_num
  refine List.mergeSort_of_sorted ?_
  refine List.pairwise_cons.mpr ⟨?_, List.pairwise_singleton _ _⟩
  intro b hb
  rw [List.mem_singleton.mp hb]
  exact decide_eq_true (by norm_num : ((sysS1, (10:ℝ)).2 ≤ (sysS3, (15:ℝ)).2))

/-- The route the search reconstructs for `S1 → S3` at range 15. -/
noncomputable def rdS1S3 : RouteData :=
  { route := [sysS1, sysS2, sysS3]
    totalDistance := 25
    jumps := 2
    fuelRequired := 4
    pathNames := some ["S1", "S2", "S3"]
    waypoint := none }

/-- The search from `S1` to `S3` at range 15 takes three iterations and
returns the relayed path `S1 → S2 → S3` of total length 25. -/
theorem testPlanner_searchRoute :
    findRouteAux testPlanner "S1" "S3" 15 = (some rdS1S3, 3) := by
  have hrelax1 : relaxNeighbor sysS3 "S1"
      { openSet := [], closedSet := ["S1"],
        gScore := mapSet (fun _ => none) "S1" 0,
        fScore := mapSet (fun _ => none) "S1" 25,
        cameFrom := fun _ => none } (sysS2, 10) =
      { openSet := ["S2"], closedSet := ["S1"],
        gScore := mapSet (mapSet (fun _ => none) "S1" 0) "S2" 10,
        fScore := mapSet (mapSet (fun _ => none) "S1" 25) "S2" 25,
        cameFrom := mapSet (fun _ => none) "S2" "S1" } := by
    unfold relaxNeighbor
    dsimp only
    rw [show sysS2.name = "S2" from rfl]
    rw [if_neg (show ¬((["S1"].contains "S2") = true) by decide)]
    rw [if_neg (show ¬((([] : List String).contains "S2") = true) by decide)]
    rw [show mapSet (fun _ => none) "S1" (0:ℝ) "S1" = some 0 from by
      unfold mapSet; rw [if_pos rfl]]
    rw [show ((some (0:ℝ)).getD 0 + 10 : ℝ) = 10 from by norm_num]
    rw [dist_S2_S3]
    rw [show ((10:ℝ) + 15 : ℝ) = 25 from by norm_num]
    rfl
  have hrelax2a : relaxNeighbor sysS3 "S2"
      { openSet := [], closedSet := ["S1", "S2"],
        gScore := mapSet (mapSet (fun _ => none) "S1" 0) "S2" 10,
        fScore := mapSet (mapSet (fun _ => none) "S1" 25) "S2" 25,
        cameFrom := mapSet (fun _ => none) "S2" "S1" } (sysS1, 10) =
      { openSet := [], closedSet := ["S1", "S2"],
        gScore := mapSet (mapSet (fun _ => none) "S1" 0) "S2" 10,
        fScore := mapSet (mapSet (fun _ => none) "S1" 25) "S2" 25,
        cameFrom := mapSet (fun _ => none) "S2" "S1" } := by
    unfold relaxNeighbor
    dsimp only
    rw [show sysS1.name = "S1" from rfl]
    rw [if_pos (show (["S1", "S2"].contains "S1") = true from rfl)]
  have hrelax2b : relaxNeighbor sysS3 "S2"
      { openSet := [], closedSet := ["S1", "S2"],
        gScore := mapSet (mapSet (fun _ => none) "S1" 0) "S2" 10,
        fScore := mapSet (mapSet (fun _ => none) "S1" 25) "S2" 25,
        cameFrom := mapSet (fun _ => none) "S2" "S1" } (sysS3, 15) =
      { openSet := ["S3"], closedSet := ["S1", "S2"],
        gScore := mapSet (mapSet (mapSet (fun _ => none) "S1" 0) "S2" 10)
          "S3" 25,
        fScore := mapSet (mapSet (mapSet (fun _ => none) "S1" 25) "S2" 25)
          "S3" 25,
        cameFrom := mapSet (mapSet (fun _ => none) "S2" "S1") "S3" "S2" } := by
    unfold relaxNeighbor
    dsimp only
    rw [show sysS3.name = "S3" from rfl]
    rw [if_neg (show ¬((["S1", "S2"].contains "S3") = true) by decide)]
    rw [if_neg (show ¬((([] : List String).contains "S3") = true) by decide)]
    rw [show mapSet (mapSet (fun _ => none) "S1" (0:ℝ)) "S2" 10 "S2" =
        some 10 from by
      unfold mapSet; rw [if_pos rfl]]
    rw [show ((some (10:ℝ)).getD 0 + 15 : ℝ) = 25 from by norm_num]
    rw [dist_S3_S3, add_zero]
    rfl
  have hwalk : reconstructWalk
      (mapSet (mapSet (fun _ => none) "S2" "S1") "S3" "S2")
      (maxIterations + 1) "S3" = ["S1", "S2", "S3"] := by
    have w1 : Walk (mapSet (mapSet (fun _ => none) "S2" "S1") "S3" "S2")
        "S1" ["S1"] := Walk.base "S1" rfl
    have w2 : Walk (mapSet (mapSet (fun _ => none) "S2" "S1") "S3" "S2")
        "S2" (["S1"] ++ ["S2"]) := Walk.step "S2" "S1" ["S1"] rfl w1
    have w3 : Walk (mapSet (mapSet (fun _ => none) "S2" "S1") "S3" "S2")
        "S3" ((["S1"] ++ ["S2"]) ++ ["S3"]) :=
      Walk.step "S3" "S2" (["S1"] ++ ["S2"]) rfl w2
    exact Walk.reconstruct w3 (maxIterations + 1) (by norm_num [maxIterations])
  have hpd : pathDistance testPlanner.scene ["S1", "S2", "S3"] = 25 := by
    rw [pathDistance, pathDistance, testPlanner_get_S1, testPlanner_get_S2,
      testPlanner_get_S3]
    dsimp only
    rw [dist_S1_S2, dist_S2_S3]
    show (10 : ℝ) + (15 + pathDistance testPlanner.scene ["S3"]) = 25
    rw [show pathDistance testPlanner.scene ["S3"] = 0 from rfl]
    norm_num
  have hrecon : reconstructPath testPlanner.scene
      (mapSet (mapSet (fun _ => none) "S2" "S1") "S3" "S2") "S3" = rdS1S3 := by
    unfold reconstructPath
    dsimp only
    rw [hwalk, hpd]
    rfl
  rw [findRouteAux, testPlanner_get_S1, testPlanner_get_S3]
  show (match sysS1.coords, sysS3.coords with
    | some _, some _ => _
    | _, _ => (none, 0)) = (some rdS1S3, 3)
  rw [show sysS1.coords = some ⟨0, 0, 0⟩ from rfl,
    show sysS3.coords = some ⟨25, 0, 0⟩ from rfl]
  dsimp only
  rw [dist_S1_S3, if_neg (by norm_num : ¬(25:ℝ) ≤ 15)]
  -- iteration 1: pop S1, relax S2
  rw [show maxIterations = 999 + 1 from rfl, aStarLoop]
  have hsel1 : selectCurrent ["S1"]
      (mapSet (fun _ => none) "S1" (25:ℝ)) = some "S1" := by
    unfold selectCurrent selGo
    rw [show jsOrInf (mapSet (fun _ => none) "S1" (25:ℝ) "S1") = some 25 by
      unfold jsOrInf mapSet
      norm_num]
    rw [if_pos (by trivial : scoreLt (some 25) none)]
    rfl
  simp only [List.isEmpty_cons, hsel1, Bool.false_eq_true, if_false]
  rw [if_neg (by simp : ¬("S1" : String) = "S3")]
  rw [testPlanner_get_S1]
  dsimp only
  rw [show (["S1"].erase "S1") = [] by simp,
    show jsSetAdd [] "S1" = ["S1"] from rfl]
  rw [testPlanner_nbrs_S1]
  rw [List.foldl_cons, List.foldl_nil, hrelax1]
  -- iteration 2: pop S2, skip closed S1, relax S3
  rw [show (999 : ℕ) = 998 + 1 from rfl, aStarLoop]
  have hsel2 : selectCurrent ["S2"]
      (mapSet (mapSet (fun _ => none) "S1" (25:ℝ)) "S2" 25) = some "S2" := by
    unfold selectCurrent selGo
    rw [show jsOrInf (mapSet (mapSet (fun _ => none) "S1" (25:ℝ)) "S2" 25
        "S2") = some 25 by
      unfold jsOrInf mapSet
      norm_num]
    rw [if_pos (by trivial : scoreLt (some 25) none)]
    rfl
  simp only [List.isEmpty_cons, hsel2, Bool.false_eq_true, if_false]
  rw [if_neg (by simp : ¬("S2" : String) = "S3")]
  rw [testPlanner_get_S2]
  dsimp only
  rw [show (["S2"].erase "S2") = [] by simp,
    show jsSetAdd ["S1"] "S2" = ["S1", "S2"] from rfl]
  rw [testPlanner_nbrs_S2]
  rw [List.foldl_cons, List.foldl_cons, List.foldl_nil, hrelax2a, hrelax2b]
  -- iteration 3: pop S3 — the destination — and reconstruct
  rw [show (998 : ℕ) = 997 + 1 from rfl, aStarLoop]
  have hsel3 : selectCurrent ["S3"]
      (mapSet (mapSet (mapSet (fun _ => none) "S1" (25:ℝ)) "S2" 25) "S3" 25) =
        some "S3" := by
    unfold selectCurrent selGo
    rw [show jsOrInf (mapSet (mapSet (mapSet (fun _ => none) "S1" (25:ℝ))
        "S2" 25) "S3" 25 "S3") = some 25 by
      unfold jsOrInf mapSet
      norm_num]
    rw [if_pos (by trivial : scoreLt (some 25) none)]
    rfl
  simp only [List.isEmpty_cons, hsel3, Bool.false_eq_true, if_false]
  simp only [if_true]
  rw [hrecon]

/-- Witness for C1: at the concrete catalog with range 15 the direct hop
`S1 → S3` (25 ly) is out of range, the search relays through `S2`, and
the returned route is the optimal chain `S1 → S2 → S3` of total length
25. -/
theorem findRoute_optimal_witness :
    ∃ rd, findRoute testPlanner "S1" "S3" 15 = some rd ∧
      SysChain testPlanner 15 rd.route ∧ rd.route.head? = some sysS1 ∧
      rd.route.getLast? = some sysS3 ∧
      rd.totalDistance = chainWeight rd.route ∧
      ∀ l, SysChain testPlanner 15 l → l.head? = some sysS1 →
        l.getLast? = some sysS3 → rd.totalDistance ≤ chainWeight l := by
  have hwfT : CatalogWF testPlanner.scene := by
    refine ⟨?_, ?_, ?_, rfl⟩
    · intro ent hent
      rcases List.mem_cons.mp hent with h | hent2
      · rw [h]; rfl
      rcases List.mem_cons.mp hent2 with h | hent3
      · rw [h]; rfl
      rcases List.mem_cons.mp hent3 with h | hent4
      · rw [h]; rfl
      · exact absurd hent4 (List.not_mem_nil ent)
    · show (["S1", "S2", "S3"] : List String).Nodup
      decide
    · show (["s1", "s2", "s3"] : List String).Nodup
      decide
  have hfound : findRoute testPlanner "S1" "S3" 15 = some rdS1S3 := by
    unfold findRoute
    rw [testPlanner_searchRoute]
  exact ⟨rdS1S3, hfound,
    findRoute_optimal testPlanner 15 "S1" "S3" sysS1 sysS3 ⟨0, 0, 0⟩
      ⟨25, 0, 0⟩ hwfT rfl rfl rfl rfl rfl rdS1S3 hfound⟩

/-! ## Claim C3 — the exception-aware rendering of the search

`calculateDistance` reads `system.coords.x` unconditionally, so in the
source it throws a `TypeError` on a system without coordinates;
`findSystemsInRange` calls it for every non-centre catalog entry with no
guard, and `reconstructPath` calls it on every resolving predecessor
pair.  The renderings below propagate that exception (`none` = a thrown
`TypeError`); everything else is identical to the total rendering, and
`findRouteAuxE_eq` proves the two agree whenever every catalog entry
carries coordinates. -/

/-- `calculateDistance`, exception-aware: reading `coords.x` of a system
without coordinates throws (`none`). -/
noncomputable def calculateDistanceE (s1 s2 : StarSystem) : Option ℝ :=
  match s1.coords, s2.coords with
  | some c1, some c2 => some (calcDist c1 c2)
  | _, _ => none

/-- The scan loop of `findSystemsInRange`, exception-aware: the first
unmeasurable non-centre entry aborts the whole call. -/
noncomputable def sirGo (centerSystem : StarSystem) (range : ℝ) :
    List (String × StarSystem) → Option (List (StarSystem × ℝ))
  | [] => some []
  | e :: rest =>
    if e.1 = centerSystem.name then sirGo centerSystem range rest
    else
      match calculateDistanceE centerSystem e.2 with
      | none => none
      | some distance =>
        match sirGo centerSystem range rest with
        | none => none
        | some acc =>
          some (if distance ≤ range then (e.2, distance) :: acc else acc)

/-- `findSystemsInRange`, exception-aware. -/
noncomputable def findSystemsInRangeE
    (allSystems : List (String × StarSystem)) (centerSystem : StarSystem)
    (range : ℝ) : Option (List (StarSystem × ℝ)) :=
  (sirGo centerSystem range allSystems).map
    (fun l => l.mergeSort (fun a b => a.2 ≤ b.2))

/-- One neighbour-relaxation step, exception-aware: the heuristic
`calculateDistance(neighbor, endSystem)` of the update branch can
throw. -/
noncomputable def relaxNeighborE (endSystem : StarSystem) (current : String)
    (st : AStarState) (nd : StarSystem × ℝ) : Option AStarState :=
  let neighbor := nd.1
  let distance := nd.2
  if st.closedSet.contains neighbor.name then some st
  else
    let tentativeGScore := (st.gScore current).getD 0 + distance
    let update : ℝ → AStarState → AStarState := fun heuristic s =>
      { s with
        cameFrom := mapSet s.cameFrom neighbor.name current
        gScore := mapSet s.gScore neighbor.name tentativeGScore
        fScore := mapSet s.fScore neighbor.name (tentativeGScore + heuristic) }
    if st.openSet.contains neighbor.name then
      if geJsOrInf tentativeGScore (st.gScore neighbor.name) then some st
      else
        match calculateDistanceE neighbor endSystem with
        | none => none
        | some heuristic => some (update heuristic st)
    else
      match calculateDistanceE neighbor endSystem with
      | none => none
      | some heuristic =>
        some (update heuristic { st with openSet := st.openSet ++ [neighbor.name] })

/-- The neighbour loop, exception-aware. -/
noncomputable def relaxFoldE (endSystem : StarSystem) (current : String) :
    List (StarSystem × ℝ) → AStarState → Option AStarState
  | [], st => some st
  | nd :: rest, st =>
    match relaxNeighborE endSystem current st nd with
    | none => none
    | some st2 => relaxFoldE endSystem current rest st2

/-- The `totalDistance` accumulation of `reconstructPath`,
exception-aware: a resolving pair with a missing coordinate throws. -/
noncomputable def pathDistanceE (scene : Catalog) : List String → Option ℝ
  | a :: b :: rest =>
    (match scene.getSystem a, scene.getSystem b with
     | some prevSystem, some currSystem =>
       match calculateDistanceE prevSystem currSystem,
           pathDistanceE scene (b :: rest) with
       | some d, some r => some (d + r)
       | _, _ => none
     | _, _ => pathDistanceE scene (b :: rest))
  | _ => some 0

/-- `reconstructPath`, exception-aware. -/
noncomputable def reconstructPathE (scene : Catalog)
    (cameFrom : String → Option String) (current : String) :
    Option RouteData :=
  let path := reconstructWalk cameFrom (maxIterations + 1) current
  match pathDistanceE scene path with
  | none => none
  | some totalDistance =>
    let route := path.filterMap scene.getSystem
    let jumps : ℤ := (route.length : ℤ) - 1
    some { route := route
           totalDistance := totalDistance
           jumps := jumps
           fuelRequired := jumps * fuelPerJump
           pathNames := some path
           waypoint := none }

/-- The A* loop, exception-aware (outer `none` = a thrown `TypeError`,
inner `none` = the `NotFound` value `null`). -/
noncomputable def aStarLoopE (p : RoutePlanner) (endSystemName : String)
    (endSystem : StarSystem) (maxJumpRange : ℝ) :
    ℕ → AStarState → Option (Option RouteData × ℕ)
  | 0, _ => some (none, 0)
  | fuel + 1, st =>
    if st.openSet.isEmpty then some (none, 0)
    else
      match selectCurrent st.openSet st.fScore with
      | none => some (none, 1)
      | some current =>
        if current = endSystemName then
          match reconstructPathE p.scene st.cameFrom current with
          | none => none
          | some rd => some (some rd, 1)
        else
          let st1 : AStarState :=
            { st with
              openSet := st.openSet.erase current
              closedSet := jsSetAdd st.closedSet current }
          match p.scene.getSystem current with
          | none =>
            match aStarLoopE p endSystemName endSystem maxJumpRange fuel st1 with
            | none => none
            | some r => some (r.1, r.2 + 1)
          | some currentSystem =>
            match findSystemsInRangeE p.allSystems currentSystem maxJumpRange with
            | none => none
            | some neighbors =>
              match relaxFoldE endSystem current neighbors st1 with
              | none => none
              | some st2 =>
                match aStarLoopE p endSystemName endSystem maxJumpRange fuel st2 with
                | none => none
                | some r => some (r.1, r.2 + 1)

/-- `findRoute`, exception-aware (the direct-distance computations are
guarded by the source's `!startSystem.coords || !endSystem.coords` check
and cannot throw). -/
noncomputable def findRouteAuxE (p : RoutePlanner)
    (startSystemName endSystemName : String) (maxJumpRange : ℝ) :
    Option (Option RouteData × ℕ) :=
  match p.scene.getSystem startSystemName, p.scene.getSystem endSystemName with
  | some startSystem, some endSystem =>
    match startSystem.coords, endSystem.coords with
    | some _, some _ =>
      let directDistance := calculateDistance startSystem endSystem
      if directDistance ≤ maxJumpRange then
        some (some { route := [startSystem, endSystem]
                     totalDistance := directDistance
                     jumps := 1
                     fuelRequired := fuelPerJump
                     pathNames := none
                     waypoint := none }, 0)
      else
        aStarLoopE p endSystemName endSystem maxJumpRange maxIterations
          { openSet := [startSystemName]
            closedSet := []
            gScore := mapSet (fun _ => none) startSystemName 0
            fScore := mapSet (fun _ => none) startSystemName
              (calculateDistance startSystem endSystem)
            cameFrom := fun _ => none }
    | _, _ => some (none, 0)
  | _, _ => some (none, 0)

/-- A coordinate-complete catalog: every entry carries coordinates (no
`TypeError` source inside the search). -/
def CoordsComplete (c : Catalog) : Prop :=
  ∀ ent ∈ c.allSystems, ent.2.coords.isSome

/-- In a coordinate-complete catalog, every resolved system has
coordinates. -/
theorem CoordsComplete.getSystem_isSome {c : Catalog}
    (h : CoordsComplete c) {n : String} {s : StarSystem}
    (hres : c.getSystem n = some s) : s.coords.isSome := by
  unfold Catalog.getSystem at hres
  cases ho : alookup c.systemNameMap (normalizeSystemName n) with
  | none =>
    rw [ho] at hres
    cases hres
  | some actual =>
    rw [ho] at hres
    exact h (actual, s) (alookup_mem _ _ _ hres)

theorem calculateDistanceE_eq {s1 s2 : StarSystem} {c1 c2 : Coords}
    (h1 : s1.coords = some c1) (h2 : s2.coords = some c2) :
    calculateDistanceE s1 s2 = some (calculateDistance s1 s2) := by
  unfold calculateDistanceE calculateDistance
  rw [h1, h2]
  rfl

theorem sirGo_eq (centerSystem : StarSystem) (range : ℝ) (cc : Coords)
    (hc : centerSystem.coords = some cc) :
    ∀ l : List (String × StarSystem), (∀ ent ∈ l, ent.2.coords.isSome) →
      sirGo centerSystem range l = some (l.filterMap (fun e =>
        if e.1 = centerSystem.name then none
        else
          match centerSystem.coords, e.2.coords with
          | some cc2, some sc =>
            let distance := calcDist cc2 sc
            if distance ≤ range then some (e.2, distance) else none
          | _, _ => none)) := by
  intro l
  induction l with
  | nil => intro _; rfl
  | cons e rest ih =>
    intro hco
    have hrest := ih (fun ent h => hco ent (List.mem_cons_of_mem e h))
    obtain ⟨sc, hsc⟩ := Option.isSome_iff_exists.mp
      (hco e (List.mem_cons_self e rest))
    rw [sirGo, List.filterMap_cons]
    by_cases hk : e.1 = centerSystem.name
    · simp only [if_pos hk]
      exact hrest
    · simp only [if_neg hk]
      rw [show calculateDistanceE centerSystem e.2 = some (calcDist cc sc) by
        unfold calculateDistanceE
        rw [hc, hsc]]
      dsimp only
      rw [hrest, hc, hsc]
      dsimp only
      by_cases hd : calcDist cc sc ≤ range
      · simp only [if_pos hd]
      · simp only [if_neg hd]

theorem findSystemsInRangeE_eq (allSystems : List (String × StarSystem))
    (centerSystem : StarSystem) (range : ℝ) {cc : Coords}
    (hc : centerSystem.coords = some cc)
    (hall : ∀ ent ∈ allSystems, ent.2.coords.isSome) :
    findSystemsInRangeE allSystems centerSystem range =
      some (findSystemsInRange allSystems centerSystem range) := by
  unfold findSystemsInRangeE findSystemsInRange
  rw [sirGo_eq centerSystem range cc hc allSystems hall]
  rfl

theorem relaxNeighborE_eq (endSystem : StarSystem) (current : String)
    (st : AStarState) (nd : StarSystem × ℝ) {ce2 cb : Coords}
    (hec : endSystem.coords = some ce2) (hcb : nd.1.coords = some cb) :
    relaxNeighborE endSystem current st nd =
      some (relaxNeighbor endSystem current st nd) := by
  unfold relaxNeighborE relaxNeighbor
  dsimp only
  rw [calculateDistanceE_eq hcb hec]
  by_cases h1 : st.closedSet.contains nd.1.name = true
  · simp only [if_pos h1]
  · simp only [if_neg h1]
    by_cases h2 : st.openSet.contains nd.1.name = true
    · simp only [if_pos h2]
      by_cases h3 : geJsOrInf ((st.gScore current).getD 0 + nd.2)
          (st.gScore nd.1.name)
      · simp only [if_pos h3]
      · simp only [if_neg h3]
    · simp only [if_neg h2]

theorem relaxFoldE_eq (endSystem : StarSystem) (current : String)
    {ce2 : Coords} (hec : endSystem.coords = some ce2) :
    ∀ (l : List (StarSystem × ℝ)) (st : AStarState),
      (∀ nd ∈ l, nd.1.coords.isSome) →
      relaxFoldE endSystem current l st =
        some (l.foldl (relaxNeighbor endSystem current) st) := by
  intro l
  induction l with
  | nil => intro st _; rfl
  | cons nd rest ih =>
    intro st hco
    obtain ⟨cb, hcb⟩ := Option.isSome_iff_exists.mp
      (hco nd (List.mem_cons_self nd rest))
    rw [relaxFoldE, relaxNeighborE_eq endSystem current st nd hec hcb]
    dsimp only
    rw [List.foldl_cons]
    exact ih (relaxNeighbor endSystem current st nd)
      (fun x h => hco x (List.mem_cons_of_mem nd h))

/-- Every neighbour produced by the total scan has coordinates. -/
theorem findSystemsInRange_coords (cat : List (String × StarSystem))
    (center : StarSystem) (range : ℝ) :
    ∀ nd ∈ findSystemsInRange cat center range, nd.1.coords.isSome := by
  intro nd h
  obtain ⟨k, cc, sc, -, -, -, hsc, -, -⟩ :=
    (mem_findSystemsInRange cat center range nd.1 nd.2).mp h
  rw [hsc]
  rfl

theorem pathDistanceE_eq (scene : Catalog) (hcc : CoordsComplete scene) :
    ∀ l : List String, pathDistanceE scene l = some (pathDistance scene l)
  | [] => rfl
  | [_] => rfl
  | a :: b :: rest => by
    have ih := pathDistanceE_eq scene hcc (b :: rest)
    rw [pathDistanceE, pathDistance]
    cases ha : scene.getSystem a with
    | none =>
      dsimp only
      rw [ih, zero_add]
    | some sa =>
      cases hb : scene.getSystem b with
      | none =>
        dsimp only
        rw [ih, zero_add]
      | some sb =>
        dsimp only
        obtain ⟨ca2, hca2⟩ :=
          Option.isSome_iff_exists.mp (hcc.getSystem_isSome ha)
        obtain ⟨cb2, hcb2⟩ :=
          Option.isSome_iff_exists.mp (hcc.getSystem_isSome hb)
        rw [calculateDistanceE_eq hca2 hcb2, ih]

theorem reconstructPathE_eq (scene : Catalog) (hcc : CoordsComplete scene)
    (cameFrom : String → Option String) (current : String) :
    reconstructPathE scene cameFrom current =
      some (reconstructPath scene cameFrom current) := by
  unfold reconstructPathE reconstructPath
  dsimp only
  rw [pathDistanceE_eq scene hcc]

theorem aStarLoopE_eq (p : RoutePlanner) (endSystemName : String)
    (endSystem : StarSystem) (range : ℝ)
    (hcc : CoordsComplete p.scene)
    (hload : p.allSystems = p.scene.allSystems)
    {ce2 : Coords} (hec : endSystem.coords = some ce2) :
    ∀ fuel st, aStarLoopE p endSystemName endSystem range fuel st =
      some (aStarLoop p endSystemName endSystem range fuel st) := by
  intro fuel
  induction fuel with
  | zero => intro st; rfl
  | succ fuel ih =>
    intro st
    rw [aStarLoopE, aStarLoop]
    by_cases hemp : st.openSet.isEmpty = true
    · simp only [if_pos hemp]
    · simp only [if_neg hemp]
      cases hsel : selectCurrent st.openSet st.fScore with
      | none => rfl
      | some current =>
        dsimp only
        by_cases hend : current = endSystemName
        · simp only [if_pos hend]
          rw [reconstructPathE_eq p.scene hcc]
        · simp only [if_neg hend]
          cases hres : p.scene.getSystem current with
          | none =>
            dsimp only
            rw [ih]
          | some currentSystem =>
            dsimp only
            obtain ⟨cc2, hcc2⟩ :=
              Option.isSome_iff_exists.mp (hcc.getSystem_isSome hres)
            rw [findSystemsInRangeE_eq p.allSystems currentSystem range hcc2
              (by rw [hload]; exact hcc)]
            dsimp only
            rw [relaxFoldE_eq endSystem current hec
              (findSystemsInRange p.allSystems currentSystem range) _
              (findSystemsInRange_coords p.allSystems currentSystem range)]
            dsimp only
            rw [ih]

/-- The two renderings of `findRoute` agree — in particular no exception
is thrown — on every coordinate-complete catalog. -/
theorem findRouteAuxE_eq (p : RoutePlanner) (startName endName : String)
    (range : ℝ) (hcc : CoordsComplete p.scene)
    (hload : p.allSystems = p.scene.allSystems) :
    findRouteAuxE p startName endName range =
      some (findRouteAux p startName endName range) := by
  unfold findRouteAuxE findRouteAux
  cases hs : p.scene.getSystem startName with
  | none => rfl
  | some startSystem =>
    cases he : p.scene.getSystem endName with
    | none => rfl
    | some endSystem =>
      dsimp only
      cases hsc : startSystem.coords with
      | none => rfl
      | some cs2 =>
        cases hec : endSystem.coords with
        | none => rfl
        | some ce2 =>
          dsimp only
          by_cases hfast : calculateDistance startSystem endSystem ≤ range
          · simp only [if_pos hfast]
          · simp only [if_neg hfast]
            exact aStarLoopE_eq p endName endSystem range hcc hload hec _ _

/-! ### A catalog entry without coordinates makes the search throw -/

noncomputable def sysGhost : StarSystem := ⟨"C", none⟩

noncomputable def ghostCatalog : Catalog :=
  { allSystems := [("A", sysA), ("C", sysGhost), ("B", sysB)]
    systemNameMap := [("a", "A"), ("c", "C"), ("b", "B")] }

noncomputable def ghostPlanner : RoutePlanner :=
  { scene := ghostCatalog
    allSystems := ghostCatalog.allSystems
    anchors := []
    currentRoute := none
    maxJumpRange := 50 }

theorem ghostPlanner_get_A : ghostPlanner.scene.getSystem "A" = some sysA := rfl

theorem ghostPlanner_get_B : ghostPlanner.scene.getSystem "B" = some sysB := rfl

/-- **Counterexample to C3 as stated.**  The claim promises that for
*every* catalog `findRoute` never throws.  With the coordless entry `C`
in the catalog, routing `A → B` at range 2 passes the start/end guards,
enters the search, and the very first expansion's neighbour scan
dereferences `coords.x` of `C` — a thrown `TypeError` (`none` in the
exception-aware rendering), not a returned `null`. -/
theorem findRoute_throws_counterexample :
    ("C", sysGhost) ∈ ghostPlanner.scene.allSystems ∧
    sysGhost.coords = none ∧
    findRouteAuxE ghostPlanner "A" "B" 2 = none := by
  refine ⟨List.mem_cons_of_mem _ (List.mem_cons_self _ _), rfl, ?_⟩
  rw [findRouteAuxE, ghostPlanner_get_A, ghostPlanner_get_B]
  show (match sysA.coords, sysB.coords with
    | some _, some _ => _
    | _, _ => some (none, 0)) = none
  rw [show sysA.coords = some ⟨0, 0, 0⟩ from rfl,
    show sysB.coords = some ⟨100, 0, 0⟩ from rfl]
  dsimp only
  rw [dist_A_B, if_neg (by norm_num : ¬(100:ℝ) ≤ 2)]
  rw [show maxIterations = 999 + 1 from rfl, aStarLoopE]
  have hsel : selectCurrent ["A"] (mapSet (fun _ => none) "A" (100:ℝ)) =
      some "A" := by
    unfold selectCurrent selGo
    rw [show jsOrInf (mapSet (fun _ => none) "A" (100:ℝ) "A") = some 100 by
      unfold jsOrInf mapSet
      norm_num]
    rw [if_pos (by trivial : scoreLt (some 100) none)]
    rfl
  simp only [List.isEmpty_cons, hsel, Bool.false_eq_true, if_false]
  rw [if_neg (by simp : ¬("A" : String) = "B")]
  rw [ghostPlanner_get_A]
  dsimp only
  rw [show findSystemsInRangeE ghostPlanner.allSystems sysA 2 = none from rfl]

/-- **C3 (amended).**  The search loop is bounded by 1000 expansions and
`findRoute` reports `NotFound` as the ordinary value `null` — *provided
every catalog entry carries coordinates*.  Contrary to the original
claim's "for every catalog … never throws", a catalog entry without
coordinates makes `findRoute` throw a `TypeError` out of
`calculateDistance` as soon as any vertex is expanded (see the
counterexample).  On coordinate-complete catalogs the exception-aware
rendering agrees with the total one, so every outcome is an ordinary
value: `null` when the open set empties or the cap is reached, a route
otherwise. -/
theorem findRoute_bounded_noThrow (p : RoutePlanner)
    (startName endName : String) (range : ℝ)
    (hcc : CoordsComplete p.scene)
    (hload : p.allSystems = p.scene.allSystems) :
    findRouteAuxE p startName endName range =
      some (findRouteAux p startName endName range) ∧
    (findRouteAux p startName endName range).2 ≤ maxIterations ∧
    (findRoute p startName endName range = none ∨
      ∃ rd, findRoute p startName endName range = some rd) := by
  obtain ⟨h1, h2⟩ := findRoute_bounded p startName endName range
  exact ⟨findRouteAuxE_eq p startName endName range hcc hload, h1, h2⟩

/-- Witness for C3 (amended): the two-system catalog is
coordinate-complete, so the search from `A` to `B` at range 1 throws
nothing, agrees with the total rendering, and stays within the cap. -/
theorem findRoute_bounded_noThrow_witness :
    CoordsComplete farPlanner.scene ∧
    (findRouteAuxE farPlanner "A" "B" 1 =
        some (findRouteAux farPlanner "A" "B" 1) ∧
      (findRouteAux farPlanner "A" "B" 1).2 ≤ maxIterations ∧
      (findRoute farPlanner "A" "B" 1 = none ∨
        ∃ rd, findRoute farPlanner "A" "B" 1 = some rd)) := by
  have hcc : CoordsComplete farPlanner.scene := by
    intro ent hent
    rcases List.mem_cons.mp hent with h | hent2
    · rw [h]; rfl
    rcases List.mem_cons.mp hent2 with h | hent3
    · rw [h]; rfl
    · exact absurd hent3 (List.not_mem_nil ent)
  exact ⟨hcc, findRoute_bounded_noThrow farPlanner "A" "B" 1 hcc rfl⟩

end Oasis
